import Mathlib

/-!
# LD r² matrix: COO ingestion, CSR construction, validation and lookup

A shallow embedding of `src/ld_matrix_csr.cc` (class `LdMatrixCsr`).

* `float` is `Flt`: a rational (arithmetic is taken exactly, without rounding), the two
  infinities, or NaN.  Comparisons follow IEEE: every comparison with NaN is false.
* `int`, `int64_t` are `Int`; `std::vector` is `List`, read with `vec_at`, which gives
  `none` outside the bounds.
* A member function is a `Step`: it takes the object and gives the object it leaves behind
  together with an `Outcome`: normal return, a thrown `std::runtime_error` (with its
  message), or undefined behaviour (an out-of-bounds `operator[]`, a null dereference).
-/

/-! ## Definitions: the embedding of the code, then the notions the theorems are stated with -/

/-- Values of the C++ type `float`. -/
inductive Flt where
  | fin (q : ℚ)
  | pinf
  | ninf
  | nan
  deriving DecidableEq

namespace Flt

/-- The test `std::isfinite`. -/
def isfinite : Flt → Bool
  | fin _ => true
  | _ => false

/-- The comparison `a < b` of two floats; false when either side is NaN. -/
def lt : Flt → Flt → Bool
  | nan, _ => false
  | _, nan => false
  | fin a, fin b => decide (a < b)
  | fin _, pinf => true
  | fin _, ninf => false
  | pinf, _ => false
  | ninf, ninf => false
  | ninf, _ => true

/-- The comparison `a <= b` of two floats; false when either side is NaN. -/
def le : Flt → Flt → Bool
  | nan, _ => false
  | _, nan => false
  | fin a, fin b => decide (a ≤ b)
  | fin _, pinf => true
  | fin _, ninf => false
  | pinf, pinf => true
  | pinf, _ => false
  | ninf, _ => true

/-- The comparison `a != b` of two floats; true when either side is NaN. -/
def ne : Flt → Flt → Bool
  | nan, _ => true
  | _, nan => true
  | a, b => decide (a ≠ b)

/-- Unary minus. -/
def neg : Flt → Flt
  | fin a => fin (-a)
  | pinf => ninf
  | ninf => pinf
  | nan => nan

/-- Float addition, exact on finite values. -/
def add : Flt → Flt → Flt
  | nan, _ => nan
  | _, nan => nan
  | fin a, fin b => fin (a + b)
  | fin _, pinf => pinf
  | fin _, ninf => ninf
  | pinf, ninf => nan
  | pinf, _ => pinf
  | ninf, pinf => nan
  | ninf, _ => ninf

/-- Float subtraction. -/
def sub (a b : Flt) : Flt := add a (neg b)

/-- An infinity times a finite value `q`: NaN for zero, otherwise by sign. -/
def infTimes (positive : Bool) (q : ℚ) : Flt :=
  if q = 0 then nan else if (decide (0 < q)) = positive then pinf else ninf

/-- Float multiplication, exact on finite values. -/
def mul : Flt → Flt → Flt
  | nan, _ => nan
  | _, nan => nan
  | fin a, fin b => fin (a * b)
  | fin a, pinf => infTimes true a
  | fin a, ninf => infTimes false a
  | pinf, fin b => infTimes true b
  | ninf, fin b => infTimes false b
  | pinf, pinf => pinf
  | pinf, ninf => ninf
  | ninf, pinf => ninf
  | ninf, ninf => pinf

end Flt

/-- The read `v[i]` of a `std::vector` at an `int` index; `none` outside the bounds. -/
def vec_at {α : Type} (v : List α) (i : Int) : Option α :=
  if i < 0 then none else v[i.toNat]?

/-- The call `v.resize(n, x)`: keep the first `n` elements, pad with `x` up to length `n`. -/
def vec_resize {α : Type} (v : List α) (n : Nat) (x : α) : List α :=
  v.take n ++ List.replicate (n - v.length) x

/-- Modelled from the spec: the class `TagToSnpMapping` (declared in a header that is not
part of the sources), the read-only provider of `num_snp`, `num_tag`, the MAF vector, the
is-tag flags, both index maps and the causal-eligibility flags (spec §6). -/
structure TagToSnpMapping where
  num_snp : Nat
  num_tag : Nat
  mafvec : List Flt
  is_tag : List Bool
  snp_to_tag : List Int
  tag_to_snp : List Int
  snp_can_be_causal : List Bool
  deriving DecidableEq

/-- Modelled from the spec: the data-model conditions on a mapping (spec §3, §6): the
per-snp vectors have length `num_snp` (the MAF vector may still be unset, i.e. empty),
`tag_to_snp` has length `num_tag`, and `tag_to_snp` / `snp_to_tag` are mutually inverse on
the tag subset. -/
def TagToSnpMapping.WellFormed (m : TagToSnpMapping) : Prop :=
  m.is_tag.length = m.num_snp ∧ m.snp_to_tag.length = m.num_snp ∧
  m.snp_can_be_causal.length = m.num_snp ∧ m.tag_to_snp.length = m.num_tag ∧
  (m.mafvec = [] ∨ m.mafvec.length = m.num_snp) ∧
  (∀ t : Nat, t < m.num_tag → ∃ s : Nat, s < m.num_snp ∧
      m.tag_to_snp[t]? = some (s : Int) ∧ m.is_tag[s]? = some true ∧
      m.snp_to_tag[s]? = some (t : Int)) ∧
  (∀ s : Nat, s < m.num_snp → m.is_tag[s]? = some true → ∃ t : Nat, t < m.num_tag ∧
      m.snp_to_tag[s]? = some (t : Int) ∧ m.tag_to_snp[t]? = some (s : Int))

instance (m : TagToSnpMapping) : Decidable m.WellFormed := by
  unfold TagToSnpMapping.WellFormed
  infer_instance

/-- Modelled from the spec: the header constant `LD_TAG_COMPONENT_COUNT`; the running sums
have a below-threshold and an above-threshold component (spec §3, §4.2). -/
def LD_TAG_COMPONENT_COUNT : Nat := 2

/-- Modelled from the spec: the header constant `LD_TAG_COMPONENT_BELOW_R2MIN`. -/
def LD_TAG_COMPONENT_BELOW_R2MIN : Int := 0

/-- Modelled from the spec: the header constant `LD_TAG_COMPONENT_ABOVE_R2MIN`. -/
def LD_TAG_COMPONENT_ABOVE_R2MIN : Int := 1

/-- Modelled from the spec: the class `LdTagSum` (declared in a header that is not part of
the sources), the per-component running-sum accumulator of spec §4.1: one slot per
(component, tag index). -/
structure LdTagSum where
  slots : List (List Flt)
  deriving DecidableEq

namespace LdTagSum

/-- Modelled from the spec: the constructor of `LdTagSum` (spec §4.1), with a fixed
component count and tag count, all slots zero. -/
def create (num_components num_tag : Nat) : LdTagSum :=
  ⟨List.replicate num_components (List.replicate num_tag (Flt.fin 0))⟩

/-- Modelled from the spec: the read accessor of `LdTagSum` (spec §4.1), the accumulated
value of a (component, tag index) pair. -/
def value (a : LdTagSum) (component tag_index : Int) : Option Flt :=
  match vec_at a.slots component with
  | none => none
  | some row => vec_at row tag_index

/-- Modelled from the spec: `LdTagSum::store` (spec §4.1) adds `v` into the slot
(component, tag index); `none` (precondition violation) when either is out of range. -/
def store (a : LdTagSum) (component tag_index : Int) (v : Flt) : Option LdTagSum :=
  match vec_at a.slots component with
  | none => none
  | some row =>
    match vec_at row tag_index with
    | none => none
    | some x => some ⟨a.slots.set component.toNat (row.set tag_index.toNat (Flt.add x v))⟩

/-- Modelled from the spec: `LdTagSum::clear` (spec §4.1) resets all slots to zero. -/
def clear (a : LdTagSum) : LdTagSum :=
  ⟨a.slots.map (fun row => row.map (fun _ => Flt.fin 0))⟩

end LdTagSum

/-- A record `std::tuple<int, int, float>` of the COO list:
(causal snp index, tag index, r²). -/
abbrev CooEntry := Int × Int × Flt

/-- The class `LdMatrixCsrChunk`: the three CSR arrays and the COO list. -/
structure LdMatrixCsrChunk where
  csr_ld_snp_index_ : List Int
  csr_ld_tag_index_ : List Int
  csr_ld_r2_ : List Flt
  coo_ld_ : List CooEntry
  deriving DecidableEq

/-- The class `LdMatrixCsr` (the member `mapping_` is a reference to the external mapping
and is passed to every operation as the argument `m`). -/
structure LdMatrixCsr where
  chunks_ : List LdMatrixCsrChunk
  combined_ : LdMatrixCsrChunk
  ld_tag_sum_adjust_for_hvec_ : Option LdTagSum
  ld_tag_sum_ : Option LdTagSum
  deriving DecidableEq

/-- How a call ends: it returns, it throws `std::runtime_error(what)`, or its behaviour is
undefined (out-of-bounds `operator[]`, null dereference). -/
inductive Outcome where
  | ok
  | runtime_error (what : String)
  | undefined
  deriving DecidableEq

/-- A member function: the object before, the object after and how the call ended. -/
abbrev Step := LdMatrixCsr → LdMatrixCsr × Outcome

/-- Sequencing of statements: `g` runs only when `f` has returned normally. -/
def Step.seq (f g : Step) : Step := fun s =>
  match f s with
  | (s1, Outcome.ok) => g s1
  | (s1, e) => (s1, e)

/-- A `for` loop over the elements of `xs`, left to right, leaving at the first failure. -/
def Step.forEach {α : Type} (body : α → Step) : List α → Step
  | [] => fun s => (s, Outcome.ok)
  | x :: xs => Step.seq (body x) (Step.forEach body xs)

/-- The statement `if (cond) BGMG_THROW_EXCEPTION(std::runtime_error(what))`. -/
def throw_if (cond : Bool) (what : String) : Step := fun s =>
  if cond then (s, Outcome.runtime_error what) else (s, Outcome.ok)

/-- The function `find_hvec` (lines 23-29): `hvec[i] = 2 * maf[i] * (1 - maf[i])`. -/
def find_hvec (m : TagToSnpMapping) : List Flt :=
  m.mafvec.map (fun maf => Flt.mul (Flt.mul (Flt.fin 2) maf) (Flt.sub (Flt.fin 1) maf))

/-- Modelled from the spec: the macro `CHECK_SNP_INDEX` (defined in a header that is not
part of the sources): an index outside `[0, num_snp)` is fatal (spec §7 (d)). -/
def CHECK_SNP_INDEX (m : TagToSnpMapping) (i : Int) : Step :=
  throw_if (decide (i < 0) || decide ((m.num_snp : Int) ≤ i)) "CHECK_SNP_INDEX failed"

namespace LdMatrixCsrChunk

/-- A chunk with all four containers empty. -/
def empty : LdMatrixCsrChunk := ⟨[], [], [], []⟩

/-- The function `LdMatrixCsrChunk::clear` (lines 245-251). -/
def clear (_c : LdMatrixCsrChunk) : LdMatrixCsrChunk := ⟨[], [], [], []⟩

end LdMatrixCsrChunk

namespace LdMatrixCsr

/-- A freshly constructed object: no chunk, empty containers, null accumulators. -/
def empty : LdMatrixCsr := ⟨[], LdMatrixCsrChunk.empty, none, none⟩

/-- The call `acc->store(component, tag_index, v)` on one of the two accumulators
(`adjust = true`: `ld_tag_sum_adjust_for_hvec_`, else `ld_tag_sum_`).  A null pointer is
undefined behaviour; a precondition violation of `store` (spec §4.1) is given as an
exception, whose message is not in the sources. -/
def store_tag_sum (adjust : Bool) (component tag_index : Int) (v : Flt) : Step := fun s =>
  match (if adjust then s.ld_tag_sum_adjust_for_hvec_ else s.ld_tag_sum_) with
  | none => (s, Outcome.undefined)
  | some acc =>
    match acc.store component tag_index v with
    | none => (s, Outcome.runtime_error "LdTagSum::store: index out of range")
    | some acc1 =>
      (if adjust then { s with ld_tag_sum_adjust_for_hvec_ := some acc1 }
        else { s with ld_tag_sum_ := some acc1 }, Outcome.ok)

/-- Lines 81-82 and 84-85: `if (is_tag[x]) acc->store(component, snp_to_tag[x], v)`, where
`v` is `r2 * hvec[y]` or `r2` (`none`: the read of `hvec` is out of bounds). -/
def store_if_tag (m : TagToSnpMapping) (adjust : Bool) (component x : Int)
    (v : Option Flt) : Step := fun s =>
  match vec_at m.is_tag x with
  | none => (s, Outcome.undefined)
  | some false => (s, Outcome.ok)
  | some true =>
    match vec_at m.snp_to_tag x, v with
    | some t, some w => store_tag_sum adjust component t w s
    | _, _ => (s, Outcome.undefined)

/-- The call `combined_.coo_ld_.push_back(e)`. -/
def coo_push (e : CooEntry) : Step := fun s =>
  ({ s with combined_ := { s.combined_ with coo_ld_ := s.combined_.coo_ld_ ++ [e] } },
    Outcome.ok)

/-- Lines 91-92: `if (snp_can_be_causal[x] && is_tag[y]) coo_ld_.push_back((x,
snp_to_tag[y], r2))`. -/
def push_if_causal (m : TagToSnpMapping) (x y : Int) (r2 : Flt) : Step := fun s =>
  match vec_at m.snp_can_be_causal x with
  | none => (s, Outcome.undefined)
  | some false => (s, Outcome.ok)
  | some true =>
    match vec_at m.is_tag y with
    | none => (s, Outcome.undefined)
    | some false => (s, Outcome.ok)
    | some true =>
      match vec_at m.snp_to_tag y with
      | none => (s, Outcome.undefined)
      | some t => coo_push (x, t, r2) s

/-- The component a triplet with the value `r2` is added to (line 80). -/
def ld_component (r2 r2_min : Flt) : Int :=
  if Flt.lt r2 r2_min then LD_TAG_COMPONENT_BELOW_R2MIN else LD_TAG_COMPONENT_ABOVE_R2MIN

/-- The body of the main loop of `set_ld_r2_coo` (lines 78-92) for the triplet
`(snp_index[i], tag_index[i], r2[i])`. -/
def coo_loop_body (m : TagToSnpMapping) (r2_min : Flt) (hvec : List Flt)
    (e : Int × Int × Flt) : Step :=
  let snp_index := e.1
  let tag_index := e.2.1
  let r2 := e.2.2
  let ld_component := ld_component r2 r2_min
  Step.seq (CHECK_SNP_INDEX m snp_index) <|
  Step.seq (CHECK_SNP_INDEX m tag_index) <|
  Step.seq (store_if_tag m true ld_component tag_index
    ((vec_at hvec snp_index).map (Flt.mul r2))) <|
  Step.seq (store_if_tag m true ld_component snp_index
    ((vec_at hvec tag_index).map (Flt.mul r2))) <|
  Step.seq (store_if_tag m false ld_component tag_index (some r2)) <|
  Step.seq (store_if_tag m false ld_component snp_index (some r2)) <|
  if Flt.lt r2 r2_min then (fun s => (s, Outcome.ok))
  else
    Step.seq (push_if_causal m snp_index tag_index r2)
      (push_if_causal m tag_index snp_index r2)

/-- Lines 58-61: the two accumulators are created on the first call. -/
def alloc_tag_sums (m : TagToSnpMapping) : Step := fun s =>
  match s.ld_tag_sum_adjust_for_hvec_ with
  | none =>
    ({ s with
        ld_tag_sum_adjust_for_hvec_ := some (LdTagSum.create LD_TAG_COMPONENT_COUNT m.num_tag)
        ld_tag_sum_ := some (LdTagSum.create LD_TAG_COMPONENT_COUNT m.num_tag) },
      Outcome.ok)
  | some _ => (s, Outcome.ok)

/-- Line 54: ingestion is refused once the CSR value array is in use. -/
def check_not_finalized : Step := fun s =>
  throw_if (!s.combined_.csr_ld_r2_.isEmpty) "can't call set_ld_r2_coo after set_ld_r2_csr" s

/-- The function `LdMatrixCsr::set_ld_r2_coo(length, snp_index, tag_index, r2, r2_min)`
(lines 53-96); the three input arrays of the same `length` are one list of triplets. -/
def set_ld_r2_coo (m : TagToSnpMapping) (batch : List (Int × Int × Flt)) (r2_min : Flt) :
    Step :=
  Step.seq check_not_finalized <|
  Step.seq (throw_if m.mafvec.isEmpty "can't call set_ld_r2_coo before set_mafvec") <|
  Step.seq (alloc_tag_sums m) <|
  Step.seq (throw_if (batch.any (fun e => decide (e.1 = e.2.1)))
    "snp_index[i] == tag_index[i] --- unexpected for ld files created via plink") <|
  Step.seq (throw_if (batch.any (fun e => !e.2.2.isfinite)) "encounter undefined values") <|
  Step.forEach (coo_loop_body m r2_min (find_hvec m)) batch

/-- The comparison `operator<` of `std::tuple<int, int, float>`: lexicographic, each
component compared with its own `<`. -/
def tuple_lt (a b : CooEntry) : Bool :=
  decide (a.1 < b.1) ||
    (!decide (b.1 < a.1) &&
      (decide (a.2.1 < b.2.1) || (!decide (b.2.1 < a.2.1) && Flt.lt a.2.2 b.2.2)))

/-- Line 123, `std::sort(coo_ld_.begin(), coo_ld_.end())`: the list put in ascending order
of `tuple_lt`.  The COO list never holds a NaN, so `tuple_lt` is a strict total order on
its records, equivalent records are equal, and every sorting algorithm gives this one
list (`sort_coo_unique`). -/
def sort_coo (l : List CooEntry) : List CooEntry :=
  l.insertionSort (fun a b => tuple_lt b a = false)

/-- The body of the loop of lines 110-114, for the tag index `i`. -/
def diag_loop_body (m : TagToSnpMapping) (hvec : List Flt) (i : Nat) : Step := fun s =>
  match vec_at m.tag_to_snp i with
  | none => (s, Outcome.undefined)
  | some snp =>
    Step.seq (coo_push (snp, (i : Int), Flt.fin 1))
      (Step.seq
        (fun s1 => match vec_at hvec snp with
          | none => (s1, Outcome.undefined)
          | some h =>
            store_tag_sum true LD_TAG_COMPONENT_ABOVE_R2MIN i (Flt.mul (Flt.fin 1) h) s1)
        (store_tag_sum false LD_TAG_COMPONENT_ABOVE_R2MIN i (Flt.fin 1))) s

/-- Lines 106-114: diagonal injection, one loop over the tag indices. -/
def inject_diagonal (m : TagToSnpMapping) : Step :=
  Step.forEach (diag_loop_body m (find_hvec m)) (List.range m.tag_to_snp.length)

/-- Lines 138-141, `for (i = size - 1; i >= 0; i--) csr_ld_snp_index_[snp(coo[i])] = i`:
the records after the first one are handled before it, `off` is the index of the first
record of the list.  `none`: a write outside the bounds of the vector. -/
def fill_row_start (off : Nat) : List CooEntry → List Int → Option (List Int)
  | [], rs => some rs
  | e :: rest, rs =>
    match fill_row_start (off + 1) rest rs with
    | none => none
    | some rs1 =>
      if e.1 < 0 ∨ (rs1.length : Int) ≤ e.1 then none
      else some (rs1.set e.1.toNat (off : Int))

/-- Lines 143-145, `for (i = size - 2; i >= 0; i--) if (v[i] > v[i + 1]) v[i] = v[i + 1]`:
position `i` is rewritten after all positions behind it. -/
def backfill_row_start : List Int → List Int
  | [] => []
  | a :: rest =>
    match backfill_row_start rest with
    | [] => [a]
    | b :: rest1 => (if a > b then b else a) :: b :: rest1

/-- Lines 128-145: the tag indices and the r² of the sorted COO list are appended to the
CSR arrays and the row starts are derived. -/
def compact (m : TagToSnpMapping) : Step := fun s =>
  let c := s.combined_
  let tags := c.csr_ld_tag_index_ ++ c.coo_ld_.map (fun e => e.2.1)
  let r2s := c.csr_ld_r2_ ++ c.coo_ld_.map (fun e => e.2.2)
  let rs0 := vec_resize c.csr_ld_snp_index_ (m.snp_to_tag.length + 1) (c.coo_ld_.length : Int)
  match fill_row_start 0 c.coo_ld_ rs0 with
  | none =>
    ({ s with combined_ := { c with csr_ld_tag_index_ := tags, csr_ld_r2_ := r2s,
                                    csr_ld_snp_index_ := rs0 } }, Outcome.undefined)
  | some rs1 =>
    ({ s with combined_ := { c with csr_ld_tag_index_ := tags, csr_ld_r2_ := r2s,
                                    csr_ld_snp_index_ := backfill_row_start rs1 } },
      Outcome.ok)

/-- The loop of `std::lower_bound` over `row[first, first + len)`: halve the range, keep
the upper part when `row[mid] < val`.  Each turn makes `len` smaller, so `fuel = len`
turns are enough. -/
def lower_bound_loop (row : List Int) (val : Int) : Nat → Nat → Nat → Nat
  | 0, first, _ => first
  | fuel + 1, first, len =>
    if len = 0 then first
    else
      let half := len / 2
      let mid := first + half
      match row[mid]? with
      | none => first
      | some x =>
        if x < val then lower_bound_loop row val fuel (mid + 1) (len - half - 1)
        else lower_bound_loop row val fuel first half

/-- The call `std::lower_bound(begin, end, val)` over a whole row: the position the
binary search stops at. -/
def lower_bound (row : List Int) (val : Int) : Nat :=
  lower_bound_loop row val row.length 0 row.length

end LdMatrixCsr

namespace LdMatrixCsrChunk

/-- The function `LdMatrixCsr::find_and_retrieve_ld_r2` (lines 206-211), on the chunk
`combined_`.  `none`: undefined behaviour (a row start read out of bounds, an invalid
iterator range, a read of `csr_ld_r2_` out of bounds). -/
def find_and_retrieve_ld_r2 (c : LdMatrixCsrChunk) (snp_index tag_index : Int) :
    Option Flt :=
  match vec_at c.csr_ld_snp_index_ snp_index, vec_at c.csr_ld_snp_index_ (snp_index + 1) with
  | some r2_from, some r2_to =>
    if 0 ≤ r2_from ∧ r2_from ≤ r2_to ∧ r2_to ≤ (c.csr_ld_tag_index_.length : Int) then
      let row := (c.csr_ld_tag_index_.drop r2_from.toNat).take (r2_to.toNat - r2_from.toNat)
      let iter := LdMatrixCsr.lower_bound row tag_index
      if iter < row.length then vec_at c.csr_ld_r2_ (r2_from + (iter : Int))
      else some Flt.nan
    else none
  | _, _ => none

/-- The entries `(csr_ld_tag_index_[k], csr_ld_r2_[k])` for `k` in
`[csr_ld_snp_index_[i], csr_ld_snp_index_[i + 1])`, in order. -/
def row (c : LdMatrixCsrChunk) (i : Nat) : List (Int × Flt) :=
  let r2_from := (c.csr_ld_snp_index_.getD i 0).toNat
  let r2_to := (c.csr_ld_snp_index_.getD (i + 1) 0).toNat
  ((c.csr_ld_tag_index_.zip c.csr_ld_r2_).drop r2_from).take (r2_to - r2_from)

end LdMatrixCsrChunk

namespace LdMatrixCsr

/-- Whether a vector holds `v[i - 1] > v[i]` at some `i` (line 161). -/
def has_descent : List Int → Bool
  | a :: b :: rest => decide (a > b) || has_descent (b :: rest)
  | _ => false

/-- Whether a row holds two equal neighbours (the inner loop of lines 174-177). -/
def has_adjacent_duplicate : List (Int × Flt) → Bool
  | a :: b :: rest => decide (a.1 = b.1) || has_adjacent_duplicate (b :: rest)
  | _ => false

/-- The inner loop of lines 189-197 over the entries of one row of a tag variant whose tag
index is `tag_index_of_the_snp`. -/
def check_symmetry (m : TagToSnpMapping) (c : LdMatrixCsrChunk) (tag_index_of_the_snp : Int) :
    List (Int × Flt) → Outcome
  | [] => Outcome.ok
  | e :: rest =>
    match vec_at m.tag_to_snp e.1 with
    | none => Outcome.undefined
    | some snp =>
      match c.find_and_retrieve_ld_r2 snp tag_index_of_the_snp with
      | none => Outcome.undefined
      | some r2symm =>
        if !r2symm.isfinite then Outcome.runtime_error "!std::isfinite(r2symm)"
        else if Flt.ne r2symm e.2 then Outcome.runtime_error "r2symm != r2"
        else check_symmetry m c tag_index_of_the_snp rest

/-- The body of the loop of lines 182-200 for one `causal_index`. -/
def check_row (m : TagToSnpMapping) (c : LdMatrixCsrChunk) (causal_index : Nat) : Outcome :=
  match vec_at m.is_tag causal_index with
  | none => Outcome.undefined
  | some false => Outcome.ok
  | some true =>
    match vec_at m.snp_to_tag causal_index with
    | none => Outcome.undefined
    | some tag_index_of_the_snp =>
      match check_symmetry m c tag_index_of_the_snp (c.row causal_index) with
      | Outcome.ok =>
        if (c.row causal_index).any (fun e => decide (e.1 = tag_index_of_the_snp))
        then Outcome.ok
        else Outcome.runtime_error "!ld_r2_contains_diagonal"
      | e => e

/-- The loop of lines 182-200 over the causal indices. -/
def check_rows (m : TagToSnpMapping) (c : LdMatrixCsrChunk) : List Nat → Outcome
  | [] => Outcome.ok
  | i :: rest =>
    match check_row m c i with
    | Outcome.ok => check_rows m c rest
    | e => e

/-- The function `LdMatrixCsr::validate_ld_r2_csr` (lines 154-204); it does not change the
object, so only the outcome is given. -/
def validate_ld_r2_csr (m : TagToSnpMapping) (r2_min : Flt) (s : LdMatrixCsr) : Outcome :=
  let c := s.combined_
  let nnz : Int := c.csr_ld_r2_.length
  if c.csr_ld_snp_index_.length ≠ m.num_snp + 1 then
    Outcome.runtime_error "csr_ld_snp_index_.size() != (num_snp_ + 1))"
  else if c.csr_ld_snp_index_.any (fun x => decide (x < 0) || decide (x > nnz)) then
    Outcome.runtime_error "csr_ld_snp_index_[i] < 0 || csr_ld_snp_index_[i] > csr_ld_r2_.size()"
  else if has_descent c.csr_ld_snp_index_ then
    Outcome.runtime_error "csr_ld_snp_index_[i-1] > csr_ld_snp_index_[i]"
  else if c.csr_ld_snp_index_.getLast? ≠ some nnz then
    Outcome.runtime_error "csr_ld_snp_index_.back() != csr_ld_r2_.size()"
  else if c.csr_ld_tag_index_.length ≠ c.csr_ld_r2_.length then
    Outcome.runtime_error "csr_ld_tag_index_.size() != csr_ld_r2_.size()"
  else if c.csr_ld_tag_index_.any (fun t => decide (t < 0) || decide (t ≥ (m.num_tag : Int)))
  then Outcome.runtime_error "csr_ld_tag_index_ < 0 || csr_ld_tag_index_ >= num_tag_"
  else if c.csr_ld_r2_.any (fun v => Flt.lt v r2_min || Flt.lt (Flt.fin 1) v) then
    Outcome.runtime_error "csr_ld_tag_index_ < 0 || csr_ld_tag_index_ >= num_tag_"
  else if c.csr_ld_r2_.any (fun v => !v.isfinite) then
    Outcome.runtime_error "!std::isfinite(csr_ld_r2_[i])"
  else if (List.range m.num_snp).any (fun i => has_adjacent_duplicate (c.row i)) then
    Outcome.runtime_error "csr_ld_tag_index_[r2_index] == csr_ld_tag_index_[r2_index + 1]"
  else check_rows m c (List.range m.num_snp)

/-- Lines 99-100: an empty COO list is refused. -/
def check_coo_not_empty : Step := fun s =>
  throw_if s.combined_.coo_ld_.isEmpty "coo_ld_ is empty" s

/-- Line 123: the COO list is sorted in place. -/
def sort_step : Step := fun s =>
  ({ s with combined_ := { s.combined_ with coo_ld_ := sort_coo s.combined_.coo_ld_ } },
    Outcome.ok)

/-- Line 148, `combined_.coo_ld_.clear()`. -/
def release_coo : Step := fun s =>
  ({ s with combined_ := { s.combined_ with coo_ld_ := [] } }, Outcome.ok)

/-- Lines 98-145 of `set_ld_r2_csr`: the emptiness check, the diagonal injection, the
sort and the compaction (everything before the COO list is released). -/
def build_csr (m : TagToSnpMapping) : Step :=
  Step.seq check_coo_not_empty <|
  Step.seq (inject_diagonal m) <|
  Step.seq sort_step <|
  compact m

/-- The function `LdMatrixCsr::set_ld_r2_csr` (lines 98-152). -/
def set_ld_r2_csr (m : TagToSnpMapping) (r2_min : Flt) : Step :=
  Step.seq (build_csr m) <|
  Step.seq release_coo
    (fun s => (s, validate_ld_r2_csr m r2_min s))

/-- The function `LdMatrixCsr::clear` (lines 238-243). -/
def clear (s : LdMatrixCsr) : LdMatrixCsr :=
  { chunks_ := []
    combined_ := s.combined_.clear
    ld_tag_sum_adjust_for_hvec_ := s.ld_tag_sum_adjust_for_hvec_.map LdTagSum.clear
    ld_tag_sum_ := s.ld_tag_sum_.map LdTagSum.clear }

/-- The entries of the diagonal injection: `(tag_to_snp[i], i, 1.0)` for every tag index. -/
def diag_entries (m : TagToSnpMapping) : List CooEntry :=
  (List.range m.tag_to_snp.length).map
    (fun i => (m.tag_to_snp.getD i 0, (i : Int), Flt.fin 1))

end LdMatrixCsr

namespace LdTagSum

/-- An accumulator with `num_components` components of `num_tag` slots each. -/
def Shaped (num_components num_tag : Nat) (a : LdTagSum) : Prop :=
  a.slots.length = num_components ∧ ∀ row ∈ a.slots, row.length = num_tag

end LdTagSum

namespace LdMatrixCsr

/-- The objects a program can hold: a fresh object, and what the three public operations
make of such an object, whether they return or throw.  A call whose behaviour is undefined
leaves no object behind and is not followed. -/
inductive Reachable (m : TagToSnpMapping) : LdMatrixCsr → Prop where
  | empty : Reachable m LdMatrixCsr.empty
  | coo (batch : List (Int × Int × Flt)) (r2_min : Flt) (s : LdMatrixCsr) :
      Reachable m s → (set_ld_r2_coo m batch r2_min s).2 ≠ Outcome.undefined →
      Reachable m (set_ld_r2_coo m batch r2_min s).1
  | csr (r2_min : Flt) (s : LdMatrixCsr) :
      Reachable m s → (set_ld_r2_csr m r2_min s).2 ≠ Outcome.undefined →
      Reachable m (set_ld_r2_csr m r2_min s).1
  | clear (s : LdMatrixCsr) : Reachable m s → Reachable m s.clear

/-- What a step may do to an object when it only stores into the accumulators and appends
to the COO list: the chunk list and the CSR arrays stay, the COO list is extended, and
an accumulator that exists keeps existing with its shape. -/
def Extends (s s1 : LdMatrixCsr) : Prop :=
  s1.chunks_ = s.chunks_ ∧
  s1.combined_.csr_ld_snp_index_ = s.combined_.csr_ld_snp_index_ ∧
  s1.combined_.csr_ld_tag_index_ = s.combined_.csr_ld_tag_index_ ∧
  s1.combined_.csr_ld_r2_ = s.combined_.csr_ld_r2_ ∧
  (∃ l, s1.combined_.coo_ld_ = s.combined_.coo_ld_ ++ l) ∧
  (s1.ld_tag_sum_adjust_for_hvec_.isSome = s.ld_tag_sum_adjust_for_hvec_.isSome) ∧
  (s1.ld_tag_sum_.isSome = s.ld_tag_sum_.isSome) ∧
  (∀ c t, (∀ a, s.ld_tag_sum_adjust_for_hvec_ = some a → a.Shaped c t) →
    ∀ a, s1.ld_tag_sum_adjust_for_hvec_ = some a → a.Shaped c t) ∧
  (∀ c t, (∀ a, s.ld_tag_sum_ = some a → a.Shaped c t) →
    ∀ a, s1.ld_tag_sum_ = some a → a.Shaped c t)

/-- The invariant of the reachable objects: the COO list and the CSR value array are not
both in use, the three CSR arrays are empty together, the two accumulators exist
together, with the shape the mapping gives them. -/
def Inv (m : TagToSnpMapping) (s : LdMatrixCsr) : Prop :=
  (s.combined_.coo_ld_ ≠ [] → s.combined_.csr_ld_r2_ = []) ∧
  (s.combined_.csr_ld_r2_ = [] →
    s.combined_.csr_ld_tag_index_ = [] ∧ s.combined_.csr_ld_snp_index_ = []) ∧
  (s.ld_tag_sum_adjust_for_hvec_.isSome = s.ld_tag_sum_.isSome) ∧
  (s.combined_.coo_ld_ ≠ [] → s.ld_tag_sum_.isSome = true) ∧
  (∀ a, s.ld_tag_sum_adjust_for_hvec_ = some a →
    a.Shaped LD_TAG_COMPONENT_COUNT m.num_tag) ∧
  (∀ a, s.ld_tag_sum_ = some a → a.Shaped LD_TAG_COMPONENT_COUNT m.num_tag)

end LdMatrixCsr

namespace TagToSnpMapping

/-- Whether the snp `i` is a tag variant (`is_tag[i]`). -/
def isTag (m : TagToSnpMapping) (i : Int) : Bool := (vec_at m.is_tag i).getD false

/-- Whether the snp `i` is causal-eligible (`snp_can_be_causal[i]`). -/
def canBeCausal (m : TagToSnpMapping) (i : Int) : Bool :=
  (vec_at m.snp_can_be_causal i).getD false

/-- The tag index of the snp `i` (`snp_to_tag[i]`). -/
def tagOf (m : TagToSnpMapping) (i : Int) : Int := (vec_at m.snp_to_tag i).getD (-1)

/-- The snp of the tag index `t` (`tag_to_snp[t]`). -/
def snpOf (m : TagToSnpMapping) (t : Int) : Int := (vec_at m.tag_to_snp t).getD (-1)

/-- The heterozygosity `h = 2 * maf * (1 - maf)` of the snp `i`. -/
def hval (m : TagToSnpMapping) (i : Int) : Flt := (vec_at (find_hvec m) i).getD Flt.nan

end TagToSnpMapping

namespace LdMatrixCsr

/-- The value the unweighted accumulator `ld_tag_sum_` holds for a (component, tag index)
pair; `none` when there is no accumulator or no such slot. -/
def sum_value (s : LdMatrixCsr) (component tag_index : Int) : Option Flt :=
  match s.ld_tag_sum_ with
  | none => none
  | some a => a.value component tag_index

/-- The value the hvec-weighted accumulator `ld_tag_sum_adjust_for_hvec_` holds for a
(component, tag index) pair. -/
def adjust_value (s : LdMatrixCsr) (component tag_index : Int) : Option Flt :=
  match s.ld_tag_sum_adjust_for_hvec_ with
  | none => none
  | some a => a.value component tag_index

/-- The claim of spec §4.2 on the records of one accepted triplet `(a, b, r²)`: nothing
when `r² < r2_min`; otherwise `(a, snp_to_tag[b], r²)` if `a` is causal-eligible and `b` a
tag variant, then `(b, snp_to_tag[a], r²)` if `b` is causal-eligible and `a` a tag
variant. -/
def coo_records (m : TagToSnpMapping) (r2_min : Flt) (e : Int × Int × Flt) : List CooEntry :=
  if Flt.lt e.2.2 r2_min then []
  else
    (if m.canBeCausal e.1 && m.isTag e.2.1 then [(e.1, m.tagOf e.2.1, e.2.2)] else []) ++
    (if m.canBeCausal e.2.1 && m.isTag e.1 then [(e.2.1, m.tagOf e.1, e.2.2)] else [])

/-- The terms one triplet `(a, b, r²)` gives to the running sum of the snp `snp`: one term
for each endpoint equal to `snp`, which is `r²`, or `r²` times `h` of the other endpoint
for the hvec-weighted sum. -/
def endpoint_terms (m : TagToSnpMapping) (weighted : Bool) (snp : Int)
    (e : Int × Int × Flt) : List Flt :=
  (if e.1 = snp then [if weighted then Flt.mul e.2.2 (m.hval e.2.1) else e.2.2] else []) ++
  (if e.2.1 = snp then [if weighted then Flt.mul e.2.2 (m.hval e.1) else e.2.2] else [])

/-- A sum of floats, added up from zero in the order of the list. -/
def float_sum (terms : List Flt) : Flt := terms.foldl Flt.add (Flt.fin 0)

/-- The sum over the endpoints equal to `tag_to_snp[t]` of the triplets that satisfy
`keep`. -/
def endpoint_sum (m : TagToSnpMapping) (weighted : Bool) (t : Int)
    (keep : Flt → Bool) (triplets : List (Int × Int × Flt)) : Flt :=
  float_sum ((triplets.filter (fun e => keep e.2.2)).flatMap
    (endpoint_terms m weighted (m.snpOf t)))

/-- The contribution of the diagonal to the running sum of the tag index `t`: 1.0, or 1.0
times `h` of `tag_to_snp[t]` for the hvec-weighted sum. -/
def diag_term (m : TagToSnpMapping) (weighted : Bool) (t : Int) : Flt :=
  if weighted then Flt.mul (Flt.fin 1) (m.hval (m.snpOf t)) else Flt.fin 1

/-- The terms the loop body of `set_ld_r2_coo` adds to the slot `(c, t)` for one triplet,
in the order of lines 81-82 (weighted) or 84-85 (unweighted). -/
def stored_terms (m : TagToSnpMapping) (r2_min : Flt) (weighted : Bool)
    (e : Int × Int × Flt) (c t : Int) : List Flt :=
  (if m.isTag e.2.1 = true ∧ c = ld_component e.2.2 r2_min ∧ t = m.tagOf e.2.1
    then [if weighted then Flt.mul e.2.2 (m.hval e.1) else e.2.2] else []) ++
  (if m.isTag e.1 = true ∧ c = ld_component e.2.2 r2_min ∧ t = m.tagOf e.1
    then [if weighted then Flt.mul e.2.2 (m.hval e.2.1) else e.2.2] else [])

/-- An object in its ingestion phase: the CSR value array is not in use, the accumulators
exist and have the shape the mapping gives them. -/
def Good (m : TagToSnpMapping) (s : LdMatrixCsr) : Prop :=
  s.combined_.csr_ld_r2_ = [] ∧
  ∃ a b, s.ld_tag_sum_adjust_for_hvec_ = some a ∧ s.ld_tag_sum_ = some b ∧
    a.Shaped LD_TAG_COMPONENT_COUNT m.num_tag ∧ b.Shaped LD_TAG_COMPONENT_COUNT m.num_tag

/-- The object `s1` is `s` with the records `l` appended to the COO list and, for every
slot, the terms `ta` (weighted) and `ts` (unweighted) added to the running sums. -/
def Adds (m : TagToSnpMapping) (s s1 : LdMatrixCsr) (ta ts : Int → Int → List Flt)
    (l : List CooEntry) : Prop :=
  Good m s1 ∧ s1.chunks_ = s.chunks_ ∧
  s1.combined_ = { s.combined_ with coo_ld_ := s.combined_.coo_ld_ ++ l } ∧
  (∀ c t, s1.adjust_value c t = (s.adjust_value c t).map (fun x => (ta c t).foldl Flt.add x)) ∧
  (∀ c t, s1.sum_value c t = (s.sum_value c t).map (fun x => (ts c t).foldl Flt.add x))

/-- The step `f` returns normally on `s` and does what `Adds` says. -/
def Runs (m : TagToSnpMapping) (f : Step) (s : LdMatrixCsr) (ta ts : Int → Int → List Flt)
    (l : List CooEntry) : Prop :=
  ∃ s1, f s = (s1, Outcome.ok) ∧ Adds m s s1 ta ts l

end LdMatrixCsr

namespace LdMatrixCsr

/-- The position `off + k` of the first record of the list whose snp index is `j`, where
`k` counts from the head of the list; `dflt` when there is none. -/
def first_pos (j : Int) (off : Nat) (dflt : Int) : List CooEntry → Int
  | [] => dflt
  | e :: rest => if e.1 = j then (off : Int) else first_pos j (off + 1) dflt rest

/-- The position `off + k` of the first record of the list whose snp index is at least
`j`; the position behind the list when there is none. -/
def first_ge (j : Int) (off : Nat) : List CooEntry → Int
  | [] => (off : Int)
  | e :: rest => if j ≤ e.1 then (off : Int) else first_ge j (off + 1) rest

/-- The order of the key (snp index, tag index): `a` does not come after `b`. -/
def key_le (a b : CooEntry) : Prop := a.1 < b.1 ∨ (a.1 = b.1 ∧ a.2.1 ≤ b.2.1)

end LdMatrixCsr

namespace Scenario

/-- The mapping of the scenario of spec §8: three snps, snp 0 and snp 2 are tag variants,
every snp is causal-eligible. -/
def mapping : TagToSnpMapping :=
  { num_snp := 3
    num_tag := 2
    mafvec := [Flt.fin (1 / 10), Flt.fin (2 / 10), Flt.fin (3 / 10)]
    is_tag := [true, false, true]
    snp_to_tag := [0, -1, 1]
    tag_to_snp := [0, 2]
    snp_can_be_causal := [true, true, true] }

/-- The object after the triplet `(0, 2, 0.5)` was ingested with `r2_min = 0.1`. -/
def ingested : LdMatrixCsr :=
  (LdMatrixCsr.set_ld_r2_coo mapping [(0, 2, Flt.fin (1 / 2))] (Flt.fin (1 / 10))
    LdMatrixCsr.empty).1

/-- The object after `set_ld_r2_csr(0.1)` on `ingested`. -/
def finalized : LdMatrixCsr :=
  (LdMatrixCsr.set_ld_r2_csr mapping (Flt.fin (1 / 10)) ingested).1

/-- The object after `set_ld_r2_csr(NaN)` on `ingested`. -/
def finalized_nan : LdMatrixCsr :=
  (LdMatrixCsr.set_ld_r2_csr mapping Flt.nan ingested).1

/-- A mapping in which each of the three snps is a tag variant and causal-eligible. -/
def mapping_all_tags : TagToSnpMapping :=
  { num_snp := 3
    num_tag := 3
    mafvec := [Flt.fin (1 / 10), Flt.fin (2 / 10), Flt.fin (3 / 10)]
    is_tag := [true, true, true]
    snp_to_tag := [0, 1, 2]
    tag_to_snp := [0, 1, 2]
    snp_can_be_causal := [true, true, true] }

/-- The object after the triplet `(0, 2, 0.5)` was ingested under `mapping_all_tags` with
`r2_min = 0.1`. -/
def ingested_all_tags : LdMatrixCsr :=
  (LdMatrixCsr.set_ld_r2_coo mapping_all_tags [(0, 2, Flt.fin (1 / 2))] (Flt.fin (1 / 10))
    LdMatrixCsr.empty).1

/-- The object after `set_ld_r2_csr(0.1)` on `ingested_all_tags`. -/
def finalized_all_tags : LdMatrixCsr :=
  (LdMatrixCsr.set_ld_r2_csr mapping_all_tags (Flt.fin (1 / 10)) ingested_all_tags).1

/-- A mapping with two snps, both tag variants, of which snp 1 is not causal-eligible. -/
def mapping_not_causal : TagToSnpMapping :=
  { num_snp := 2
    num_tag := 2
    mafvec := [Flt.fin (1 / 10), Flt.fin (2 / 10)]
    is_tag := [true, true]
    snp_to_tag := [0, 1]
    tag_to_snp := [0, 1]
    snp_can_be_causal := [true, false] }

/-- The object after the triplet `(0, 1, 1.0)` was ingested under `mapping_not_causal`
with `r2_min = 0.1`. -/
def ingested_not_causal : LdMatrixCsr :=
  (LdMatrixCsr.set_ld_r2_coo mapping_not_causal [(0, 1, Flt.fin 1)] (Flt.fin (1 / 10))
    LdMatrixCsr.empty).1

/-- The object after `set_ld_r2_csr(0.1)` on `ingested_not_causal`. -/
def finalized_not_causal : LdMatrixCsr :=
  (LdMatrixCsr.set_ld_r2_csr mapping_not_causal (Flt.fin (1 / 10)) ingested_not_causal).1

end Scenario

/-! ## Definitions for the lifecycle, the validator and the sort -/

namespace Scenario

/-- The object after `set_ld_r2_csr(0.6)` on `ingested`: the validation rejects the stored
r² 0.5, which is below the threshold. -/
def rejected : LdMatrixCsr :=
  (LdMatrixCsr.set_ld_r2_csr mapping (Flt.fin (6 / 10)) ingested).1

end Scenario

namespace Scenario

/-- The mapping of the scenario of spec §8 with the two entries the scenario leaves open:
the entry `x` of `snp_to_tag` for snp 1, which is not a tag variant, and whether snp 1 is
causal-eligible. -/
def mapping_with (x : Int) (c1 : Bool) : TagToSnpMapping :=
  { num_snp := 3
    num_tag := 2
    mafvec := [Flt.fin (1 / 10), Flt.fin (2 / 10), Flt.fin (3 / 10)]
    is_tag := [true, false, true]
    snp_to_tag := [0, x, 1]
    tag_to_snp := [0, 2]
    snp_can_be_causal := [true, c1, true] }

end Scenario

namespace Scenario

/-- A mapping with one snp, which is a tag variant and causal-eligible. -/
def mapping_single : TagToSnpMapping :=
  { num_snp := 1
    num_tag := 1
    mafvec := [Flt.fin (1 / 10)]
    is_tag := [true]
    snp_to_tag := [0]
    tag_to_snp := [0]
    snp_can_be_causal := [true] }

/-- An object whose CSR arrays hold the single entry (snp 0, tag index 0, r² = 0.7): the
diagonal entry of snp 0 is there, with a value that is not 1.0. -/
def diagonal_not_one : LdMatrixCsr :=
  { chunks_ := []
    combined_ :=
      { csr_ld_snp_index_ := [0, 1]
        csr_ld_tag_index_ := [0]
        csr_ld_r2_ := [Flt.fin (7 / 10)]
        coo_ld_ := [] }
    ld_tag_sum_adjust_for_hvec_ := none
    ld_tag_sum_ := none }

end Scenario

namespace Scenario

/-- An object whose CSR arrays are those of `finalized` except for the tag index 5 in the
row of snp 0, which is outside `[0, num_tag)`. -/
def tag_out_of_range : LdMatrixCsr :=
  { chunks_ := []
    combined_ :=
      { csr_ld_snp_index_ := [0, 2, 2, 4]
        csr_ld_tag_index_ := [0, 5, 0, 1]
        csr_ld_r2_ := [Flt.fin 1, Flt.fin (1 / 2), Flt.fin (1 / 2), Flt.fin 1]
        coo_ld_ := [] }
    ld_tag_sum_adjust_for_hvec_ := none
    ld_tag_sum_ := none }

end Scenario

namespace LdMatrixCsr

/-- Check 1 of spec §4.4, as lines 159-162 test it: the row starts have length
`num_snp + 1`, lie in `[0, nnz]`, do not descend, and the last one is `nnz`. -/
def row_start_valid (m : TagToSnpMapping) (c : LdMatrixCsrChunk) : Prop :=
  c.csr_ld_snp_index_.length = m.num_snp + 1 ∧
  (∀ x ∈ c.csr_ld_snp_index_, 0 ≤ x ∧ x ≤ (c.csr_ld_r2_.length : Int)) ∧
  c.csr_ld_snp_index_.Pairwise (fun a b => a ≤ b) ∧
  c.csr_ld_snp_index_.getLast? = some (c.csr_ld_r2_.length : Int)

instance (m : TagToSnpMapping) (c : LdMatrixCsrChunk) : Decidable (row_start_valid m c) := by
  unfold row_start_valid
  infer_instance

/-- Check 2 of spec §4.4, as lines 163-164 test it: as many tag indices as values, every
tag index in `[0, num_tag)`. -/
def columns_valid (m : TagToSnpMapping) (c : LdMatrixCsrChunk) : Prop :=
  c.csr_ld_tag_index_.length = c.csr_ld_r2_.length ∧
  ∀ t ∈ c.csr_ld_tag_index_, 0 ≤ t ∧ t < (m.num_tag : Int)

instance (m : TagToSnpMapping) (c : LdMatrixCsrChunk) : Decidable (columns_valid m c) := by
  unfold columns_valid
  infer_instance

/-- Check 3 of spec §4.4, as lines 167-168 test it: no stored r² is below `r2_min` or
above 1.0, and every stored r² is finite. -/
def values_valid (r2_min : Flt) (c : LdMatrixCsrChunk) : Prop :=
  (∀ v ∈ c.csr_ld_r2_, Flt.lt v r2_min = false ∧ Flt.lt (Flt.fin 1) v = false) ∧
  ∀ v ∈ c.csr_ld_r2_, v.isfinite = true

instance (r2_min : Flt) (c : LdMatrixCsrChunk) : Decidable (values_valid r2_min c) := by
  unfold values_valid
  infer_instance

/-- Check 4 of spec §4.4, as lines 171-178 test it: no row holds the same tag index at two
neighbouring positions. -/
def rows_distinct (m : TagToSnpMapping) (c : LdMatrixCsrChunk) : Prop :=
  ∀ i, i < m.num_snp → has_adjacent_duplicate (c.row i) = false

instance (m : TagToSnpMapping) (c : LdMatrixCsrChunk) : Decidable (rows_distinct m c) := by
  unfold rows_distinct
  infer_instance

/-- Check 6 of spec §4.4 for one entry `e` of the row of a tag variant with the tag index
`ts`, as lines 194-196 test it: the lookup of `(tag_to_snp[e.1], ts)` is finite and equal
to the r² of `e`. -/
def symmetric_entry (m : TagToSnpMapping) (c : LdMatrixCsrChunk) (ts : Int)
    (e : Int × Flt) : Bool :=
  match vec_at m.tag_to_snp e.1 with
  | none => false
  | some snp =>
    match c.find_and_retrieve_ld_r2 snp ts with
    | none => false
    | some r2symm => r2symm.isfinite && !Flt.ne r2symm e.2

/-- Check 5 of spec §4.4 for the row of the snp `i`, as lines 193 and 199 test it: the
row has an entry at the tag index of the snp. -/
def has_diagonal (m : TagToSnpMapping) (c : LdMatrixCsrChunk) (i : Nat) : Bool :=
  (c.row i).any (fun e => decide (e.1 = m.tagOf i))

/-- The row of the snp `i` passes the loop body of lines 182-200: the snp is no tag
variant, or every entry of its row is symmetric and the row has its diagonal entry. -/
def row_passes (m : TagToSnpMapping) (c : LdMatrixCsrChunk) (i : Nat) : Prop :=
  m.isTag i = false ∨
    ((∀ e ∈ c.row i, symmetric_entry m c (m.tagOf i) e = true) ∧ has_diagonal m c i = true)

instance (m : TagToSnpMapping) (c : LdMatrixCsrChunk) (i : Nat) :
    Decidable (row_passes m c i) := by
  unfold row_passes
  infer_instance

end LdMatrixCsr

namespace Scenario

/-- An object with two snps, both tag variants, whose CSR arrays hold the row [(1, 0.5)]
for snp 0 and the row [(0, 0.6), (1, 1.0)] for snp 1: the row of snp 0 has no diagonal
entry, and its entry (1, 0.5) is not matched by the 0.6 that snp 1 stores for tag
index 0. -/
def asymmetric_no_diagonal : LdMatrixCsr :=
  { chunks_ := []
    combined_ :=
      { csr_ld_snp_index_ := [0, 1, 3]
        csr_ld_tag_index_ := [1, 0, 1]
        csr_ld_r2_ := [Flt.fin (1 / 2), Flt.fin (6 / 10), Flt.fin 1]
        coo_ld_ := [] }
    ld_tag_sum_adjust_for_hvec_ := none
    ld_tag_sum_ := none }

end Scenario

namespace Scenario

/-- An object with two snps, both tag variants, whose CSR arrays hold no entry for snp 0
and the row [(1, 1.0)] for snp 1: every entry is symmetric, the row of snp 0 has no
diagonal entry. -/
def no_diagonal : LdMatrixCsr :=
  { chunks_ := []
    combined_ :=
      { csr_ld_snp_index_ := [0, 0, 1]
        csr_ld_tag_index_ := [1]
        csr_ld_r2_ := [Flt.fin 1]
        coo_ld_ := [] }
    ld_tag_sum_adjust_for_hvec_ := none
    ld_tag_sum_ := none }

end Scenario

namespace LdMatrixCsr

instance key_le_decidable : DecidableRel key_le := fun a b => by
  unfold key_le
  infer_instance

/-- The sort of step 2 of spec §4.3, in the words of the spec: a sequential stable sort of
the COO list by the key (causal snp index ascending, tag index ascending).  Insertion
sort: a record is put before the first record of the sorted rest whose key is not
smaller, so records with the same key stay in their original relative order
(`stable_sort_by_key_stable`). -/
def stable_sort_by_key (l : List CooEntry) : List CooEntry :=
  l.insertionSort key_le

end LdMatrixCsr


/-! ## Theorems -/

/-! ### Sequencing of steps, entry checks -/

theorem vec_at_nat' {α : Type} (v : List α) (i : Nat) : vec_at v (i : Int) = v[i]? := by
  simp [vec_at]

namespace LdMatrixCsr

theorem seq_apply_ok {f g : Step} {s s1 : LdMatrixCsr} (h : f s = (s1, Outcome.ok)) :
    Step.seq f g s = g s1 := by
  simp [Step.seq, h]

theorem seq_apply_err {f g : Step} {s s1 : LdMatrixCsr} {e : Outcome} (h : f s = (s1, e))
    (he : e ≠ Outcome.ok) : Step.seq f g s = (s1, e) := by
  unfold Step.seq
  rw [h]
  cases e <;> simp at he ⊢

theorem seq_eq_ok {f g : Step} {s s2 : LdMatrixCsr} (h : Step.seq f g s = (s2, Outcome.ok)) :
    ∃ s1, f s = (s1, Outcome.ok) ∧ g s1 = (s2, Outcome.ok) := by
  unfold Step.seq at h
  rcases hf : f s with ⟨s1, e⟩
  rw [hf] at h
  cases e with
  | ok => exact ⟨s1, rfl, h⟩
  | runtime_error w => simp at h
  | undefined => simp at h

theorem throw_if_true (what : String) (s : LdMatrixCsr) :
    throw_if true what s = (s, Outcome.runtime_error what) := rfl

theorem throw_if_false (what : String) (s : LdMatrixCsr) :
    throw_if false what s = (s, Outcome.ok) := rfl

theorem check_not_finalized_ok {s : LdMatrixCsr} (h : s.combined_.csr_ld_r2_ = []) :
    check_not_finalized s = (s, Outcome.ok) := by
  simp [check_not_finalized, h, throw_if]

theorem check_coo_not_empty_ok {s : LdMatrixCsr} (h : s.combined_.coo_ld_ ≠ []) :
    check_coo_not_empty s = (s, Outcome.ok) := by
  cases hcoo : s.combined_.coo_ld_ with
  | nil => exact absurd hcoo h
  | cons a l => simp [check_coo_not_empty, hcoo, throw_if]

theorem check_coo_not_empty_err {s : LdMatrixCsr} (h : s.combined_.coo_ld_ = []) :
    check_coo_not_empty s = (s, Outcome.runtime_error "coo_ld_ is empty") := by
  simp [check_coo_not_empty, h, throw_if]

/-- Ingestion into an object whose CSR value array is not empty throws and changes nothing. -/
theorem set_ld_r2_coo_after_csr (m : TagToSnpMapping) (batch : List (Int × Int × Flt))
    (r2_min : Flt) (s : LdMatrixCsr) (h : s.combined_.csr_ld_r2_ ≠ []) :
    set_ld_r2_coo m batch r2_min s =
      (s, Outcome.runtime_error "can't call set_ld_r2_coo after set_ld_r2_csr") := by
  unfold set_ld_r2_coo
  apply seq_apply_err
  · have : s.combined_.csr_ld_r2_.isEmpty = false := by
      cases hc : s.combined_.csr_ld_r2_ with
      | nil => exact absurd hc h
      | cons a l => rfl
    simp [this, throw_if, check_not_finalized]
  · simp

/-- Ingestion with an empty MAF vector throws and changes nothing. -/
theorem set_ld_r2_coo_no_mafvec (m : TagToSnpMapping) (batch : List (Int × Int × Flt))
    (r2_min : Flt) (s : LdMatrixCsr) (h : m.mafvec = []) :
    ∃ what, set_ld_r2_coo m batch r2_min s = (s, Outcome.runtime_error what) := by
  by_cases hc : s.combined_.csr_ld_r2_ = []
  · refine ⟨"can't call set_ld_r2_coo before set_mafvec", ?_⟩
    unfold set_ld_r2_coo
    rw [seq_apply_ok (check_not_finalized_ok hc)]
    apply seq_apply_err
    · simp [h, throw_if]
    · simp
  · exact ⟨_, set_ld_r2_coo_after_csr m batch r2_min s hc⟩


theorem forEach_nil {α : Type} (body : α → Step) (s : LdMatrixCsr) :
    Step.forEach body [] s = (s, Outcome.ok) := rfl

theorem forEach_cons {α : Type} (body : α → Step) (x : α) (xs : List α) :
    Step.forEach body (x :: xs) = Step.seq (body x) (Step.forEach body xs) := rfl

/-- A store into an accumulator leaves the chunk and the chunk list alone. -/
theorem store_tag_sum_frame (adjust : Bool) (component tag_index : Int) (v : Flt)
    (s : LdMatrixCsr) :
    (store_tag_sum adjust component tag_index v s).1.combined_ = s.combined_ ∧
    (store_tag_sum adjust component tag_index v s).1.chunks_ = s.chunks_ := by
  unfold store_tag_sum
  cases adjust <;> simp only [Bool.false_eq_true, if_false, if_true]
  · cases s.ld_tag_sum_ with
    | none => simp
    | some acc => rcases hst : acc.store component tag_index v with _ | acc1 <;> simp [hst]
  · cases s.ld_tag_sum_adjust_for_hvec_ with
    | none => simp
    | some acc => rcases hst : acc.store component tag_index v with _ | acc1 <;> simp [hst]

theorem diag_loop_body_ok {m : TagToSnpMapping} {hvec : List Flt} {i : Nat}
    {s s1 : LdMatrixCsr} (h : diag_loop_body m hvec i s = (s1, Outcome.ok)) :
    s1.combined_ = { s.combined_ with
      coo_ld_ := s.combined_.coo_ld_ ++ [(m.tag_to_snp.getD i 0, (i : Int), Flt.fin 1)] } ∧
    s1.chunks_ = s.chunks_ := by
  unfold diag_loop_body at h
  rw [vec_at_nat'] at h
  cases hs : m.tag_to_snp[i]? with
  | none => simp [hs] at h
  | some snp =>
    simp only [hs] at h
    obtain ⟨sa, ha, h⟩ := seq_eq_ok h
    obtain ⟨sb, hb, h⟩ := seq_eq_ok h
    have hget : m.tag_to_snp.getD i 0 = snp := by simp [List.getD, hs]
    have e1 : sa = (coo_push (snp, (i : Int), Flt.fin 1) s).1 := by rw [ha]
    have e3 := store_tag_sum_frame false LD_TAG_COMPONENT_ABOVE_R2MIN i (Flt.fin 1) sb
    rw [h] at e3
    cases hh : vec_at hvec snp with
    | none => simp [hh] at hb
    | some hv =>
      simp only [hh] at hb
      have e2 := store_tag_sum_frame true LD_TAG_COMPONENT_ABOVE_R2MIN i
        (Flt.mul (Flt.fin 1) hv) sa
      rw [hb] at e2
      simp only at e2 e3
      rw [e3.1, e3.2, e2.1, e2.2, e1, hget]
      simp [coo_push]

theorem inject_loop_ok {m : TagToSnpMapping} {hvec : List Flt} (xs : List Nat) :
    ∀ {s s1 : LdMatrixCsr}, Step.forEach (diag_loop_body m hvec) xs s = (s1, Outcome.ok) →
    s1.combined_ = { s.combined_ with
      coo_ld_ := s.combined_.coo_ld_ ++
        xs.map (fun i => (m.tag_to_snp.getD i 0, (i : Int), Flt.fin 1)) } ∧
    s1.chunks_ = s.chunks_ := by
  induction xs with
  | nil =>
    intro s s1 h
    rw [forEach_nil] at h
    cases h
    simp
  | cons x xs ih =>
    intro s s1 h
    rw [forEach_cons] at h
    obtain ⟨sa, ha, h⟩ := seq_eq_ok h
    have e1 := diag_loop_body_ok ha
    have e2 := ih h
    rw [e2.1, e2.2, e1.1, e1.2]
    simp

/-- A successful diagonal injection appends `diag_entries` to the COO list and changes
nothing else of the chunk. -/
theorem inject_diagonal_ok {m : TagToSnpMapping} {s s1 : LdMatrixCsr}
    (h : inject_diagonal m s = (s1, Outcome.ok)) :
    s1.combined_ = { s.combined_ with
      coo_ld_ := s.combined_.coo_ld_ ++ diag_entries m } ∧
    s1.chunks_ = s.chunks_ :=
  inject_loop_ok _ h

end LdMatrixCsr

/-! ### What the storing and appending steps leave unchanged -/

namespace LdTagSum

theorem vec_at_eq_some {α : Type} {v : List α} {i : Int} {x : α} (h : vec_at v i = some x) :
    0 ≤ i ∧ i.toNat < v.length ∧ v[i.toNat]? = some x := by
  unfold vec_at at h
  split at h
  · simp at h
  · refine ⟨by omega, ?_, h⟩
    exact (List.getElem?_eq_some_iff.mp h).1

theorem store_shaped {a a1 : LdTagSum} {c t : Int} {v : Flt} {nc nt : Nat}
    (h : a.store c t v = some a1) (hs : a.Shaped nc nt) : a1.Shaped nc nt := by
  unfold store at h
  cases hr : vec_at a.slots c with
  | none => simp [hr] at h
  | some row =>
    simp only [hr] at h
    cases hx : vec_at row t with
    | none => simp [hx] at h
    | some x =>
      simp only [hx, Option.some.injEq] at h
      subst h
      have hrow := vec_at_eq_some hr
      constructor
      · simpa using hs.1
      · intro r1 hr1
        simp only at hr1
        rcases List.mem_or_eq_of_mem_set hr1 with hm | he
        · exact hs.2 r1 hm
        · subst he
          rw [List.length_set]
          exact hs.2 row (List.getElem?_mem hrow.2.2)

theorem clear_shaped {a : LdTagSum} {nc nt : Nat} (hs : a.Shaped nc nt) :
    a.clear.Shaped nc nt := by
  constructor
  · simpa [clear] using hs.1
  · intro r hr
    simp only [clear, List.mem_map] at hr
    obtain ⟨r0, hr0, rfl⟩ := hr
    simpa using hs.2 r0 hr0

theorem create_shaped (nc nt : Nat) : (create nc nt).Shaped nc nt := by
  constructor
  · simp [create]
  · intro r hr
    simp only [create, List.mem_replicate] at hr
    simp [hr.2]

end LdTagSum

namespace LdMatrixCsr

theorem extends_refl (s : LdMatrixCsr) : Extends s s :=
  ⟨rfl, rfl, rfl, rfl, ⟨[], by simp⟩, rfl, rfl, fun _ _ h => h, fun _ _ h => h⟩

theorem extends_trans {s s1 s2 : LdMatrixCsr} (h1 : Extends s s1) (h2 : Extends s1 s2) :
    Extends s s2 := by
  obtain ⟨a1, a2, a3, a4, ⟨l1, a5⟩, a6, a7, a8, a9⟩ := h1
  obtain ⟨b1, b2, b3, b4, ⟨l2, b5⟩, b6, b7, b8, b9⟩ := h2
  refine ⟨b1.trans a1, b2.trans a2, b3.trans a3, b4.trans a4, ⟨l1 ++ l2, ?_⟩,
    b6.trans a6, b7.trans a7, fun c t h => b8 c t (a8 c t h), fun c t h => b9 c t (a9 c t h)⟩
  rw [b5, a5, List.append_assoc]

theorem seq_extends {f g : Step} (hf : ∀ s, Extends s (f s).1) (hg : ∀ s, Extends s (g s).1)
    (s : LdMatrixCsr) : Extends s (Step.seq f g s).1 := by
  unfold Step.seq
  rcases hfs : f s with ⟨s1, e⟩
  have h1 := hf s
  rw [hfs] at h1
  cases e with
  | ok => exact extends_trans h1 (hg s1)
  | runtime_error w => exact h1
  | undefined => exact h1

theorem forEach_extends {α : Type} {body : α → Step}
    (hb : ∀ x s, Extends s (body x s).1) (xs : List α) :
    ∀ s, Extends s (Step.forEach body xs s).1 := by
  induction xs with
  | nil => intro s; exact extends_refl s
  | cons x xs ih =>
    intro s
    rw [forEach_cons]
    exact seq_extends (hb x) ih s

theorem throw_if_extends (cond : Bool) (what : String) (s : LdMatrixCsr) :
    Extends s (throw_if cond what s).1 := by
  unfold throw_if
  split <;> exact extends_refl s

theorem coo_push_extends (e : CooEntry) (s : LdMatrixCsr) : Extends s (coo_push e s).1 :=
  ⟨rfl, rfl, rfl, rfl, ⟨[e], rfl⟩, rfl, rfl, fun _ _ h => h, fun _ _ h => h⟩

theorem store_tag_sum_extends (adjust : Bool) (component tag_index : Int) (v : Flt)
    (s : LdMatrixCsr) : Extends s (store_tag_sum adjust component tag_index v s).1 := by
  unfold store_tag_sum
  cases adjust
  · simp only [Bool.false_eq_true, if_false]
    cases hacc : s.ld_tag_sum_ with
    | none => exact extends_refl s
    | some acc =>
      rcases hst : acc.store component tag_index v with _ | acc1
      · simp only [hst]
        exact extends_refl s
      · simp only [hst]
        refine ⟨rfl, rfl, rfl, rfl, ⟨[], by simp⟩, rfl, by simp [hacc], fun _ _ h => h, ?_⟩
        intro c t h a ha
        simp only [Option.some.injEq] at ha
        subst ha
        exact LdTagSum.store_shaped hst (h acc hacc)
  · simp only [if_true]
    cases hacc : s.ld_tag_sum_adjust_for_hvec_ with
    | none => exact extends_refl s
    | some acc =>
      rcases hst : acc.store component tag_index v with _ | acc1
      · simp only [hst]
        exact extends_refl s
      · simp only [hst]
        refine ⟨rfl, rfl, rfl, rfl, ⟨[], by simp⟩, by simp [hacc], rfl, ?_, fun _ _ h => h⟩
        intro c t h a ha
        simp only [Option.some.injEq] at ha
        subst ha
        exact LdTagSum.store_shaped hst (h acc hacc)

theorem store_if_tag_extends (m : TagToSnpMapping) (adjust : Bool) (component x : Int)
    (v : Option Flt) (s : LdMatrixCsr) :
    Extends s (store_if_tag m adjust component x v s).1 := by
  unfold store_if_tag
  split
  · exact extends_refl s
  · exact extends_refl s
  · split
    · exact store_tag_sum_extends _ _ _ _ s
    · exact extends_refl s

theorem push_if_causal_extends (m : TagToSnpMapping) (x y : Int) (r2 : Flt)
    (s : LdMatrixCsr) : Extends s (push_if_causal m x y r2 s).1 := by
  unfold push_if_causal
  split
  · exact extends_refl s
  · exact extends_refl s
  · split
    · exact extends_refl s
    · exact extends_refl s
    · split
      · exact extends_refl s
      · exact coo_push_extends _ s

theorem coo_loop_body_extends (m : TagToSnpMapping) (r2_min : Flt) (hvec : List Flt)
    (e : Int × Int × Flt) (s : LdMatrixCsr) :
    Extends s (coo_loop_body m r2_min hvec e s).1 := by
  unfold coo_loop_body
  refine seq_extends (throw_if_extends _ _) ?_ s
  refine seq_extends (throw_if_extends _ _) ?_
  refine seq_extends (store_if_tag_extends _ _ _ _ _) ?_
  refine seq_extends (store_if_tag_extends _ _ _ _ _) ?_
  refine seq_extends (store_if_tag_extends _ _ _ _ _) ?_
  refine seq_extends (store_if_tag_extends _ _ _ _ _) ?_
  intro s1
  split
  · exact extends_refl s1
  · exact seq_extends (push_if_causal_extends _ _ _ _) (push_if_causal_extends _ _ _ _) s1

theorem diag_loop_body_extends (m : TagToSnpMapping) (hvec : List Flt) (i : Nat)
    (s : LdMatrixCsr) : Extends s (diag_loop_body m hvec i s).1 := by
  unfold diag_loop_body
  split
  · exact extends_refl s
  · refine seq_extends (coo_push_extends _) ?_ s
    refine seq_extends ?_ (store_tag_sum_extends _ _ _ _)
    intro s1
    split
    · exact extends_refl s1
    · exact store_tag_sum_extends _ _ _ _ s1

theorem inject_diagonal_extends (m : TagToSnpMapping) (s : LdMatrixCsr) :
    Extends s (inject_diagonal m s).1 :=
  forEach_extends (diag_loop_body_extends m _) _ s

end LdMatrixCsr

/-! ### The end of `set_ld_r2_csr`: compaction, release, validation -/

namespace LdMatrixCsr

/-- A compaction that returns normally has written every row start within the bounds. -/
theorem compact_ok {m : TagToSnpMapping} {s s1 : LdMatrixCsr}
    (h : compact m s = (s1, Outcome.ok)) :
    ∃ rs1,
      fill_row_start 0 s.combined_.coo_ld_
        (vec_resize s.combined_.csr_ld_snp_index_ (m.snp_to_tag.length + 1)
          (s.combined_.coo_ld_.length : Int)) = some rs1 ∧
      s1 = { s with combined_ :=
        { csr_ld_snp_index_ := backfill_row_start rs1
          csr_ld_tag_index_ := s.combined_.csr_ld_tag_index_ ++
            s.combined_.coo_ld_.map (fun e => e.2.1)
          csr_ld_r2_ := s.combined_.csr_ld_r2_ ++ s.combined_.coo_ld_.map (fun e => e.2.2)
          coo_ld_ := s.combined_.coo_ld_ } } := by
  cases hf : fill_row_start 0 s.combined_.coo_ld_
      (vec_resize s.combined_.csr_ld_snp_index_ (m.snp_to_tag.length + 1)
        (s.combined_.coo_ld_.length : Int)) with
  | none => simp [compact, hf] at h
  | some rs1 =>
    simp only [compact, hf, Prod.mk.injEq, and_true] at h
    exact ⟨rs1, rfl, h.symm⟩

/-- What a successful `set_ld_r2_csr` has done: the COO list was not empty, the diagonal
injection went through, the sorted list was compacted without a write out of bounds, the
COO list was released and the validation passed. -/
theorem set_ld_r2_csr_ok {m : TagToSnpMapping} {r2_min : Flt} {s s1 : LdMatrixCsr}
    (h : set_ld_r2_csr m r2_min s = (s1, Outcome.ok)) :
    s.combined_.coo_ld_ ≠ [] ∧
    (∃ sa, inject_diagonal m s = (sa, Outcome.ok) ∧
      s1.ld_tag_sum_ = sa.ld_tag_sum_ ∧
      s1.ld_tag_sum_adjust_for_hvec_ = sa.ld_tag_sum_adjust_for_hvec_) ∧
    (∃ rs1,
      fill_row_start 0 (sort_coo (s.combined_.coo_ld_ ++ diag_entries m))
        (vec_resize s.combined_.csr_ld_snp_index_ (m.snp_to_tag.length + 1)
          ((sort_coo (s.combined_.coo_ld_ ++ diag_entries m)).length : Int)) = some rs1 ∧
      s1.combined_ =
        { csr_ld_snp_index_ := backfill_row_start rs1
          csr_ld_tag_index_ := s.combined_.csr_ld_tag_index_ ++
            (sort_coo (s.combined_.coo_ld_ ++ diag_entries m)).map (fun e => e.2.1)
          csr_ld_r2_ := s.combined_.csr_ld_r2_ ++
            (sort_coo (s.combined_.coo_ld_ ++ diag_entries m)).map (fun e => e.2.2)
          coo_ld_ := [] }) ∧
    validate_ld_r2_csr m r2_min s1 = Outcome.ok := by
  unfold set_ld_r2_csr at h
  obtain ⟨sb, hb, h2⟩ := seq_eq_ok h
  clear h
  obtain ⟨sc, hc, h⟩ := seq_eq_ok h2
  clear h2
  unfold build_csr at hb
  obtain ⟨s0, h0, hb1⟩ := seq_eq_ok hb
  clear hb
  obtain ⟨sa, ha, hb2⟩ := seq_eq_ok hb1
  clear hb1
  obtain ⟨sd, hd, hb⟩ := seq_eq_ok hb2
  clear hb2
  have hne : s.combined_.coo_ld_ ≠ [] := by
    intro hnil
    rw [check_coo_not_empty_err hnil] at h0
    simp at h0
  have hs0 : s0 = s := by
    rw [check_coo_not_empty_ok hne] at h0
    simp only [Prod.mk.injEq, and_true] at h0
    exact h0.symm
  subst hs0
  have hinj := inject_diagonal_ok ha
  simp only [sort_step, release_coo, Prod.mk.injEq, and_true] at hd hc h
  obtain ⟨h, hv⟩ := h
  subst hd hc
  subst h
  obtain ⟨rs1, hfill, hsb⟩ := compact_ok hb
  subst hsb
  simp only [hinj.1] at hfill
  refine ⟨hne, ⟨sa, ha, rfl, rfl⟩, ⟨rs1, hfill, ?_⟩, hv⟩
  simp only [hinj.1]

/-- The checks a structure has passed when `validate_ld_r2_csr` returns normally. -/
theorem validate_ok {m : TagToSnpMapping} {r2_min : Flt} {s : LdMatrixCsr}
    (h : validate_ld_r2_csr m r2_min s = Outcome.ok) :
    s.combined_.csr_ld_snp_index_.length = m.num_snp + 1 ∧
    (∀ x ∈ s.combined_.csr_ld_snp_index_,
      0 ≤ x ∧ x ≤ (s.combined_.csr_ld_r2_.length : Int)) ∧
    has_descent s.combined_.csr_ld_snp_index_ = false ∧
    s.combined_.csr_ld_snp_index_.getLast? = some (s.combined_.csr_ld_r2_.length : Int) ∧
    s.combined_.csr_ld_tag_index_.length = s.combined_.csr_ld_r2_.length ∧
    (∀ t ∈ s.combined_.csr_ld_tag_index_, 0 ≤ t ∧ t < (m.num_tag : Int)) ∧
    (∀ v ∈ s.combined_.csr_ld_r2_, Flt.lt v r2_min = false ∧ Flt.lt (Flt.fin 1) v = false) ∧
    (∀ v ∈ s.combined_.csr_ld_r2_, v.isfinite = true) ∧
    (∀ i, i < m.num_snp → has_adjacent_duplicate (s.combined_.row i) = false) ∧
    check_rows m s.combined_ (List.range m.num_snp) = Outcome.ok := by
  unfold validate_ld_r2_csr at h
  simp only at h
  split at h
  · simp at h
  rename_i h1
  split at h
  · simp at h
  rename_i h2
  split at h
  · simp at h
  rename_i h3
  split at h
  · simp at h
  rename_i h4
  split at h
  · simp at h
  rename_i h5
  split at h
  · simp at h
  rename_i h6
  split at h
  · simp at h
  rename_i h7
  split at h
  · simp at h
  rename_i h8
  split at h
  · simp at h
  rename_i h9
  refine ⟨by simpa using h1, ?_, by simpa using h3, by simpa using h4, by simpa using h5,
    ?_, ?_, ?_, ?_, h⟩
  · intro x hx
    simp only [List.any_eq_true, not_exists, not_and, Bool.or_eq_true, decide_eq_true_eq,
      not_or, not_lt] at h2
    have := h2 x hx
    omega
  · intro t ht
    simp only [List.any_eq_true, not_exists, not_and, Bool.or_eq_true, decide_eq_true_eq,
      not_or, not_lt, ge_iff_le, not_le] at h6
    have := h6 t ht
    omega
  · intro v hv
    simp only [List.any_eq_true, not_exists, not_and, Bool.or_eq_true, not_or,
      Bool.not_eq_true] at h7
    exact h7 v hv
  · intro v hv
    simp only [List.any_eq_true, not_exists, not_and, Bool.not_eq_true', Bool.not_eq_false]
      at h8
    exact h8 v hv
  · intro i hi
    simp only [List.any_eq_true, List.mem_range, not_exists, not_and, Bool.not_eq_true] at h9
    exact h9 i hi

theorem has_descent_false {l : List Int} (h : has_descent l = false) :
    l.Pairwise (fun a b => a ≤ b) := by
  rw [← List.chain'_iff_pairwise]
  induction l with
  | nil => exact List.chain'_nil
  | cons a l ih =>
    cases l with
    | nil => exact List.chain'_singleton a
    | cons b l =>
      simp only [has_descent, Bool.or_eq_false_iff, decide_eq_false_iff_not, gt_iff_lt,
        not_lt] at h
      exact List.chain'_cons.mpr ⟨h.1, ih h.2⟩

theorem sort_coo_length (l : List CooEntry) : (sort_coo l).length = l.length :=
  List.length_insertionSort _ l

/-- After a successful `set_ld_r2_csr` the CSR value array is not empty. -/
theorem set_ld_r2_csr_nonempty {m : TagToSnpMapping} {r2_min : Flt} {s s1 : LdMatrixCsr}
    (h : set_ld_r2_csr m r2_min s = (s1, Outcome.ok)) : s1.combined_.csr_ld_r2_ ≠ [] := by
  obtain ⟨hne, -, ⟨rs1, -, hc⟩, -⟩ := set_ld_r2_csr_ok h
  rw [hc]
  intro hnil
  have hlen := congrArg List.length hnil
  simp only [List.length_append, List.length_map, sort_coo_length, List.length_nil] at hlen
  have : s.combined_.coo_ld_.length = 0 := by omega
  exact hne (List.length_eq_zero.mp this)

end LdMatrixCsr

/-! ### The invariant of the reachable objects -/

namespace LdMatrixCsr

theorem alloc_tag_sums_snd (m : TagToSnpMapping) (s : LdMatrixCsr) :
    (alloc_tag_sums m s).2 = Outcome.ok := by
  unfold alloc_tag_sums
  split <;> rfl

/-- Ingestion either leaves the object as it was, or it starts from an object with an
empty CSR value array, creates the accumulators and then only extends. -/
theorem set_ld_r2_coo_cases (m : TagToSnpMapping) (batch : List (Int × Int × Flt))
    (r2_min : Flt) (s : LdMatrixCsr) :
    (set_ld_r2_coo m batch r2_min s).1 = s ∨
    (s.combined_.csr_ld_r2_ = [] ∧ m.mafvec ≠ [] ∧
      Extends (alloc_tag_sums m s).1 (set_ld_r2_coo m batch r2_min s).1) := by
  by_cases hc : s.combined_.csr_ld_r2_ = []
  · by_cases hm : m.mafvec = []
    · obtain ⟨w, hw⟩ := set_ld_r2_coo_no_mafvec m batch r2_min s hm
      left
      rw [hw]
    · right
      refine ⟨hc, hm, ?_⟩
      unfold set_ld_r2_coo
      rw [seq_apply_ok (check_not_finalized_ok hc)]
      have h1 : throw_if m.mafvec.isEmpty "can't call set_ld_r2_coo before set_mafvec" s =
          (s, Outcome.ok) := by
        cases hmv : m.mafvec with
        | nil => exact absurd hmv hm
        | cons a l => rfl
      rw [seq_apply_ok h1]
      have h2 : alloc_tag_sums m s = ((alloc_tag_sums m s).1, Outcome.ok) := by
        rw [← alloc_tag_sums_snd m s]
      rw [seq_apply_ok h2]
      refine seq_extends (throw_if_extends _ _) ?_ _
      refine seq_extends (throw_if_extends _ _) ?_
      exact forEach_extends (coo_loop_body_extends m r2_min _) batch
  · left
    rw [set_ld_r2_coo_after_csr m batch r2_min s hc]

/-- The ways `set_ld_r2_csr` can end: before anything is written, in the diagonal
injection, with undefined behaviour, or after the compaction (then the COO list is
released, whatever the validation says). -/
theorem set_ld_r2_csr_cases (m : TagToSnpMapping) (r2_min : Flt) (s : LdMatrixCsr) :
    (set_ld_r2_csr m r2_min s).1 = s ∨
    (s.combined_.coo_ld_ ≠ [] ∧ (set_ld_r2_csr m r2_min s).1 = (inject_diagonal m s).1 ∧
      (inject_diagonal m s).2 ≠ Outcome.ok) ∨
    (set_ld_r2_csr m r2_min s).2 = Outcome.undefined ∨
    (s.combined_.coo_ld_ ≠ [] ∧
      (set_ld_r2_csr m r2_min s).1.combined_.coo_ld_ = [] ∧
      (set_ld_r2_csr m r2_min s).1.combined_.csr_ld_r2_ ≠ [] ∧
      (set_ld_r2_csr m r2_min s).1.ld_tag_sum_ = (inject_diagonal m s).1.ld_tag_sum_ ∧
      (set_ld_r2_csr m r2_min s).1.ld_tag_sum_adjust_for_hvec_ =
        (inject_diagonal m s).1.ld_tag_sum_adjust_for_hvec_) := by
  by_cases hne : s.combined_.coo_ld_ = []
  · left
    have hb : build_csr m s = (s, Outcome.runtime_error "coo_ld_ is empty") := by
      unfold build_csr
      rw [seq_apply_err (check_coo_not_empty_err hne) (by simp)]
    unfold set_ld_r2_csr
    rw [seq_apply_err hb (by simp)]
  · have h0 := check_coo_not_empty_ok hne
    rcases hinj : inject_diagonal m s with ⟨sa, e⟩
    have hext := inject_diagonal_extends m s
    rw [hinj] at hext
    by_cases he : e = Outcome.ok
    · subst he
      right; right
      have hsort : sort_step sa =
          (({ sa with combined_ := { sa.combined_ with
              coo_ld_ := sort_coo sa.combined_.coo_ld_ } } : LdMatrixCsr), Outcome.ok) := rfl
      have hb : build_csr m s = compact m
          { sa with combined_ := { sa.combined_ with
              coo_ld_ := sort_coo sa.combined_.coo_ld_ } } := by
        unfold build_csr
        rw [seq_apply_ok h0, seq_apply_ok hinj, seq_apply_ok hsort]
      rcases hcomp : compact m
          { sa with combined_ := { sa.combined_ with
              coo_ld_ := sort_coo sa.combined_.coo_ld_ } } with ⟨sc, ec⟩
      rw [hcomp] at hb
      cases ec with
      | runtime_error w =>
        exfalso
        unfold compact at hcomp
        simp only at hcomp
        split at hcomp <;> simp at hcomp
      | undefined =>
        left
        unfold set_ld_r2_csr
        rw [seq_apply_err hb (by simp)]
      | ok =>
        right
        obtain ⟨rs1, -, hsc⟩ := compact_ok hcomp
        have hfin : (set_ld_r2_csr m r2_min s).1 =
            { sc with combined_ := { sc.combined_ with coo_ld_ := [] } } := by
          unfold set_ld_r2_csr
          rw [seq_apply_ok hb]
          simp [Step.seq, release_coo]
        rw [hfin, hsc]
        refine ⟨hne, rfl, ?_, rfl, rfl⟩
        simp only
        intro hnil
        have hl := congrArg List.length hnil
        simp only [List.length_append, List.length_map, sort_coo_length,
          List.length_nil] at hl
        obtain ⟨l, hl2⟩ := hext.2.2.2.2.1
        have : sa.combined_.coo_ld_.length = 0 := by omega
        rw [hl2] at this
        simp only [List.length_append] at this
        exact hne (List.length_eq_zero.mp (by omega))
    · right; left
      refine ⟨hne, ?_, he⟩
      unfold set_ld_r2_csr
      have hb : build_csr m s = (sa, e) := by
        unfold build_csr
        rw [seq_apply_ok h0, seq_apply_err hinj he]
      rw [seq_apply_err hb he]

theorem inv_empty (m : TagToSnpMapping) : Inv m LdMatrixCsr.empty := by
  refine ⟨fun _ => rfl, fun _ => ⟨rfl, rfl⟩, rfl, fun h => absurd rfl h, ?_, ?_⟩ <;>
    intro a ha <;> simp [LdMatrixCsr.empty] at ha

theorem inv_alloc {m : TagToSnpMapping} {s : LdMatrixCsr} (h : Inv m s) :
    Inv m (alloc_tag_sums m s).1 ∧ (alloc_tag_sums m s).1.ld_tag_sum_.isSome = true ∧
    (alloc_tag_sums m s).1.combined_ = s.combined_ := by
  obtain ⟨h1, h2, h3, h4, h5, h6⟩ := h
  cases ha : s.ld_tag_sum_adjust_for_hvec_ with
  | none =>
    have hs : (alloc_tag_sums m s).1 = { s with
        ld_tag_sum_adjust_for_hvec_ := some (LdTagSum.create LD_TAG_COMPONENT_COUNT m.num_tag)
        ld_tag_sum_ := some (LdTagSum.create LD_TAG_COMPONENT_COUNT m.num_tag) } := by
      simp [alloc_tag_sums, ha]
    rw [hs]
    refine ⟨⟨h1, h2, rfl, fun _ => rfl, ?_, ?_⟩, rfl, rfl⟩
    · intro a hsome
      simp only [Option.some.injEq] at hsome
      subst hsome
      exact LdTagSum.create_shaped _ _
    · intro a hsome
      simp only [Option.some.injEq] at hsome
      subst hsome
      exact LdTagSum.create_shaped _ _
  | some acc =>
    have hs : (alloc_tag_sums m s).1 = s := by
      simp [alloc_tag_sums, ha]
    rw [hs]
    refine ⟨⟨h1, h2, h3, h4, h5, h6⟩, ?_, rfl⟩
    rw [← h3, ha]
    rfl

theorem inv_extends {m : TagToSnpMapping} {s s1 : LdMatrixCsr} (h : Inv m s)
    (hc : s.combined_.csr_ld_r2_ = []) (hs : s.ld_tag_sum_.isSome = true)
    (he : Extends s s1) : Inv m s1 := by
  obtain ⟨h1, h2, h3, h4, h5, h6⟩ := h
  obtain ⟨e1, e2, e3, e4, e5, e6, e7, e8, e9⟩ := he
  refine ⟨fun _ => by rw [e4, hc], ?_, by rw [e6, e7, h3], fun _ => by rw [e7, hs],
    e8 _ _ h5, e9 _ _ h6⟩
  intro _
  rw [e2, e3]
  exact h2 hc

theorem inv_clear {m : TagToSnpMapping} {s : LdMatrixCsr} (h : Inv m s) : Inv m s.clear := by
  obtain ⟨h1, h2, h3, h4, h5, h6⟩ := h
  refine ⟨fun _ => rfl, fun _ => ⟨rfl, rfl⟩, ?_, fun hne => absurd rfl hne, ?_, ?_⟩
  · simp only [clear, Option.isSome_map']
    exact h3
  · intro a ha
    simp only [clear, Option.map_eq_some'] at ha
    obtain ⟨a0, ha0, rfl⟩ := ha
    exact LdTagSum.clear_shaped (h5 a0 ha0)
  · intro a ha
    simp only [clear, Option.map_eq_some'] at ha
    obtain ⟨a0, ha0, rfl⟩ := ha
    exact LdTagSum.clear_shaped (h6 a0 ha0)

/-- Every reachable object satisfies the invariant `Inv`. -/
theorem reachable_inv {m : TagToSnpMapping} {s : LdMatrixCsr} (h : Reachable m s) :
    Inv m s := by
  induction h with
  | empty => exact inv_empty m
  | coo batch r2_min s _ _ ih =>
    rcases set_ld_r2_coo_cases m batch r2_min s with hsame | ⟨hc, -, hext⟩
    · rw [hsame]; exact ih
    · obtain ⟨ha, hsome, hcomb⟩ := inv_alloc ih
      exact inv_extends ha (by rw [hcomb]; exact hc) hsome hext
  | csr r2_min s _ hdef ih =>
    rcases set_ld_r2_csr_cases m r2_min s with hsame | ⟨hne, hfin, -⟩ | hund | hdone
    · rw [hsame]; exact ih
    · rw [hfin]
      exact inv_extends ih (ih.1 hne) (ih.2.2.2.1 hne) (inject_diagonal_extends m s)
    · exact absurd hund hdef
    · obtain ⟨hne, hcoo, hcsr, hsum, hadj⟩ := hdone
      have hext := inject_diagonal_extends m s
      obtain ⟨e1, e2, e3, e4, e5, e6, e7, e8, e9⟩ := hext
      obtain ⟨h1, h2, h3, h4, h5, h6⟩ := ih
      refine ⟨fun hh => absurd hcoo hh, fun hh => absurd hh hcsr, ?_, fun hh => absurd hcoo hh,
        ?_, ?_⟩
      · rw [hsum, hadj, e6, e7, h3]
      · rw [hadj]; exact e8 _ _ h5
      · rw [hsum]; exact e9 _ _ h6
  | clear s _ ih => exact inv_clear ih

end LdMatrixCsr

/-! ### The validated structure (C4) and the ordering of ingestion (C10) -/

/-- C4, counterexample: with `r2_min = NaN` the finalization of the scenario of spec §8
succeeds, and the stored values do not lie in `[r2_min, 1.0]`, since `r2_min <= v` is
false for a NaN threshold. -/
theorem C4_counterexample :
    LdMatrixCsr.set_ld_r2_csr Scenario.mapping Flt.nan Scenario.ingested =
      (Scenario.finalized_nan, Outcome.ok) ∧
    ¬ (∀ v ∈ Scenario.finalized_nan.combined_.csr_ld_r2_,
        Flt.le Flt.nan v = true ∧ Flt.le v (Flt.fin 1) = true) := by
  decide!

/-- C4 (amended): whenever `set_ld_r2_csr(r2_min)` succeeds, `row_start` has length
`num_snp + 1`, is monotone non-decreasing with every entry in `[0, nnz]` and
`row_start[num_snp] = nnz`, `col_tag_index` has the length `nnz` of `value_r2`, every
`col_tag_index` entry lies in `[0, num_tag)`, and every `value_r2` entry is finite, is not
below `r2_min`, is at most 1.0, and lies in `[r2_min, 1.0]` when `r2_min` is not NaN. -/
theorem C4_finalized_structure_invariant (m : TagToSnpMapping) (r2_min : Flt)
    (s s1 : LdMatrixCsr) (h : LdMatrixCsr.set_ld_r2_csr m r2_min s = (s1, Outcome.ok)) :
    s1.combined_.csr_ld_snp_index_.length = m.num_snp + 1 ∧
    s1.combined_.csr_ld_snp_index_.Pairwise (fun a b => a ≤ b) ∧
    (∀ x ∈ s1.combined_.csr_ld_snp_index_,
      0 ≤ x ∧ x ≤ (s1.combined_.csr_ld_r2_.length : Int)) ∧
    s1.combined_.csr_ld_snp_index_[m.num_snp]? = some (s1.combined_.csr_ld_r2_.length : Int) ∧
    s1.combined_.csr_ld_tag_index_.length = s1.combined_.csr_ld_r2_.length ∧
    (∀ t ∈ s1.combined_.csr_ld_tag_index_, 0 ≤ t ∧ t < (m.num_tag : Int)) ∧
    (∀ v ∈ s1.combined_.csr_ld_r2_,
      v.isfinite = true ∧ Flt.lt v r2_min = false ∧ Flt.le v (Flt.fin 1) = true ∧
      (r2_min ≠ Flt.nan → Flt.le r2_min v = true)) := by
  obtain ⟨-, -, -, hv⟩ := LdMatrixCsr.set_ld_r2_csr_ok h
  obtain ⟨h1, h2, h3, h4, h5, h6, h7, h8, -, -⟩ := LdMatrixCsr.validate_ok hv
  refine ⟨h1, LdMatrixCsr.has_descent_false h3, h2, ?_, h5, h6, ?_⟩
  · rw [List.getLast?_eq_getElem?, h1] at h4
    simpa using h4
  · intro v hv
    have hf := h8 v hv
    have hc := h7 v hv
    cases v with
    | fin q =>
      refine ⟨rfl, hc.1, ?_, ?_⟩
      · have := hc.2
        simp only [Flt.lt, decide_eq_false_iff_not, not_lt] at this
        simpa [Flt.le] using this
      · intro hn
        have := hc.1
        cases r2_min with
        | fin a =>
          simp only [Flt.lt, decide_eq_false_iff_not, not_lt] at this
          simpa [Flt.le] using this
        | pinf => simp [Flt.lt] at this
        | ninf => rfl
        | nan => exact absurd rfl hn
    | pinf => simp [Flt.isfinite] at hf
    | ninf => simp [Flt.isfinite] at hf
    | nan => simp [Flt.isfinite] at hf

/-- C4, witness: the scenario of spec §8, finalized with `r2_min = 0.1`. -/
theorem C4_finalized_structure_invariant_witness :
    LdMatrixCsr.set_ld_r2_csr Scenario.mapping (Flt.fin (1 / 10)) Scenario.ingested =
      (Scenario.finalized, Outcome.ok) ∧
    Scenario.finalized.combined_.csr_ld_snp_index_.length = Scenario.mapping.num_snp + 1 ∧
    (∀ v ∈ Scenario.finalized.combined_.csr_ld_r2_,
      v.isfinite = true ∧ Flt.lt v (Flt.fin (1 / 10)) = false ∧
      Flt.le v (Flt.fin 1) = true ∧
      (Flt.fin (1 / 10) ≠ Flt.nan → Flt.le (Flt.fin (1 / 10)) v = true)) :=
  have h : LdMatrixCsr.set_ld_r2_csr Scenario.mapping (Flt.fin (1 / 10)) Scenario.ingested =
      (Scenario.finalized, Outcome.ok) := by decide!
  have t := C4_finalized_structure_invariant Scenario.mapping (Flt.fin (1 / 10))
    Scenario.ingested Scenario.finalized h
  ⟨h, t.1, t.2.2.2.2.2.2⟩

/-- C10: `set_ld_r2_coo` fails, whatever the batch, on an object that `set_ld_r2_csr` has
finalized (its CSR value array is then not empty) and when the MAF vector of the mapping
is empty; the failing call leaves the whole object (COO list, CSR arrays, running sums)
as it was. -/
theorem C10_ingest_ordering (m : TagToSnpMapping) (batch : List (Int × Int × Flt))
    (r2_min : Flt) (s : LdMatrixCsr) :
    (∀ (r : Flt) (s0 : LdMatrixCsr), LdMatrixCsr.set_ld_r2_csr m r s0 = (s, Outcome.ok) →
      s.combined_.csr_ld_r2_ ≠ []) ∧
    (s.combined_.csr_ld_r2_ ≠ [] →
      LdMatrixCsr.set_ld_r2_coo m batch r2_min s =
        (s, Outcome.runtime_error "can't call set_ld_r2_coo after set_ld_r2_csr")) ∧
    (m.mafvec = [] →
      ∃ what, LdMatrixCsr.set_ld_r2_coo m batch r2_min s = (s, Outcome.runtime_error what)) :=
  ⟨fun _ _ h => LdMatrixCsr.set_ld_r2_csr_nonempty h,
    LdMatrixCsr.set_ld_r2_coo_after_csr m batch r2_min s,
    LdMatrixCsr.set_ld_r2_coo_no_mafvec m batch r2_min s⟩

/-- C10, witness: the finalized scenario of spec §8 rejects a further batch, and an empty
object with an unset MAF vector rejects it too. -/
theorem C10_ingest_ordering_witness :
    LdMatrixCsr.set_ld_r2_csr Scenario.mapping (Flt.fin (1 / 10)) Scenario.ingested =
      (Scenario.finalized, Outcome.ok) ∧
    LdMatrixCsr.set_ld_r2_coo Scenario.mapping [(0, 1, Flt.fin (1 / 2))] (Flt.fin (1 / 10))
        Scenario.finalized =
      (Scenario.finalized,
        Outcome.runtime_error "can't call set_ld_r2_coo after set_ld_r2_csr") ∧
    ({ Scenario.mapping with mafvec := [] } : TagToSnpMapping).mafvec = [] ∧
    (∃ what, LdMatrixCsr.set_ld_r2_coo { Scenario.mapping with mafvec := [] }
        [(0, 1, Flt.fin (1 / 2))] (Flt.fin (1 / 10)) LdMatrixCsr.empty =
      (LdMatrixCsr.empty, Outcome.runtime_error what)) :=
  have h : LdMatrixCsr.set_ld_r2_csr Scenario.mapping (Flt.fin (1 / 10)) Scenario.ingested =
      (Scenario.finalized, Outcome.ok) := by decide!
  have t := C10_ingest_ordering Scenario.mapping [(0, 1, Flt.fin (1 / 2))] (Flt.fin (1 / 10))
    Scenario.finalized
  have u := C10_ingest_ordering { Scenario.mapping with mafvec := [] }
    [(0, 1, Flt.fin (1 / 2))] (Flt.fin (1 / 10)) LdMatrixCsr.empty
  ⟨h, t.2.1 (t.1 _ _ h), rfl, u.2.2 rfl⟩

/-! ### Steps that return normally: the records they append, the terms they add -/

namespace LdMatrixCsr

theorem adds_refl {m : TagToSnpMapping} {s : LdMatrixCsr} (h : Good m s) :
    Adds m s s (fun _ _ => []) (fun _ _ => []) [] := by
  refine ⟨h, rfl, by simp, ?_, ?_⟩ <;> intro c t <;> simp

theorem adds_trans {m : TagToSnpMapping} {s s1 s2 : LdMatrixCsr}
    {ta1 ts1 ta2 ts2 : Int → Int → List Flt} {l1 l2 : List CooEntry}
    (h1 : Adds m s s1 ta1 ts1 l1) (h2 : Adds m s1 s2 ta2 ts2 l2) :
    Adds m s s2 (fun c t => ta1 c t ++ ta2 c t) (fun c t => ts1 c t ++ ts2 c t)
      (l1 ++ l2) := by
  obtain ⟨-, a2, a3, a4, a5⟩ := h1
  obtain ⟨b1, b2, b3, b4, b5⟩ := h2
  refine ⟨b1, b2.trans a2, ?_, ?_, ?_⟩
  · rw [b3, a3]
    simp
  · intro c t
    rw [b4, a4, Option.map_map]
    congr 1
    funext x
    simp [List.foldl_append]
  · intro c t
    rw [b5, a5, Option.map_map]
    congr 1
    funext x
    simp [List.foldl_append]

theorem adds_congr {m : TagToSnpMapping} {s s1 : LdMatrixCsr}
    {ta ts ta1 ts1 : Int → Int → List Flt} {l l1 : List CooEntry}
    (h : Adds m s s1 ta ts l) (ha : ∀ c t, ta c t = ta1 c t) (hs : ∀ c t, ts c t = ts1 c t)
    (hl : l = l1) : Adds m s s1 ta1 ts1 l1 := by
  have e1 : ta = ta1 := by funext c t; exact ha c t
  have e2 : ts = ts1 := by funext c t; exact hs c t
  subst e1 e2 hl
  exact h

theorem runs_seq {m : TagToSnpMapping} {f g : Step} {s : LdMatrixCsr}
    {ta1 ts1 ta2 ts2 : Int → Int → List Flt} {l1 l2 : List CooEntry}
    (hf : Runs m f s ta1 ts1 l1)
    (hg : ∀ s1, Good m s1 → Runs m g s1 ta2 ts2 l2) :
    Runs m (Step.seq f g) s (fun c t => ta1 c t ++ ta2 c t) (fun c t => ts1 c t ++ ts2 c t)
      (l1 ++ l2) := by
  obtain ⟨s1, hfs, h1⟩ := hf
  obtain ⟨s2, hgs, h2⟩ := hg s1 h1.1
  exact ⟨s2, by rw [seq_apply_ok hfs, hgs], adds_trans h1 h2⟩

theorem runs_congr {m : TagToSnpMapping} {f : Step} {s : LdMatrixCsr}
    {ta ts ta1 ts1 : Int → Int → List Flt} {l l1 : List CooEntry}
    (h : Runs m f s ta ts l) (ha : ∀ c t, ta c t = ta1 c t) (hs : ∀ c t, ts c t = ts1 c t)
    (hl : l = l1) : Runs m f s ta1 ts1 l1 := by
  obtain ⟨s1, hfs, h1⟩ := h
  exact ⟨s1, hfs, adds_congr h1 ha hs hl⟩

theorem runs_skip {m : TagToSnpMapping} {s : LdMatrixCsr} (h : Good m s) :
    Runs m (fun s => (s, Outcome.ok)) s (fun _ _ => []) (fun _ _ => []) [] :=
  ⟨s, rfl, adds_refl h⟩

theorem runs_forEach {m : TagToSnpMapping} {α : Type} {body : α → Step}
    {ta ts : α → Int → Int → List Flt} {l : α → List CooEntry} (xs : List α)
    (hb : ∀ x ∈ xs, ∀ s, Good m s → Runs m (body x) s (ta x) (ts x) (l x)) :
    ∀ s, Good m s → Runs m (Step.forEach body xs) s
      (fun c t => xs.flatMap (fun x => ta x c t)) (fun c t => xs.flatMap (fun x => ts x c t))
      (xs.flatMap l) := by
  induction xs with
  | nil =>
    intro s hs
    exact runs_skip hs
  | cons x xs ih =>
    intro s hs
    rw [forEach_cons]
    have h1 := hb x (List.mem_cons_self x xs) s hs
    have h2 := runs_seq h1
      (ih (fun y hy s1 hs1 => hb y (List.mem_cons_of_mem x hy) s1 hs1))
    exact runs_congr h2 (fun c t => by simp) (fun c t => by simp) (by simp)

end LdMatrixCsr

/-! ### Stores into the accumulators -/

namespace LdTagSum

theorem vec_at_of_lt {α : Type} {v : List α} {i : Int} (h0 : 0 ≤ i) (h1 : i < v.length) :
    ∃ x, vec_at v i = some x := by
  unfold vec_at
  rw [if_neg (by omega)]
  have : i.toNat < v.length := by omega
  exact ⟨v[i.toNat], List.getElem?_eq_getElem this⟩

theorem store_some {a : LdTagSum} {nc nt : Nat} (hs : a.Shaped nc nt) {c t : Int}
    (hc0 : 0 ≤ c) (hc1 : c < nc) (ht0 : 0 ≤ t) (ht1 : t < nt) (v : Flt) :
    ∃ a1, a.store c t v = some a1 := by
  unfold store
  obtain ⟨row, hrow⟩ := vec_at_of_lt hc0 (by rw [hs.1]; exact hc1)
  have hlen : row.length = nt := hs.2 row (List.getElem?_mem (vec_at_eq_some hrow).2.2)
  obtain ⟨x, hx⟩ := vec_at_of_lt ht0 (by rw [hlen]; exact ht1)
  simp only [hrow, hx]
  exact ⟨_, rfl⟩

theorem value_store {a a1 : LdTagSum} {c t : Int} {v : Flt} (h : a.store c t v = some a1)
    (c1 t1 : Int) :
    a1.value c1 t1 =
      if c1 = c ∧ t1 = t then (a.value c t).map (fun x => Flt.add x v) else a.value c1 t1 := by
  unfold store at h
  cases hr : vec_at a.slots c with
  | none => simp [hr] at h
  | some row =>
    simp only [hr] at h
    cases hx : vec_at row t with
    | none => simp [hx] at h
    | some x =>
      simp only [hx, Option.some.injEq] at h
      subst h
      obtain ⟨hc0, hc1, hrow⟩ := vec_at_eq_some hr
      obtain ⟨ht0, ht1, hxx⟩ := vec_at_eq_some hx
      by_cases hcc : c1 = c
      · subst hcc
        have hv1 : vec_at (a.slots.set c1.toNat (row.set t.toNat (Flt.add x v))) c1 =
            some (row.set t.toNat (Flt.add x v)) := by
          unfold vec_at
          rw [if_neg (by omega)]
          simp [List.getElem?_set, hc1]
        by_cases htt : t1 = t
        · subst htt
          simp only [value, hv1, hr, hx, and_self, if_true, Option.map_some']
          unfold vec_at
          rw [if_neg (by omega)]
          simp [List.getElem?_set, ht1]
        · simp only [value, hv1, hr, htt, and_false, if_false]
          unfold vec_at
          by_cases hneg : t1 < 0
          · simp [hneg]
          · rw [if_neg hneg, if_neg hneg]
            have : t.toNat ≠ t1.toNat := by omega
            simp [List.getElem?_set, this]
      · simp only [hcc, false_and, if_false]
        unfold value
        have hv1 : vec_at (a.slots.set c.toNat (row.set t.toNat (Flt.add x v))) c1 =
            vec_at a.slots c1 := by
          unfold vec_at
          by_cases hneg : c1 < 0
          · simp [hneg]
          · rw [if_neg hneg, if_neg hneg]
            have : c.toNat ≠ c1.toNat := by omega
            simp [List.getElem?_set, this]
        rw [hv1]

theorem value_create {nc nt : Nat} {c t : Int} (hc0 : 0 ≤ c) (hc1 : c < nc) (ht0 : 0 ≤ t)
    (ht1 : t < nt) : (create nc nt).value c t = some (Flt.fin 0) := by
  unfold value create vec_at
  have h1 : c.toNat < nc := by omega
  have h2 : t.toNat < nt := by omega
  simp [show ¬ c < 0 by omega, show ¬ t < 0 by omega, List.getElem?_replicate, h1, h2]

end LdTagSum

namespace LdMatrixCsr

theorem runs_throw_if_false {m : TagToSnpMapping} {s : LdMatrixCsr} (h : Good m s)
    {cond : Bool} (hc : cond = false) (what : String) :
    Runs m (throw_if cond what) s (fun _ _ => []) (fun _ _ => []) [] := by
  subst hc
  exact ⟨s, rfl, adds_refl h⟩

theorem runs_coo_push {m : TagToSnpMapping} {s : LdMatrixCsr} (h : Good m s) (e : CooEntry) :
    Runs m (coo_push e) s (fun _ _ => []) (fun _ _ => []) [e] := by
  refine ⟨_, rfl, ⟨h.1, h.2⟩, rfl, rfl, ?_, ?_⟩ <;> intro c t <;> simp [LdMatrixCsr.coo_push,
    adjust_value, sum_value]

theorem runs_store_tag_sum {m : TagToSnpMapping} {s : LdMatrixCsr} (h : Good m s)
    (adjust : Bool) {c t : Int} (hc0 : 0 ≤ c) (hc1 : c < LD_TAG_COMPONENT_COUNT)
    (ht0 : 0 ≤ t) (ht1 : t < m.num_tag) (v : Flt) :
    Runs m (LdMatrixCsr.store_tag_sum adjust c t v) s
      (fun c1 t1 => if adjust = true ∧ c1 = c ∧ t1 = t then [v] else [])
      (fun c1 t1 => if adjust = false ∧ c1 = c ∧ t1 = t then [v] else []) [] := by
  obtain ⟨hcsr, a, b, ha, hb, hsa, hsb⟩ := h
  cases adjust
  · obtain ⟨b1, hb1⟩ := LdTagSum.store_some hsb hc0 hc1 ht0 ht1 v
    refine ⟨{ s with ld_tag_sum_ := some b1 }, ?_, ⟨hcsr, a, b1, ha, rfl, hsa,
      LdTagSum.store_shaped hb1 hsb⟩, rfl, by simp, ?_, ?_⟩
    · simp [LdMatrixCsr.store_tag_sum, hb, hb1]
    · intro c1 t1
      simp [adjust_value]
    · intro c1 t1
      simp only [sum_value, hb, LdTagSum.value_store hb1 c1 t1, true_and]
      by_cases hh : c1 = c ∧ t1 = t
      · obtain ⟨rfl, rfl⟩ := hh
        simp
      · simp [hh]
  · obtain ⟨a1, ha1⟩ := LdTagSum.store_some hsa hc0 hc1 ht0 ht1 v
    refine ⟨{ s with ld_tag_sum_adjust_for_hvec_ := some a1 }, ?_, ⟨hcsr, a1, b, rfl, hb,
      LdTagSum.store_shaped ha1 hsa, hsb⟩, rfl, by simp, ?_, ?_⟩
    · simp [LdMatrixCsr.store_tag_sum, ha, ha1]
    · intro c1 t1
      simp only [adjust_value, ha, LdTagSum.value_store ha1 c1 t1, true_and]
      by_cases hh : c1 = c ∧ t1 = t
      · obtain ⟨rfl, rfl⟩ := hh
        simp
      · simp [hh]
    · intro c1 t1
      simp [sum_value]

end LdMatrixCsr

/-! ### Reads of a well-formed mapping, the statements of the ingestion loop -/

namespace TagToSnpMapping

theorem vec_at_getD {α : Type} {v : List α} {i : Int} (h0 : 0 ≤ i) (h1 : i < v.length)
    (d : α) : vec_at v i = some ((vec_at v i).getD d) := by
  obtain ⟨x, hx⟩ := LdTagSum.vec_at_of_lt h0 h1
  rw [hx]
  rfl

theorem is_tag_at {m : TagToSnpMapping} (hw : m.WellFormed) {i : Int} (h0 : 0 ≤ i)
    (h1 : i < m.num_snp) : vec_at m.is_tag i = some (m.isTag i) :=
  vec_at_getD h0 (by rw [hw.1]; exact h1) false

theorem causal_at {m : TagToSnpMapping} (hw : m.WellFormed) {i : Int} (h0 : 0 ≤ i)
    (h1 : i < m.num_snp) : vec_at m.snp_can_be_causal i = some (m.canBeCausal i) :=
  vec_at_getD h0 (by rw [hw.2.2.1]; exact h1) false

theorem snp_to_tag_at {m : TagToSnpMapping} (hw : m.WellFormed) {i : Int} (h0 : 0 ≤ i)
    (h1 : i < m.num_snp) : vec_at m.snp_to_tag i = some (m.tagOf i) :=
  vec_at_getD h0 (by rw [hw.2.1]; exact h1) (-1)

theorem tag_to_snp_at {m : TagToSnpMapping} (hw : m.WellFormed) {t : Int} (h0 : 0 ≤ t)
    (h1 : t < m.num_tag) : vec_at m.tag_to_snp t = some (m.snpOf t) :=
  vec_at_getD h0 (by rw [hw.2.2.2.1]; exact h1) (-1)

theorem hvec_at {m : TagToSnpMapping} (hm : m.mafvec.length = m.num_snp) {i : Int}
    (h0 : 0 ≤ i) (h1 : i < m.num_snp) : vec_at (find_hvec m) i = some (m.hval i) :=
  vec_at_getD h0 (by simp only [find_hvec, List.length_map]; rw [hm]; exact h1) Flt.nan

/-- The tag index of a tag variant is in range and leads back to the variant. -/
theorem tagOf_spec {m : TagToSnpMapping} (hw : m.WellFormed) {i : Int} (h0 : 0 ≤ i)
    (h1 : i < m.num_snp) (ht : m.isTag i = true) :
    0 ≤ m.tagOf i ∧ m.tagOf i < m.num_tag ∧ m.snpOf (m.tagOf i) = i := by
  obtain ⟨-, -, -, -, -, -, hinv⟩ := hw
  have hi : i = ((i.toNat : Nat) : Int) := by omega
  have hlt : i.toNat < m.num_snp := by omega
  have htag : m.is_tag[i.toNat]? = some true := by
    have : m.isTag i = (m.is_tag[i.toNat]?).getD false := by
      simp [isTag, vec_at, show ¬ i < 0 by omega]
    rw [this] at ht
    cases hh : m.is_tag[i.toNat]? with
    | none => simp [hh] at ht
    | some b => simp [hh] at ht; rw [ht]
  obtain ⟨t, ht1, ht2, ht3⟩ := hinv i.toNat hlt htag
  have e1 : m.tagOf i = (t : Int) := by
    simp [tagOf, vec_at, show ¬ i < 0 by omega, ht2]
  rw [e1]
  refine ⟨by omega, by omega, ?_⟩
  simp only [snpOf, vec_at_nat', ht3, Option.getD_some]
  omega

/-- The snp of a tag index is in range, is a tag variant and leads back to the index. -/
theorem snpOf_spec {m : TagToSnpMapping} (hw : m.WellFormed) {t : Int} (h0 : 0 ≤ t)
    (h1 : t < m.num_tag) :
    0 ≤ m.snpOf t ∧ m.snpOf t < m.num_snp ∧ m.isTag (m.snpOf t) = true ∧
      m.tagOf (m.snpOf t) = t := by
  obtain ⟨-, -, -, -, -, hinv, -⟩ := hw
  have hlt : t.toNat < m.num_tag := by omega
  obtain ⟨s, hs1, hs2, hs3, hs4⟩ := hinv t.toNat hlt
  have e1 : m.snpOf t = (s : Int) := by
    simp [snpOf, vec_at, show ¬ t < 0 by omega, hs2]
  rw [e1]
  refine ⟨by omega, by omega, ?_, ?_⟩
  · simp [isTag, vec_at_nat', hs3]
  · simp only [tagOf, vec_at_nat', hs4, Option.getD_some]
    omega

end TagToSnpMapping

namespace LdMatrixCsr

theorem ld_component_range (r2 r2_min : Flt) :
    0 ≤ ld_component r2 r2_min ∧ ld_component r2 r2_min < LD_TAG_COMPONENT_COUNT := by
  unfold ld_component
  split <;> simp [LD_TAG_COMPONENT_BELOW_R2MIN, LD_TAG_COMPONENT_ABOVE_R2MIN,
    LD_TAG_COMPONENT_COUNT]

theorem runs_store_if_tag {m : TagToSnpMapping} (hw : m.WellFormed) {s : LdMatrixCsr}
    (h : Good m s) (adjust : Bool) {c x : Int} (hc0 : 0 ≤ c) (hc1 : c < LD_TAG_COMPONENT_COUNT)
    (hx0 : 0 ≤ x) (hx1 : x < m.num_snp) (w : Flt) :
    Runs m (LdMatrixCsr.store_if_tag m adjust c x (some w)) s
      (fun c1 t1 => if adjust = true ∧ m.isTag x = true ∧ c1 = c ∧ t1 = m.tagOf x
        then [w] else [])
      (fun c1 t1 => if adjust = false ∧ m.isTag x = true ∧ c1 = c ∧ t1 = m.tagOf x
        then [w] else []) [] := by
  unfold LdMatrixCsr.store_if_tag
  rw [TagToSnpMapping.is_tag_at hw hx0 hx1]
  cases ht : m.isTag x
  · simp only
    exact runs_congr (runs_skip h) (fun c t => by simp) (fun c t => by simp) rfl
  · simp only [TagToSnpMapping.snp_to_tag_at hw hx0 hx1]
    obtain ⟨t0, t1, -⟩ := TagToSnpMapping.tagOf_spec hw hx0 hx1 ht
    exact runs_congr (runs_store_tag_sum h adjust hc0 hc1 t0 t1 w)
      (fun c t => by simp) (fun c t => by simp) rfl

theorem runs_push_if_causal {m : TagToSnpMapping} (hw : m.WellFormed) {s : LdMatrixCsr}
    (h : Good m s) {x y : Int} (hx0 : 0 ≤ x) (hx1 : x < m.num_snp) (hy0 : 0 ≤ y)
    (hy1 : y < m.num_snp) (r2 : Flt) :
    Runs m (LdMatrixCsr.push_if_causal m x y r2) s (fun _ _ => []) (fun _ _ => [])
      (if m.canBeCausal x && m.isTag y then [(x, m.tagOf y, r2)] else []) := by
  unfold LdMatrixCsr.push_if_causal
  rw [TagToSnpMapping.causal_at hw hx0 hx1]
  cases hc : m.canBeCausal x
  · simp only [Bool.false_and, Bool.false_eq_true, if_false]
    exact runs_skip h
  · simp only [TagToSnpMapping.is_tag_at hw hy0 hy1]
    cases ht : m.isTag y
    · simp only [Bool.and_false, Bool.false_eq_true, if_false]
      exact runs_skip h
    · simp only [TagToSnpMapping.snp_to_tag_at hw hy0 hy1, Bool.and_self, if_true]
      exact runs_coo_push h _

end LdMatrixCsr

/-! ### The ingestion loop and `set_ld_r2_coo` on an accepted batch -/

namespace LdMatrixCsr

theorem runs_coo_loop_body {m : TagToSnpMapping} (hw : m.WellFormed)
    (hm : m.mafvec.length = m.num_snp) {s : LdMatrixCsr} (h : Good m s) (r2_min : Flt)
    {e : Int × Int × Flt} (ha0 : 0 ≤ e.1) (ha1 : e.1 < m.num_snp) (hb0 : 0 ≤ e.2.1)
    (hb1 : e.2.1 < m.num_snp) :
    Runs m (LdMatrixCsr.coo_loop_body m r2_min (find_hvec m) e) s
      (stored_terms m r2_min true e) (stored_terms m r2_min false e)
      (coo_records m r2_min e) := by
  obtain ⟨hc0, hc1⟩ := ld_component_range e.2.2 r2_min
  have hpush : ∀ s1, Good m s1 →
      Runs m (if Flt.lt e.2.2 r2_min = true then (fun s => (s, Outcome.ok))
        else Step.seq (LdMatrixCsr.push_if_causal m e.1 e.2.1 e.2.2)
          (LdMatrixCsr.push_if_causal m e.2.1 e.1 e.2.2)) s1
        (fun _ _ => []) (fun _ _ => []) (coo_records m r2_min e) := by
    intro s1 h1
    unfold coo_records
    cases hlt : Flt.lt e.2.2 r2_min
    · simp only [Bool.false_eq_true, if_false]
      exact runs_congr (runs_seq (runs_push_if_causal hw h1 ha0 ha1 hb0 hb1 e.2.2)
        (fun s2 h2 => runs_push_if_causal hw h2 hb0 hb1 ha0 ha1 e.2.2))
        (fun c t => by simp) (fun c t => by simp) rfl
    · simp only [if_true]
      exact runs_skip h1
  have hchk : ∀ i : Int, 0 ≤ i → i < m.num_snp → ∀ s1, Good m s1 →
      Runs m (CHECK_SNP_INDEX m i) s1 (fun _ _ => []) (fun _ _ => []) [] := by
    intro i h0 h1 s1 hs1
    exact runs_throw_if_false hs1 (by simp; omega) _
  unfold LdMatrixCsr.coo_loop_body
  simp only [TagToSnpMapping.hvec_at hm ha0 ha1, TagToSnpMapping.hvec_at hm hb0 hb1,
    Option.map_some']
  have key := runs_seq (hchk e.1 ha0 ha1 s h) (fun s1 h1 =>
    runs_seq (hchk e.2.1 hb0 hb1 s1 h1) (fun s2 h2 =>
    runs_seq (runs_store_if_tag hw h2 true hc0 hc1 hb0 hb1 (Flt.mul e.2.2 (m.hval e.1)))
      (fun s3 h3 =>
    runs_seq (runs_store_if_tag hw h3 true hc0 hc1 ha0 ha1 (Flt.mul e.2.2 (m.hval e.2.1)))
      (fun s4 h4 =>
    runs_seq (runs_store_if_tag hw h4 false hc0 hc1 hb0 hb1 e.2.2) (fun s5 h5 =>
    runs_seq (runs_store_if_tag hw h5 false hc0 hc1 ha0 ha1 e.2.2) hpush)))))
  refine runs_congr key ?_ ?_ (by simp)
  · intro c t
    simp [stored_terms, ld_component]
  · intro c t
    simp [stored_terms, ld_component]

/-- The main loop of `set_ld_r2_coo` on a batch with all indices in range: it returns
normally, appends the records of every triplet and adds the stored terms. -/
theorem runs_coo_loop {m : TagToSnpMapping} (hw : m.WellFormed)
    (hm : m.mafvec.length = m.num_snp) (r2_min : Flt) (batch : List (Int × Int × Flt))
    (hb : ∀ e ∈ batch, 0 ≤ e.1 ∧ e.1 < m.num_snp ∧ 0 ≤ e.2.1 ∧ e.2.1 < m.num_snp)
    (s : LdMatrixCsr) (h : Good m s) :
    Runs m (Step.forEach (LdMatrixCsr.coo_loop_body m r2_min (find_hvec m)) batch) s
      (fun c t => batch.flatMap (fun e => stored_terms m r2_min true e c t))
      (fun c t => batch.flatMap (fun e => stored_terms m r2_min false e c t))
      (batch.flatMap (coo_records m r2_min)) :=
  runs_forEach batch (fun e he _ h1 =>
    runs_coo_loop_body hw hm h1 r2_min (hb e he).1 (hb e he).2.1 (hb e he).2.2.1
      (hb e he).2.2.2) s h

theorem alloc_tag_sums_good {m : TagToSnpMapping} {s : LdMatrixCsr} (h : Good m s) :
    alloc_tag_sums m s = (s, Outcome.ok) := by
  obtain ⟨-, a, b, ha, -⟩ := h
  simp [alloc_tag_sums, ha]

theorem alloc_tag_sums_idem (m : TagToSnpMapping) (s : LdMatrixCsr) :
    alloc_tag_sums m (alloc_tag_sums m s).1 = ((alloc_tag_sums m s).1, Outcome.ok) := by
  cases ha : s.ld_tag_sum_adjust_for_hvec_ with
  | none => simp [alloc_tag_sums, ha]
  | some a => simp [alloc_tag_sums, ha]

theorem maf_check_ok {m : TagToSnpMapping} (hm : m.mafvec ≠ []) (s : LdMatrixCsr) :
    throw_if m.mafvec.isEmpty "can't call set_ld_r2_coo before set_mafvec" s =
      (s, Outcome.ok) := by
  cases hmv : m.mafvec with
  | nil => exact absurd hmv hm
  | cons a l => rfl

/-- The object on which the accumulators have been created behaves like the object itself,
once the two entry checks of `set_ld_r2_coo` pass. -/
theorem set_ld_r2_coo_alloc {m : TagToSnpMapping} (hm : m.mafvec ≠ [])
    (batch : List (Int × Int × Flt)) (r2_min : Flt) {s : LdMatrixCsr}
    (hc : s.combined_.csr_ld_r2_ = []) :
    set_ld_r2_coo m batch r2_min s = set_ld_r2_coo m batch r2_min (alloc_tag_sums m s).1 := by
  have hc1 : (alloc_tag_sums m s).1.combined_.csr_ld_r2_ = [] := by
    cases ha : s.ld_tag_sum_adjust_for_hvec_ with
    | none => simpa [alloc_tag_sums, ha] using hc
    | some a => simpa [alloc_tag_sums, ha] using hc
  have h2 : alloc_tag_sums m s = ((alloc_tag_sums m s).1, Outcome.ok) := by
    rw [← alloc_tag_sums_snd m s]
  unfold set_ld_r2_coo
  rw [seq_apply_ok (check_not_finalized_ok hc), seq_apply_ok (maf_check_ok hm s),
    seq_apply_ok h2, seq_apply_ok (check_not_finalized_ok hc1),
    seq_apply_ok (maf_check_ok hm _), seq_apply_ok (alloc_tag_sums_idem m s)]

/-- An accepted batch: every index in `[0, num_snp)`, no self-pair, every r² finite. -/
theorem accepted_checks {m : TagToSnpMapping} {batch : List (Int × Int × Flt)}
    (hb : ∀ e ∈ batch, 0 ≤ e.1 ∧ e.1 < m.num_snp ∧ 0 ≤ e.2.1 ∧ e.2.1 < m.num_snp ∧
      e.1 ≠ e.2.1 ∧ e.2.2.isfinite = true) :
    batch.any (fun e => decide (e.1 = e.2.1)) = false ∧
    batch.any (fun e => !e.2.2.isfinite) = false := by
  constructor
  · rw [Bool.eq_false_iff]
    intro h
    simp only [List.any_eq_true, decide_eq_true_eq] at h
    obtain ⟨e, he, heq⟩ := h
    exact (hb e he).2.2.2.2.1 heq
  · rw [Bool.eq_false_iff]
    intro h
    simp only [List.any_eq_true, Bool.not_eq_true'] at h
    obtain ⟨e, he, hf⟩ := h
    rw [(hb e he).2.2.2.2.2] at hf
    exact Bool.noConfusion hf

/-- Ingestion of an accepted batch into an object in its ingestion phase returns normally,
appends the records of every triplet, in input order, and adds the stored terms. -/
theorem runs_set_ld_r2_coo {m : TagToSnpMapping} (hw : m.WellFormed) (hm : m.mafvec ≠ [])
    (r2_min : Flt) (batch : List (Int × Int × Flt))
    (hb : ∀ e ∈ batch, 0 ≤ e.1 ∧ e.1 < m.num_snp ∧ 0 ≤ e.2.1 ∧ e.2.1 < m.num_snp ∧
      e.1 ≠ e.2.1 ∧ e.2.2.isfinite = true)
    (s : LdMatrixCsr) (h : Good m s) :
    Runs m (LdMatrixCsr.set_ld_r2_coo m batch r2_min) s
      (fun c t => batch.flatMap (fun e => stored_terms m r2_min true e c t))
      (fun c t => batch.flatMap (fun e => stored_terms m r2_min false e c t))
      (batch.flatMap (coo_records m r2_min)) := by
  have hlen : m.mafvec.length = m.num_snp := by
    rcases hw.2.2.2.2.1 with h0 | h0
    · exact absurd h0 hm
    · exact h0
  obtain ⟨hc1, hc2⟩ := accepted_checks hb
  have e : LdMatrixCsr.set_ld_r2_coo m batch r2_min s =
      Step.forEach (LdMatrixCsr.coo_loop_body m r2_min (find_hvec m)) batch s := by
    unfold LdMatrixCsr.set_ld_r2_coo
    rw [seq_apply_ok (check_not_finalized_ok h.1), seq_apply_ok (maf_check_ok hm s),
      seq_apply_ok (alloc_tag_sums_good h), hc1, hc2, seq_apply_ok (LdMatrixCsr.throw_if_false _ s),
      seq_apply_ok (LdMatrixCsr.throw_if_false _ s)]
  obtain ⟨s1, hs1, hadds⟩ := runs_coo_loop hw hlen r2_min batch
    (fun e he => ⟨(hb e he).1, (hb e he).2.1, (hb e he).2.2.1, (hb e he).2.2.2.1⟩) s h
  exact ⟨s1, e.trans hs1, hadds⟩

end LdMatrixCsr

/-! ### The emitted records (C6) and the rejection of malformed batches (C9) -/

namespace LdMatrixCsr

theorem good_of_inv {m : TagToSnpMapping} {s : LdMatrixCsr} (h : Inv m s)
    (hc : s.combined_.csr_ld_r2_ = []) (hs : s.ld_tag_sum_.isSome = true) : Good m s := by
  obtain ⟨-, -, h3, -, h5, h6⟩ := h
  rw [← h3] at hs
  obtain ⟨a, ha⟩ := Option.isSome_iff_exists.mp hs
  obtain ⟨b, hb⟩ := Option.isSome_iff_exists.mp (h3 ▸ hs)
  exact ⟨hc, a, b, ha, hb, h5 a ha, h6 b hb⟩

/-- On a reachable object in its ingestion phase, creating the accumulators gives an
object on which every store goes through. -/
theorem good_alloc {m : TagToSnpMapping} {s : LdMatrixCsr} (h : Inv m s)
    (hc : s.combined_.csr_ld_r2_ = []) : Good m (alloc_tag_sums m s).1 := by
  obtain ⟨hi, hsome, hcomb⟩ := inv_alloc h
  exact good_of_inv hi (by rw [hcomb]; exact hc) hsome

theorem alloc_tag_sums_cases (m : TagToSnpMapping) (s : LdMatrixCsr) :
    (alloc_tag_sums m s).1 = s ∨
    (s.ld_tag_sum_adjust_for_hvec_ = none ∧
      (alloc_tag_sums m s).1 = { s with
        ld_tag_sum_adjust_for_hvec_ := some (LdTagSum.create LD_TAG_COMPONENT_COUNT m.num_tag)
        ld_tag_sum_ := some (LdTagSum.create LD_TAG_COMPONENT_COUNT m.num_tag) }) := by
  cases ha : s.ld_tag_sum_adjust_for_hvec_ with
  | none => right; simp [alloc_tag_sums, ha]
  | some a => left; simp [alloc_tag_sums, ha]

end LdMatrixCsr

/-- C6: for every accepted batch (indices in range, no self-pair, all r² finite), ingested
into a reachable object that is not finalized, with the MAF vector set, `set_ld_r2_coo`
returns normally and the COO list after the call is the list before it followed, in input
order, by the records of each triplet as `coo_records` gives them; each triplet gives at
most two records and a triplet below the threshold gives none. -/
theorem C6_coo_emission (m : TagToSnpMapping) (hw : m.WellFormed) (hm : m.mafvec ≠ [])
    (s : LdMatrixCsr) (hr : LdMatrixCsr.Reachable m s)
    (hc : s.combined_.csr_ld_r2_ = []) (r2_min : Flt) (batch : List (Int × Int × Flt))
    (hb : ∀ e ∈ batch, 0 ≤ e.1 ∧ e.1 < m.num_snp ∧ 0 ≤ e.2.1 ∧ e.2.1 < m.num_snp ∧
      e.1 ≠ e.2.1 ∧ e.2.2.isfinite = true) :
    (∃ s1, LdMatrixCsr.set_ld_r2_coo m batch r2_min s = (s1, Outcome.ok) ∧
      s1.combined_.coo_ld_ =
        s.combined_.coo_ld_ ++ batch.flatMap (LdMatrixCsr.coo_records m r2_min)) ∧
    (∀ e ∈ batch, (LdMatrixCsr.coo_records m r2_min e).length ≤ 2 ∧
      (Flt.lt e.2.2 r2_min = true → LdMatrixCsr.coo_records m r2_min e = [])) := by
  constructor
  · have hinv := LdMatrixCsr.reachable_inv hr
    have hgood := LdMatrixCsr.good_alloc hinv hc
    obtain ⟨s1, hs1, -, -, hcomb, -, -⟩ :=
      LdMatrixCsr.runs_set_ld_r2_coo hw hm r2_min batch hb _ hgood
    refine ⟨s1, ?_, ?_⟩
    · rw [LdMatrixCsr.set_ld_r2_coo_alloc hm batch r2_min hc]
      exact hs1
    · rw [hcomb, (LdMatrixCsr.inv_alloc hinv).2.2]
  · intro e _
    unfold LdMatrixCsr.coo_records
    constructor
    · split
      · simp
      · split <;> split <;> simp
    · intro hlt
      simp [hlt]

/-- C9: a call of `set_ld_r2_coo` on a reachable object with a batch that holds, at any
position, a self-pair or a non-finite r² throws; the chunk (COO list and CSR arrays) is
as before, and both accumulators are as before, except that a first call has created
them, with every running sum zero: no triplet of the batch is appended or accumulated. -/
theorem C9_malformed_batch_rejected (m : TagToSnpMapping) (s : LdMatrixCsr)
    (hr : LdMatrixCsr.Reachable m s) (r2_min : Flt) (batch : List (Int × Int × Flt))
    (hbad : ∃ e ∈ batch, e.1 = e.2.1 ∨ e.2.2.isfinite = false) :
    ∃ what s1, LdMatrixCsr.set_ld_r2_coo m batch r2_min s = (s1, Outcome.runtime_error what) ∧
      s1.combined_ = s.combined_ ∧ s1.chunks_ = s.chunks_ ∧
      ((s1.ld_tag_sum_ = s.ld_tag_sum_ ∧
          s1.ld_tag_sum_adjust_for_hvec_ = s.ld_tag_sum_adjust_for_hvec_) ∨
        (s.ld_tag_sum_ = none ∧ s.ld_tag_sum_adjust_for_hvec_ = none ∧
          s1.ld_tag_sum_ = some (LdTagSum.create LD_TAG_COMPONENT_COUNT m.num_tag) ∧
          s1.ld_tag_sum_adjust_for_hvec_ =
            some (LdTagSum.create LD_TAG_COMPONENT_COUNT m.num_tag))) := by
  by_cases hc : s.combined_.csr_ld_r2_ = []
  · by_cases hm : m.mafvec = []
    · obtain ⟨w, hw⟩ := LdMatrixCsr.set_ld_r2_coo_no_mafvec m batch r2_min s hm
      exact ⟨w, s, hw, rfl, rfl, Or.inl ⟨rfl, rfl⟩⟩
    · have h2 : LdMatrixCsr.alloc_tag_sums m s =
          ((LdMatrixCsr.alloc_tag_sums m s).1, Outcome.ok) := by
        rw [← LdMatrixCsr.alloc_tag_sums_snd m s]
      have hstate : (LdMatrixCsr.alloc_tag_sums m s).1.combined_ = s.combined_ ∧
          (LdMatrixCsr.alloc_tag_sums m s).1.chunks_ = s.chunks_ ∧
          (((LdMatrixCsr.alloc_tag_sums m s).1.ld_tag_sum_ = s.ld_tag_sum_ ∧
            (LdMatrixCsr.alloc_tag_sums m s).1.ld_tag_sum_adjust_for_hvec_ =
              s.ld_tag_sum_adjust_for_hvec_) ∨
          (s.ld_tag_sum_ = none ∧ s.ld_tag_sum_adjust_for_hvec_ = none ∧
            (LdMatrixCsr.alloc_tag_sums m s).1.ld_tag_sum_ =
              some (LdTagSum.create LD_TAG_COMPONENT_COUNT m.num_tag) ∧
            (LdMatrixCsr.alloc_tag_sums m s).1.ld_tag_sum_adjust_for_hvec_ =
              some (LdTagSum.create LD_TAG_COMPONENT_COUNT m.num_tag))) := by
        rcases LdMatrixCsr.alloc_tag_sums_cases m s with hsame | ⟨hnone, hnew⟩
        · rw [hsame]
          exact ⟨rfl, rfl, Or.inl ⟨rfl, rfl⟩⟩
        · have h3 := (LdMatrixCsr.reachable_inv hr).2.2.1
          rw [hnone] at h3
          have hsum : s.ld_tag_sum_ = none := by
            cases hh : s.ld_tag_sum_ with
            | none => rfl
            | some b => rw [hh] at h3; exact Bool.noConfusion h3
          rw [hnew]
          exact ⟨rfl, rfl, Or.inr ⟨hsum, hnone, rfl, rfl⟩⟩
      by_cases hself : batch.any (fun e => decide (e.1 = e.2.1)) = true
      · refine ⟨"snp_index[i] == tag_index[i] --- unexpected for ld files created via plink",
          (LdMatrixCsr.alloc_tag_sums m s).1, ?_, hstate⟩
        unfold LdMatrixCsr.set_ld_r2_coo
        rw [LdMatrixCsr.seq_apply_ok (LdMatrixCsr.check_not_finalized_ok hc),
          LdMatrixCsr.seq_apply_ok (LdMatrixCsr.maf_check_ok hm s),
          LdMatrixCsr.seq_apply_ok h2, hself,
          LdMatrixCsr.seq_apply_err (LdMatrixCsr.throw_if_true _ _) (by simp)]
      · have hself0 : batch.any (fun e => decide (e.1 = e.2.1)) = false :=
          Bool.eq_false_iff.mpr hself
        have hfin : batch.any (fun e => !e.2.2.isfinite) = true := by
          obtain ⟨e, he, hor⟩ := hbad
          rcases hor with heq | hnf
          · exfalso
            apply hself
            simp only [List.any_eq_true, decide_eq_true_eq]
            exact ⟨e, he, heq⟩
          · simp only [List.any_eq_true, Bool.not_eq_true']
            exact ⟨e, he, hnf⟩
        refine ⟨"encounter undefined values", (LdMatrixCsr.alloc_tag_sums m s).1, ?_, hstate⟩
        unfold LdMatrixCsr.set_ld_r2_coo
        rw [LdMatrixCsr.seq_apply_ok (LdMatrixCsr.check_not_finalized_ok hc),
          LdMatrixCsr.seq_apply_ok (LdMatrixCsr.maf_check_ok hm s),
          LdMatrixCsr.seq_apply_ok h2, hself0, hfin,
          LdMatrixCsr.seq_apply_ok (LdMatrixCsr.throw_if_false _ _),
          LdMatrixCsr.seq_apply_err (LdMatrixCsr.throw_if_true _ _) (by simp)]
  · exact ⟨_, s, LdMatrixCsr.set_ld_r2_coo_after_csr m batch r2_min s hc, rfl, rfl,
      Or.inl ⟨rfl, rfl⟩⟩

theorem Scenario.mapping_wf : Scenario.mapping.WellFormed := by decide!

theorem Scenario.ingested_reachable :
    LdMatrixCsr.Reachable Scenario.mapping Scenario.ingested :=
  LdMatrixCsr.Reachable.coo _ _ _ LdMatrixCsr.Reachable.empty (by decide!)

/-- C6, witness: the triplet `(0, 2, 0.5)` of the scenario of spec §8, ingested into a
fresh object with `r2_min = 0.1`, gives the records `(0, 1, 0.5)` and `(2, 0, 0.5)`. -/
theorem C6_coo_emission_witness :
    Scenario.mapping.WellFormed ∧ Scenario.mapping.mafvec ≠ [] ∧
    LdMatrixCsr.Reachable Scenario.mapping LdMatrixCsr.empty ∧
    (∃ s1, LdMatrixCsr.set_ld_r2_coo Scenario.mapping [(0, 2, Flt.fin (1 / 2))]
        (Flt.fin (1 / 10)) LdMatrixCsr.empty = (s1, Outcome.ok) ∧
      s1.combined_.coo_ld_ = LdMatrixCsr.empty.combined_.coo_ld_ ++
        [((0 : Int), (2 : Int), Flt.fin (1 / 2))].flatMap
          (LdMatrixCsr.coo_records Scenario.mapping (Flt.fin (1 / 10)))) ∧
    LdMatrixCsr.coo_records Scenario.mapping (Flt.fin (1 / 10)) (0, 2, Flt.fin (1 / 2)) =
      [(0, 1, Flt.fin (1 / 2)), (2, 0, Flt.fin (1 / 2))] :=
  ⟨Scenario.mapping_wf, by decide, LdMatrixCsr.Reachable.empty,
    (C6_coo_emission Scenario.mapping Scenario.mapping_wf (by decide) LdMatrixCsr.empty
      LdMatrixCsr.Reachable.empty rfl (Flt.fin (1 / 10)) [(0, 2, Flt.fin (1 / 2))]
      (by decide!)).1,
    by decide!⟩

/-- C9, witness: on the ingested scenario of spec §8, a batch whose second triplet is a
self-pair is rejected. -/
theorem C9_malformed_batch_rejected_witness :
    LdMatrixCsr.Reachable Scenario.mapping Scenario.ingested ∧
    (∃ e ∈ [((0 : Int), (1 : Int), Flt.fin (1 / 2)), (1, 1, Flt.fin (1 / 2))],
      e.1 = e.2.1 ∨ e.2.2.isfinite = false) ∧
    ∃ what s1, LdMatrixCsr.set_ld_r2_coo Scenario.mapping
        [(0, 1, Flt.fin (1 / 2)), (1, 1, Flt.fin (1 / 2))] (Flt.fin (1 / 10))
        Scenario.ingested = (s1, Outcome.runtime_error what) ∧
      s1.combined_ = Scenario.ingested.combined_ ∧ s1.chunks_ = Scenario.ingested.chunks_ ∧
      ((s1.ld_tag_sum_ = Scenario.ingested.ld_tag_sum_ ∧
          s1.ld_tag_sum_adjust_for_hvec_ = Scenario.ingested.ld_tag_sum_adjust_for_hvec_) ∨
        (Scenario.ingested.ld_tag_sum_ = none ∧
          Scenario.ingested.ld_tag_sum_adjust_for_hvec_ = none ∧
          s1.ld_tag_sum_ =
            some (LdTagSum.create LD_TAG_COMPONENT_COUNT Scenario.mapping.num_tag) ∧
          s1.ld_tag_sum_adjust_for_hvec_ =
            some (LdTagSum.create LD_TAG_COMPONENT_COUNT Scenario.mapping.num_tag))) :=
  ⟨Scenario.ingested_reachable, by decide!,
    C9_malformed_batch_rejected Scenario.mapping Scenario.ingested
      Scenario.ingested_reachable (Flt.fin (1 / 10))
      [(0, 1, Flt.fin (1 / 2)), (1, 1, Flt.fin (1 / 2))] (by decide!)⟩

/-! ### First positions in the COO list -/

namespace LdMatrixCsr

theorem first_pos_ge (j : Int) (dflt : Int) (l : List CooEntry) :
    ∀ (off : Nat) (k : Int), k ≤ off → k ≤ dflt → k ≤ first_pos j off dflt l := by
  induction l with
  | nil => intro off k _ h; exact h
  | cons e rest ih =>
    intro off k h1 h2
    unfold first_pos
    split
    · exact h1
    · exact ih (off + 1) k (by push_cast; omega) h2

theorem first_ge_ge (j : Int) (l : List CooEntry) :
    ∀ off : Nat, (off : Int) ≤ first_ge j off l := by
  induction l with
  | nil => intro off; exact le_refl _
  | cons e rest ih =>
    intro off
    unfold first_ge
    split
    · exact le_refl _
    · have := ih (off + 1)
      push_cast at this
      omega

theorem first_ge_le (j : Int) (l : List CooEntry) :
    ∀ off : Nat, first_ge j off l ≤ (off : Int) + l.length := by
  induction l with
  | nil => intro off; simp [first_ge]
  | cons e rest ih =>
    intro off
    unfold first_ge
    split
    · simp only [List.length_cons]; push_cast; omega
    · have := ih (off + 1)
      simp only [List.length_cons]
      push_cast at this ⊢
      omega

/-- The smaller of the first position of the snp `j` and the first position of an snp
above `j` is the first position of an snp from `j` on. -/
theorem first_pos_min (j : Int) (l : List CooEntry) :
    ∀ off : Nat,
      (if first_pos j off ((off : Int) + l.length) l > first_ge (j + 1) off l
        then first_ge (j + 1) off l else first_pos j off ((off : Int) + l.length) l) =
      first_ge j off l := by
  induction l with
  | nil =>
    intro off
    simp [first_pos, first_ge]
  | cons e rest ih =>
    intro off
    have hd : ((off : Int) + ((e :: rest).length : Int)) =
        (((off + 1 : Nat) : Int) + (rest.length : Int)) := by
      simp only [List.length_cons]; push_cast; omega
    rw [hd]
    by_cases h1 : e.1 = j
    · have hge := first_ge_ge (j + 1) rest (off + 1)
      have e1 : first_pos j off (((off + 1 : Nat) : Int) + (rest.length : Int)) (e :: rest) =
          (off : Int) := by simp [first_pos, h1]
      have e2 : first_ge (j + 1) off (e :: rest) = first_ge (j + 1) (off + 1) rest := by
        simp [first_ge, h1]
      have e3 : first_ge j off (e :: rest) = (off : Int) := by simp [first_ge, h1]
      rw [e1, e2, e3]
      push_cast at hge
      rw [if_neg (by omega)]
    · by_cases h2 : j + 1 ≤ e.1
      · have hge := first_pos_ge j (((off + 1 : Nat) : Int) + (rest.length : Int)) rest
          (off + 1) ((off : Int) + 1) (by push_cast; omega) (by push_cast; omega)
        have e1 : first_pos j off (((off + 1 : Nat) : Int) + (rest.length : Int))
            (e :: rest) =
            first_pos j (off + 1) (((off + 1 : Nat) : Int) + (rest.length : Int)) rest := by
          simp [first_pos, h1]
        have e2 : first_ge (j + 1) off (e :: rest) = (off : Int) := by simp [first_ge, h2]
        have e3 : first_ge j off (e :: rest) = (off : Int) := by
          simp only [first_ge]; rw [if_pos (by omega)]
        rw [e1, e2, e3]
        push_cast at hge
        rw [if_pos (by push_cast; omega)]
      · have e1 : first_pos j off (((off + 1 : Nat) : Int) + (rest.length : Int))
            (e :: rest) =
            first_pos j (off + 1) (((off + 1 : Nat) : Int) + (rest.length : Int)) rest := by
          simp [first_pos, h1]
        have e2 : first_ge (j + 1) off (e :: rest) = first_ge (j + 1) (off + 1) rest := by
          simp only [first_ge]; rw [if_neg h2]
        have e3 : first_ge j off (e :: rest) = first_ge j (off + 1) rest := by
          simp only [first_ge]; rw [if_neg (by omega)]
        rw [e1, e2, e3]
        exact ih (off + 1)

theorem first_pos_none (j : Int) (dflt : Int) (l : List CooEntry)
    (h : ∀ e ∈ l, e.1 ≠ j) : ∀ off : Nat, first_pos j off dflt l = dflt := by
  induction l with
  | nil => intro off; rfl
  | cons e rest ih =>
    intro off
    unfold first_pos
    rw [if_neg (h e (List.mem_cons_self e rest))]
    exact ih (fun x hx => h x (List.mem_cons_of_mem e hx)) (off + 1)

theorem first_pos_lt (j : Int) (dflt : Int) (l : List CooEntry)
    (h : ∃ e ∈ l, e.1 = j) : ∀ off : Nat, first_pos j off dflt l < (off : Int) + l.length := by
  induction l with
  | nil => obtain ⟨e, he, -⟩ := h; simp at he
  | cons e rest ih =>
    intro off
    unfold first_pos
    simp only [List.length_cons]
    split
    · push_cast; omega
    · rename_i hne
      obtain ⟨x, hx, hxj⟩ := h
      rcases List.mem_cons.mp hx with rfl | hx1
      · exact absurd hxj hne
      · have := ih ⟨x, hx1, hxj⟩ (off + 1)
        push_cast at this ⊢
        omega

theorem first_ge_none (j : Int) (l : List CooEntry) (h : ∀ e ∈ l, e.1 < j) :
    ∀ off : Nat, first_ge j off l = (off : Int) + l.length := by
  induction l with
  | nil => intro off; simp [first_ge]
  | cons e rest ih =>
    intro off
    unfold first_ge
    have := h e (List.mem_cons_self e rest)
    rw [if_neg (by omega), ih (fun x hx => h x (List.mem_cons_of_mem e hx)) (off + 1)]
    simp only [List.length_cons]
    push_cast
    omega

/-- The first position of an snp from `j` on is behind the records with a smaller snp
index at the head of the list. -/
theorem first_ge_eq_takeWhile (j : Int) (l : List CooEntry) :
    ∀ off : Nat, first_ge j off l =
      (off : Int) + ((l.takeWhile (fun e => decide (e.1 < j))).length : Int) := by
  induction l with
  | nil => intro off; simp [first_ge]
  | cons e rest ih =>
    intro off
    unfold first_ge
    by_cases h : j ≤ e.1
    · rw [if_pos h, List.takeWhile_cons_of_neg (by simpa using h)]
      simp
    · rw [if_neg h, List.takeWhile_cons_of_pos (by simpa using h), ih (off + 1)]
      simp only [List.length_cons]
      push_cast
      omega

end LdMatrixCsr

/-! ### The two loops that derive the row starts -/

namespace LdMatrixCsr

/-- What the loop of lines 138-141 has done when no write went out of bounds: every snp
index is an index of the vector, and position `j` holds the first position of the snp `j`
in the list, or its old value. -/
theorem fill_row_start_spec (l : List CooEntry) :
    ∀ (off : Nat) (rs rs1 : List Int), fill_row_start off l rs = some rs1 →
      rs1.length = rs.length ∧ (∀ e ∈ l, 0 ≤ e.1 ∧ e.1 < rs.length) ∧
      ∀ j : Nat, j < rs.length → rs1[j]? = some (first_pos j off (rs.getD j 0) l) := by
  induction l with
  | nil =>
    intro off rs rs1 h
    simp only [fill_row_start, Option.some.injEq] at h
    subst h
    refine ⟨rfl, by simp, ?_⟩
    intro j hj
    simp [first_pos, List.getD_eq_getElem?_getD, List.getElem?_eq_getElem hj]
  | cons e rest ih =>
    intro off rs rs1 h
    unfold fill_row_start at h
    cases hr : fill_row_start (off + 1) rest rs with
    | none => simp [hr] at h
    | some r1 =>
      simp only [hr] at h
      obtain ⟨hlen, hmem, hget⟩ := ih (off + 1) rs r1 hr
      split at h
      · simp at h
      · rename_i hcond
        simp only [Option.some.injEq] at h
        subst h
        rw [hlen] at hcond
        refine ⟨by simp [hlen], ?_, ?_⟩
        · intro x hx
          rcases List.mem_cons.mp hx with rfl | hx1
          · omega
          · exact hmem x hx1
        · intro j hj
          rw [List.getElem?_set]
          by_cases hej : e.1 = (j : Int)
          · have : e.1.toNat = j := by omega
            rw [if_pos this, if_pos (by rw [hlen]; omega)]
            simp [first_pos, hej]
          · have : ¬ e.1.toNat = j := by omega
            rw [if_neg this, hget j hj]
            simp [first_pos, hej]

/-- The loop of lines 138-141 stays within the bounds when every snp index is an index of
the vector. -/
theorem fill_row_start_some (l : List CooEntry) :
    ∀ (off : Nat) (rs : List Int), (∀ e ∈ l, 0 ≤ e.1 ∧ e.1 < rs.length) →
      ∃ rs1, fill_row_start off l rs = some rs1 := by
  induction l with
  | nil => intro off rs _; exact ⟨rs, rfl⟩
  | cons e rest ih =>
    intro off rs h
    obtain ⟨r1, hr1⟩ := ih (off + 1) rs (fun x hx => h x (List.mem_cons_of_mem e hx))
    have hlen := (fill_row_start_spec rest (off + 1) rs r1 hr1).1
    have he := h e (List.mem_cons_self e rest)
    unfold fill_row_start
    simp only [hr1]
    rw [if_neg (by rw [hlen]; omega)]
    exact ⟨_, rfl⟩

theorem backfill_row_start_length (rs : List Int) :
    (backfill_row_start rs).length = rs.length := by
  induction rs with
  | nil => rfl
  | cons a rest ih =>
    unfold backfill_row_start
    cases hb : backfill_row_start rest with
    | nil =>
      rw [hb] at ih
      simp only [List.length_cons, List.length_nil] at ih ⊢
      omega
    | cons b r =>
      rw [hb] at ih
      simp only [List.length_cons] at ih ⊢
      omega

/-- The back-fill of lines 143-145 turns the first positions of the single snps into the
first positions of the snps from `j` on. -/
theorem backfill_first_pos (l : List CooEntry) (n : Nat) (hall : ∀ e ∈ l, e.1 < n) :
    ∀ k j : Nat, j + k = n + 1 →
      backfill_row_start
          ((List.range' j k).map (fun i : Nat => first_pos i 0 (l.length : Int) l)) =
        (List.range' j k).map (fun i : Nat => first_ge i 0 l) := by
  intro k
  induction k with
  | zero => intro j _; rfl
  | succ k ih =>
    intro j hj
    rw [List.range'_succ, List.map_cons, List.map_cons]
    unfold backfill_row_start
    rw [ih (j + 1) (by omega)]
    cases k with
    | zero =>
      have hjn : j = n := by omega
      subst hjn
      simp only [List.range'_zero, List.map_nil]
      rw [first_pos_none _ _ l (fun e he => by have := hall e he; omega) 0,
        first_ge_none _ l hall 0]
      simp
    | succ k =>
      rw [List.range'_succ, List.map_cons]
      simp only
      have hmin := first_pos_min (j : Int) l 0
      simp only [Nat.cast_zero, zero_add] at hmin
      have hcast : ((j + 1 : Nat) : Int) = (j : Int) + 1 := by push_cast; rfl
      rw [hcast, hmin]

/-- The row starts the compaction derives from a list whose snp indices are below `n`:
position `j` holds the first position of an snp from `j` on. -/
theorem compact_row_start (l : List CooEntry) (n : Nat) (rs1 : List Int)
    (hfill : fill_row_start 0 l (List.replicate (n + 1) (l.length : Int)) = some rs1)
    (hall : ∀ e ∈ l, e.1 < n) :
    backfill_row_start rs1 = (List.range (n + 1)).map (fun i : Nat => first_ge i 0 l) := by
  obtain ⟨hlen, -, hget⟩ := fill_row_start_spec l 0 _ rs1 hfill
  have hrs1 : rs1 = (List.range' 0 (n + 1)).map
      (fun i : Nat => first_pos i 0 (l.length : Int) l) := by
    apply List.ext_getElem?
    intro i
    by_cases hi : i < n + 1
    · rw [hget i (by simpa using hi)]
      simp [List.getElem?_map, List.getElem?_range' , hi, List.getD_eq_getElem?_getD,
        List.getElem?_replicate]
    · rw [List.getElem?_eq_none (by rw [hlen]; simp; omega),
        List.getElem?_eq_none (by simp; omega)]
  rw [hrs1, backfill_first_pos l n hall (n + 1) 0 (by omega), List.range_eq_range']

end LdMatrixCsr

/-! ### The sorted COO list and its segments -/

namespace LdMatrixCsr

theorem key_le_of_not_lt {a b : CooEntry} (h : tuple_lt b a = false) : key_le a b := by
  unfold tuple_lt at h
  unfold key_le
  simp only [Bool.or_eq_false_iff, Bool.and_eq_false_imp, Bool.not_eq_true',
    decide_eq_false_iff_not, decide_eq_true_eq, not_lt] at h
  obtain ⟨h1, h2⟩ := h
  by_cases h3 : a.1 < b.1
  · exact Or.inl h3
  · have := (h2 (by omega)).1
    exact Or.inr ⟨by omega, this⟩

theorem key_le_of_lt {a b : CooEntry} (h : tuple_lt b a = true) : key_le b a := by
  unfold tuple_lt at h
  unfold key_le
  simp only [Bool.or_eq_true, Bool.and_eq_true, Bool.not_eq_true',
    decide_eq_false_iff_not, decide_eq_true_eq, not_lt] at h
  rcases h with h | ⟨h1, h2⟩
  · exact Or.inl h
  · by_cases h3 : b.1 < a.1
    · exact Or.inl h3
    · refine Or.inr ⟨by omega, ?_⟩
      rcases h2 with h2 | ⟨h2, -⟩
      · omega
      · omega

theorem key_le_trans {a b c : CooEntry} (h1 : key_le a b) (h2 : key_le b c) : key_le a c := by
  unfold key_le at *
  omega

theorem orderedInsert_key_sorted (a : CooEntry) (l : List CooEntry)
    (h : l.Pairwise key_le) :
    (l.orderedInsert (fun a b => tuple_lt b a = false) a).Pairwise key_le := by
  induction l with
  | nil => simp
  | cons b l ih =>
    rw [List.orderedInsert]
    obtain ⟨hb, hl⟩ := List.pairwise_cons.mp h
    split
    · rename_i hab
      refine List.pairwise_cons.mpr ⟨?_, h⟩
      intro x hx
      rcases List.mem_cons.mp hx with rfl | hx1
      · exact key_le_of_not_lt hab
      · exact key_le_trans (key_le_of_not_lt hab) (hb x hx1)
    · rename_i hab
      have hab1 : tuple_lt b a = true := by simpa using hab
      refine List.pairwise_cons.mpr ⟨?_, ih hl⟩
      intro x hx
      rcases (List.mem_orderedInsert _).mp hx with rfl | hx1
      · exact key_le_of_lt hab1
      · exact hb x hx1

/-- The sorted COO list is in the order of the key (snp index, tag index). -/
theorem sort_coo_key_sorted (l : List CooEntry) : (sort_coo l).Pairwise key_le := by
  unfold sort_coo
  induction l with
  | nil => simp
  | cons a l ih =>
    rw [List.insertionSort]
    exact orderedInsert_key_sorted a _ ih

/-- The sorted COO list holds the records of the list, each as often as the list. -/
theorem sort_coo_perm (l : List CooEntry) : (sort_coo l).Perm l :=
  List.perm_insertionSort _ l

theorem mem_sort_coo {l : List CooEntry} {e : CooEntry} : e ∈ sort_coo l ↔ e ∈ l :=
  (sort_coo_perm l).mem_iff

theorem takeWhile_split {α : Type} (p q : α → Bool) (hpq : ∀ x, p x = true → q x = true)
    (l : List α) : l.takeWhile q = l.takeWhile p ++ (l.dropWhile p).takeWhile q := by
  induction l with
  | nil => simp
  | cons x l ih =>
    by_cases hp : p x = true
    · rw [List.takeWhile_cons_of_pos (hpq x hp), List.takeWhile_cons_of_pos hp,
        List.dropWhile_cons_of_pos hp, ih, List.cons_append]
    · rw [List.takeWhile_cons_of_neg hp, List.dropWhile_cons_of_neg hp, List.nil_append]

theorem drop_length_takeWhile {α : Type} (p : α → Bool) (l : List α) :
    l.drop (l.takeWhile p).length = l.dropWhile p := by
  induction l with
  | nil => simp
  | cons x l ih =>
    by_cases hp : p x = true
    · rw [List.takeWhile_cons_of_pos hp, List.dropWhile_cons_of_pos hp]
      simpa using ih
    · rw [List.takeWhile_cons_of_neg hp, List.dropWhile_cons_of_neg hp]
      rfl

theorem take_length_takeWhile {α : Type} (p : α → Bool) (l : List α) :
    l.take (l.takeWhile p).length = l.takeWhile p := by
  induction l with
  | nil => simp
  | cons x l ih =>
    by_cases hp : p x = true
    · rw [List.takeWhile_cons_of_pos hp]
      simpa using ih
    · rw [List.takeWhile_cons_of_neg hp]
      rfl

theorem filter_eq_nil_of_gt (j : Int) (l : List CooEntry) (h : ∀ e ∈ l, j < e.1) :
    l.filter (fun e => decide (e.1 = j)) = [] := by
  rw [List.filter_eq_nil_iff]
  intro e he
  have := h e he
  simp only [decide_eq_true_eq]
  omega

theorem takeWhile_eq_filter_of_sorted (j : Int) (l : List CooEntry)
    (hs : l.Pairwise key_le) (hge : ∀ e ∈ l, j ≤ e.1) :
    l.takeWhile (fun e => decide (e.1 < j + 1)) = l.filter (fun e => decide (e.1 = j)) := by
  induction l with
  | nil => simp
  | cons x l ih =>
    obtain ⟨hx, hl⟩ := List.pairwise_cons.mp hs
    have hxj := hge x (List.mem_cons_self x l)
    by_cases hxe : x.1 = j
    · rw [List.takeWhile_cons_of_pos (by simp; omega), List.filter_cons_of_pos (by simpa using hxe),
        ih hl (fun e he => hge e (List.mem_cons_of_mem x he))]
    · rw [List.takeWhile_cons_of_neg (by simp; omega)]
      symm
      apply filter_eq_nil_of_gt
      intro e he
      rcases List.mem_cons.mp he with rfl | he1
      · omega
      · have := hx e he1
        unfold key_le at this
        omega

/-- In a list in key order, the records of the snp `j` are the records that follow the
records of the smaller snps, up to the first record of a larger snp. -/
theorem segment_eq_filter (j : Int) (l : List CooEntry) (hs : l.Pairwise key_le) :
    (l.dropWhile (fun e => decide (e.1 < j))).takeWhile (fun e => decide (e.1 < j + 1)) =
      l.filter (fun e => decide (e.1 = j)) := by
  induction l with
  | nil => simp
  | cons x l ih =>
    obtain ⟨hx, hl⟩ := List.pairwise_cons.mp hs
    by_cases hxj : x.1 < j
    · rw [List.dropWhile_cons_of_pos (by simpa using hxj),
        List.filter_cons_of_neg (by simp; omega)]
      exact ih hl
    · rw [List.dropWhile_cons_of_neg (by simpa using hxj)]
      apply takeWhile_eq_filter_of_sorted j (x :: l) hs
      intro e he
      rcases List.mem_cons.mp he with rfl | he1
      · omega
      · have := hx e he1
        unfold key_le at this
        omega

end LdMatrixCsr

/-! ### The diagonal injection -/

namespace LdMatrixCsr

theorem above_range :
    0 ≤ LD_TAG_COMPONENT_ABOVE_R2MIN ∧
      LD_TAG_COMPONENT_ABOVE_R2MIN < (LD_TAG_COMPONENT_COUNT : Int) := by
  simp [LD_TAG_COMPONENT_ABOVE_R2MIN, LD_TAG_COMPONENT_COUNT]

theorem snpOf_eq_getD (m : TagToSnpMapping) (i : Nat) (hi : i < m.tag_to_snp.length) :
    m.snpOf i = m.tag_to_snp.getD i 0 := by
  simp [TagToSnpMapping.snpOf, vec_at_nat', List.getD_eq_getElem?_getD,
    List.getElem?_eq_getElem hi]

theorem runs_diag_loop_body {m : TagToSnpMapping} (hw : m.WellFormed)
    (hm : m.mafvec.length = m.num_snp) {s : LdMatrixCsr} (h : Good m s) (i : Nat)
    (hi : i < m.num_tag) :
    Runs m (LdMatrixCsr.diag_loop_body m (find_hvec m) i) s
      (fun c t => if c = LD_TAG_COMPONENT_ABOVE_R2MIN ∧ t = (i : Int)
        then [Flt.mul (Flt.fin 1) (m.hval (m.snpOf i))] else [])
      (fun c t => if c = LD_TAG_COMPONENT_ABOVE_R2MIN ∧ t = (i : Int)
        then [Flt.fin 1] else [])
      [(m.snpOf i, (i : Int), Flt.fin 1)] := by
  have hi0 : (0 : Int) ≤ (i : Int) := by omega
  have hi1 : (i : Int) < m.num_tag := by omega
  obtain ⟨hs0, hs1, -, -⟩ := TagToSnpMapping.snpOf_spec hw hi0 hi1
  obtain ⟨ha0, ha1⟩ := above_range
  have key := runs_seq (runs_coo_push h (m.snpOf i, (i : Int), Flt.fin 1)) (fun s1 h1 =>
    runs_seq (runs_store_tag_sum h1 true ha0 ha1 hi0 hi1
        (Flt.mul (Flt.fin 1) (m.hval (m.snpOf i))))
      (fun s2 h2 => runs_store_tag_sum h2 false ha0 ha1 hi0 hi1 (Flt.fin 1)))
  have hdef : LdMatrixCsr.diag_loop_body m (find_hvec m) i s =
      Step.seq (LdMatrixCsr.coo_push (m.snpOf i, (i : Int), Flt.fin 1))
        (Step.seq (LdMatrixCsr.store_tag_sum true LD_TAG_COMPONENT_ABOVE_R2MIN i
            (Flt.mul (Flt.fin 1) (m.hval (m.snpOf i))))
          (LdMatrixCsr.store_tag_sum false LD_TAG_COMPONENT_ABOVE_R2MIN i (Flt.fin 1))) s := by
    unfold LdMatrixCsr.diag_loop_body
    simp only [TagToSnpMapping.tag_to_snp_at hw hi0 hi1, TagToSnpMapping.hvec_at hm hs0 hs1]
  obtain ⟨s1, hs, hadds⟩ := key
  exact ⟨s1, hdef.trans hs, adds_congr hadds (fun c t => by simp) (fun c t => by simp) (by simp)⟩

theorem flatMap_range_single (n : Nat) (f : Nat → Flt) (c t : Int) (c0 : Int) :
    (List.range n).flatMap (fun i => if c = c0 ∧ t = (i : Int) then [f i] else []) =
      if c = c0 ∧ 0 ≤ t ∧ t < n then [f t.toNat] else [] := by
  induction n with
  | zero =>
    simp only [List.range_zero, List.flatMap_nil, Nat.cast_zero]
    rw [if_neg (by omega)]
  | succ n ih =>
    rw [List.range_succ, List.flatMap_append, ih]
    simp only [List.flatMap_cons, List.flatMap_nil, List.append_nil]
    by_cases h1 : c = c0 ∧ 0 ≤ t ∧ t < (n : Int)
    · have h2 : ¬ (c = c0 ∧ t = (n : Int)) := by
        intro h
        omega
      have h3 : c = c0 ∧ 0 ≤ t ∧ t < ((n + 1 : Nat) : Int) :=
        ⟨h1.1, h1.2.1, by push_cast; omega⟩
      rw [if_pos h1, if_neg h2, if_pos h3]
      simp
    · by_cases h2 : c = c0 ∧ t = (n : Int)
      · have h3 : c = c0 ∧ 0 ≤ t ∧ t < ((n + 1 : Nat) : Int) :=
          ⟨h2.1, by omega, by push_cast; omega⟩
        have h4 : t.toNat = n := by omega
        rw [if_neg h1, if_pos h2, if_pos h3, h4]
        simp
      · have h3 : ¬ (c = c0 ∧ 0 ≤ t ∧ t < ((n + 1 : Nat) : Int)) := by
          intro h
          apply h1
          refine ⟨h.1, h.2.1, ?_⟩
          have h5 : t ≠ (n : Int) := fun h6 => h2 ⟨h.1, h6⟩
          have h7 := h.2.2
          push_cast at h7
          omega
        rw [if_neg h1, if_neg h2, if_neg h3]
        simp

theorem flatMap_single_eq_map {α β : Type} (l : List α) (f g : α → β)
    (h : ∀ x ∈ l, f x = g x) : l.flatMap (fun x => [f x]) = l.map g := by
  induction l with
  | nil => rfl
  | cons x l ih =>
    rw [List.flatMap_cons, List.map_cons, ih (fun y hy => h y (List.mem_cons_of_mem x hy)),
      h x (List.mem_cons_self x l)]
    rfl

/-- The diagonal injection on an object in its ingestion phase returns normally, appends
`diag_entries` and adds one term to the above-threshold slot of every tag index. -/
theorem runs_inject_diagonal {m : TagToSnpMapping} (hw : m.WellFormed)
    (hm : m.mafvec.length = m.num_snp) (s : LdMatrixCsr) (h : Good m s) :
    Runs m (LdMatrixCsr.inject_diagonal m) s
      (fun c t => if c = LD_TAG_COMPONENT_ABOVE_R2MIN ∧ 0 ≤ t ∧ t < m.num_tag
        then [diag_term m true t] else [])
      (fun c t => if c = LD_TAG_COMPONENT_ABOVE_R2MIN ∧ 0 ≤ t ∧ t < m.num_tag
        then [diag_term m false t] else [])
      (diag_entries m) := by
  have hlen : m.tag_to_snp.length = m.num_tag := hw.2.2.2.1
  have key := runs_forEach (List.range m.tag_to_snp.length)
    (fun i hi s1 h1 => runs_diag_loop_body hw hm h1 i
      (by rw [← hlen]; exact List.mem_range.mp hi)) s h
  refine runs_congr key ?_ ?_ ?_
  · intro c t
    rw [flatMap_range_single, hlen]
    by_cases hc : c = LD_TAG_COMPONENT_ABOVE_R2MIN ∧ 0 ≤ t ∧ t < (m.num_tag : Int)
    · rw [if_pos hc, if_pos hc]
      have : ((t.toNat : Nat) : Int) = t := by omega
      simp [diag_term, this]
    · rw [if_neg hc, if_neg hc]
  · intro c t
    rw [flatMap_range_single _ (fun _ => Flt.fin 1), hlen]
    simp [diag_term]
  · unfold diag_entries
    apply flatMap_single_eq_map
    intro i hi
    rw [snpOf_eq_getD m i (List.mem_range.mp hi)]

end LdMatrixCsr

/-! ### The rows of a compacted list -/

namespace LdMatrixCsr

theorem takeWhile_eq_filter_lt (j : Int) (l : List CooEntry) (hs : l.Pairwise key_le) :
    l.takeWhile (fun e => decide (e.1 < j)) = l.filter (fun e => decide (e.1 < j)) := by
  induction l with
  | nil => simp
  | cons x l ih =>
    obtain ⟨hx, hl⟩ := List.pairwise_cons.mp hs
    by_cases hxj : x.1 < j
    · rw [List.takeWhile_cons_of_pos (by simpa using hxj),
        List.filter_cons_of_pos (by simpa using hxj), ih hl]
    · rw [List.takeWhile_cons_of_neg (by simpa using hxj)]
      symm
      rw [List.filter_eq_nil_iff]
      intro e he
      simp only [decide_eq_true_eq, not_lt]
      rcases List.mem_cons.mp he with rfl | he1
      · omega
      · have := hx e he1
        unfold key_le at this
        omega

theorem vec_resize_nil {α : Type} (n : Nat) (x : α) :
    vec_resize ([] : List α) n x = List.replicate n x := by
  simp [vec_resize]

theorem compact_some {m : TagToSnpMapping} {s : LdMatrixCsr} {rs1 : List Int}
    (h : fill_row_start 0 s.combined_.coo_ld_
      (vec_resize s.combined_.csr_ld_snp_index_ (m.snp_to_tag.length + 1)
        (s.combined_.coo_ld_.length : Int)) = some rs1) :
    compact m s = ({ s with combined_ :=
        { csr_ld_snp_index_ := backfill_row_start rs1
          csr_ld_tag_index_ := s.combined_.csr_ld_tag_index_ ++
            s.combined_.coo_ld_.map (fun e => e.2.1)
          csr_ld_r2_ := s.combined_.csr_ld_r2_ ++ s.combined_.coo_ld_.map (fun e => e.2.2)
          coo_ld_ := s.combined_.coo_ld_ } }, Outcome.ok) := by
  simp only [compact, h]

/-- The row `j` of a chunk whose arrays come from the compaction of the list `l`: the
records that follow the records of the smaller snps, up to the first record of a larger
snp. -/
theorem row_of_compact (l : List CooEntry) (n : Nat) (c : LdMatrixCsrChunk)
    (h1 : c.csr_ld_snp_index_ = (List.range (n + 1)).map (fun i : Nat => first_ge i 0 l))
    (h2 : c.csr_ld_tag_index_ = l.map (fun e => e.2.1))
    (h3 : c.csr_ld_r2_ = l.map (fun e => e.2.2)) (j : Nat) (hj : j < n) :
    c.row j =
      ((l.dropWhile (fun e => decide (e.1 < (j : Int)))).takeWhile
        (fun e => decide (e.1 < (j : Int) + 1))).map (fun e => (e.2.1, e.2.2)) := by
  have hg : ∀ i : Nat, i < n + 1 → c.csr_ld_snp_index_.getD i 0 =
      ((l.takeWhile (fun e => decide (e.1 < (i : Int)))).length : Int) := by
    intro i hi
    rw [h1, List.getD_eq_getElem?_getD, List.getElem?_map, List.getElem?_range hi]
    simp [first_ge_eq_takeWhile]
  unfold LdMatrixCsrChunk.row
  simp only
  rw [hg j (by omega), hg (j + 1) (by omega), h2, h3, List.zip_map']
  simp only [Int.toNat_ofNat]
  rw [← List.map_drop, ← List.map_take, drop_length_takeWhile]
  congr 1
  have hcast : ((j + 1 : Nat) : Int) = (j : Int) + 1 := by push_cast; rfl
  rw [hcast, takeWhile_split (fun e : CooEntry => decide (e.1 < (j : Int)))
    (fun e => decide (e.1 < (j : Int) + 1)) (by intro x hx; simp at hx ⊢; omega) l,
    List.length_append, Nat.add_sub_cancel_left, take_length_takeWhile]

theorem mem_diag_entries {m : TagToSnpMapping} (hw : m.WellFormed) {e : CooEntry}
    (he : e ∈ diag_entries m) :
    ∃ t : Nat, t < m.num_tag ∧ e = (m.snpOf t, (t : Int), Flt.fin 1) ∧
      0 ≤ e.1 ∧ e.1 < m.num_snp := by
  unfold diag_entries at he
  obtain ⟨t, ht, rfl⟩ := List.mem_map.mp he
  have ht1 := List.mem_range.mp ht
  have hlen : m.tag_to_snp.length = m.num_tag := hw.2.2.2.1
  obtain ⟨h0, h1, -, -⟩ := TagToSnpMapping.snpOf_spec hw (t := (t : Int)) (by omega)
    (by omega)
  rw [← snpOf_eq_getD m t ht1]
  exact ⟨t, by omega, rfl, h0, h1⟩

theorem diag_entries_length (m : TagToSnpMapping) :
    (diag_entries m).length = m.tag_to_snp.length := by
  simp [diag_entries]

end LdMatrixCsr

/-! ### The binary search of the lookup -/

namespace LdMatrixCsr

/-- The binary search of `std::lower_bound` on a row in ascending order: with enough fuel
it stops at the position `p` such that every element before `p` is below `val` and no
element from `p` on is. -/
theorem lower_bound_loop_spec (row : List Int) (val : Int)
    (hs : row.Pairwise (fun a b => a ≤ b)) :
    ∀ (fuel first len : Nat), len ≤ fuel → first + len ≤ row.length →
      (∀ i x, i < first → row[i]? = some x → x < val) →
      (∀ i x, first + len ≤ i → row[i]? = some x → val ≤ x) →
      first ≤ lower_bound_loop row val fuel first len ∧
      lower_bound_loop row val fuel first len ≤ first + len ∧
      (∀ i x, i < lower_bound_loop row val fuel first len → row[i]? = some x → x < val) ∧
      (∀ i x, lower_bound_loop row val fuel first len ≤ i → row[i]? = some x → val ≤ x) := by
  intro fuel
  induction fuel with
  | zero =>
    intro first len hlen _ hlo hhi
    have : len = 0 := by omega
    subst this
    exact ⟨le_refl _, by simp [lower_bound_loop], by simpa [lower_bound_loop] using hlo,
      by simpa [lower_bound_loop] using hhi⟩
  | succ fuel ih =>
    intro first len hlen hbound hlo hhi
    unfold lower_bound_loop
    by_cases hz : len = 0
    · subst hz
      simp only [if_true]
      exact ⟨le_refl _, by omega, hlo, by simpa using hhi⟩
    · rw [if_neg hz]
      simp only
      have hmid : first + len / 2 < row.length := by omega
      rw [List.getElem?_eq_getElem hmid]
      simp only
      have hpair := List.pairwise_iff_getElem.mp hs
      by_cases hx : row[first + len / 2] < val
      · rw [if_pos hx]
        have := ih (first + len / 2 + 1) (len - len / 2 - 1) (by omega) (by omega)
          (by
            intro i x hi hix
            obtain ⟨hil, hie⟩ := List.getElem?_eq_some_iff.mp hix
            subst hie
            by_cases hi2 : i = first + len / 2
            · subst hi2; exact hx
            · have := hpair i (first + len / 2) hil hmid (by omega)
              omega)
          (by
            intro i x hi hix
            exact hhi i x (by omega) hix)
        refine ⟨by omega, by omega, this.2.2.1, this.2.2.2⟩
      · rw [if_neg hx]
        have := ih first (len / 2) (by omega) (by omega) hlo
          (by
            intro i x hi hix
            obtain ⟨hil, hie⟩ := List.getElem?_eq_some_iff.mp hix
            subst hie
            by_cases hi2 : i = first + len / 2
            · subst hi2; omega
            · have := hpair (first + len / 2) i hmid hil (by omega)
              omega)
        refine ⟨this.1, by omega, this.2.2.1, this.2.2.2⟩

/-- On a row in strictly ascending order that holds `val` at position `k`, the binary
search of `std::lower_bound` stops at `k`. -/
theorem lower_bound_of_mem (row : List Int) (val : Int)
    (hs : row.Pairwise (fun a b => a < b)) (k : Nat) (hk : row[k]? = some val) :
    lower_bound row val = k := by
  have hle : row.Pairwise (fun a b => a ≤ b) := hs.imp (fun h => le_of_lt h)
  obtain ⟨-, -, hlo, hhi⟩ := lower_bound_loop_spec row val hle row.length 0 row.length
    (le_refl _) (by omega) (by intro i x hi; omega)
    (by
      intro i x hi hix
      have := (List.getElem?_eq_some_iff.mp hix).1
      omega)
  have hkl := (List.getElem?_eq_some_iff.mp hk).1
  unfold lower_bound
  by_contra hne
  rcases Nat.lt_or_gt_of_ne hne with hlt | hgt
  · -- the search stopped before `k`: the element there is at least `val`, yet below it
    have hp : lower_bound_loop row val row.length 0 row.length < row.length := by omega
    have h1 := hhi _ _ (le_refl _) (List.getElem?_eq_getElem hp)
    have h2 := List.pairwise_iff_getElem.mp hs _ k hp hkl hlt
    have h3 : row[k] = val := by
      have := List.getElem?_eq_getElem hkl
      rw [this] at hk
      exact Option.some.inj hk
    omega
  · have := hlo k val hgt hk
    omega

end LdMatrixCsr

/-! ### The lookup in terms of the row -/

namespace LdMatrixCsr

theorem row_map_fst (c : LdMatrixCsrChunk) (i : Nat)
    (hlen : c.csr_ld_tag_index_.length = c.csr_ld_r2_.length) :
    (c.row i).map Prod.fst =
      (c.csr_ld_tag_index_.drop (c.csr_ld_snp_index_.getD i 0).toNat).take
        ((c.csr_ld_snp_index_.getD (i + 1) 0).toNat -
          (c.csr_ld_snp_index_.getD i 0).toNat) := by
  unfold LdMatrixCsrChunk.row
  simp only
  rw [List.map_take, List.map_drop, List.map_fst_zip _ _ (by omega)]

theorem row_map_snd (c : LdMatrixCsrChunk) (i : Nat)
    (hlen : c.csr_ld_tag_index_.length = c.csr_ld_r2_.length) :
    (c.row i).map Prod.snd =
      (c.csr_ld_r2_.drop (c.csr_ld_snp_index_.getD i 0).toNat).take
        ((c.csr_ld_snp_index_.getD (i + 1) 0).toNat -
          (c.csr_ld_snp_index_.getD i 0).toNat) := by
  unfold LdMatrixCsrChunk.row
  simp only
  rw [List.map_take, List.map_drop, List.map_snd_zip _ _ (by omega)]

/-- The lookup in terms of the row: the value at the position where the binary search
for `tag_index` stops, NaN when it stops behind the row. -/
theorem find_and_retrieve_row (c : LdMatrixCsrChunk) (j : Nat) (t : Int) (a b : Nat)
    (ha : c.csr_ld_snp_index_[j]? = some (a : Int))
    (hb : c.csr_ld_snp_index_[j + 1]? = some (b : Int)) (hab : a ≤ b)
    (hbl : b ≤ c.csr_ld_tag_index_.length)
    (hlen : c.csr_ld_tag_index_.length = c.csr_ld_r2_.length) :
    c.find_and_retrieve_ld_r2 j t =
      some ((((c.row j).map Prod.snd)[lower_bound ((c.row j).map Prod.fst) t]?).getD
        Flt.nan) := by
  have hga : c.csr_ld_snp_index_.getD j 0 = (a : Int) := by
    simp [List.getD_eq_getElem?_getD, ha]
  have hgb : c.csr_ld_snp_index_.getD (j + 1) 0 = (b : Int) := by
    simp [List.getD_eq_getElem?_getD, hb]
  rw [row_map_fst c j hlen, row_map_snd c j hlen, hga, hgb]
  unfold LdMatrixCsrChunk.find_and_retrieve_ld_r2
  have hcast : ((j : Int) + 1) = ((j + 1 : Nat) : Int) := by push_cast; rfl
  rw [hcast, vec_at_nat', vec_at_nat', ha, hb]
  simp only [Int.toNat_ofNat]
  rw [if_pos ⟨by omega, by omega, by omega⟩]
  have hrl : ((c.csr_ld_tag_index_.drop a).take (b - a)).length = b - a := by
    simp only [List.length_take, List.length_drop]
    omega
  by_cases hp : lower_bound ((c.csr_ld_tag_index_.drop a).take (b - a)) t < b - a
  · rw [if_pos (by rw [hrl]; exact hp)]
    have hcast2 : ((a : Int) + ((lower_bound ((c.csr_ld_tag_index_.drop a).take (b - a)) t :
        Nat) : Int)) =
        ((a + lower_bound ((c.csr_ld_tag_index_.drop a).take (b - a)) t : Nat) : Int) := by
      push_cast; rfl
    rw [hcast2, vec_at_nat', List.getElem?_take_of_lt hp, List.getElem?_drop]
    have hin : a + lower_bound ((c.csr_ld_tag_index_.drop a).take (b - a)) t <
        c.csr_ld_r2_.length := by omega
    rw [List.getElem?_eq_getElem hin]
    rfl
  · rw [if_neg (by rw [hrl]; exact hp)]
    rw [List.getElem?_eq_none (by
      simp only [List.length_take, List.length_drop]
      omega)]
    rfl

theorem backfill_row_start_getLast (rs : List Int) :
    (backfill_row_start rs).getLast? = rs.getLast? := by
  induction rs with
  | nil => rfl
  | cons a rest ih =>
    unfold backfill_row_start
    cases hb : backfill_row_start rest with
    | nil =>
      have hl := backfill_row_start_length rest
      rw [hb] at hl
      have : rest = [] := List.length_eq_zero.mp hl.symm
      subst this
      rfl
    | cons b r =>
      rw [hb] at ih
      simp only [List.getLast?_cons_cons]
      rw [ih]
      cases rest with
      | nil => simp [backfill_row_start] at hb
      | cons x xs => simp

end LdMatrixCsr

/-! ### The sorted COO list does not depend on the sorting algorithm -/

namespace Flt

theorem not_lt_trans {x y z : Flt} (hx : x ≠ nan) (hy : y ≠ nan) (hz : z ≠ nan)
    (h1 : lt y x = false) (h2 : lt z y = false) : lt z x = false := by
  cases x <;> cases y <;> cases z <;> simp_all [lt]
  exact le_trans h1 h2

theorem eq_of_not_lt {x y : Flt} (hx : x ≠ nan) (hy : y ≠ nan) (h1 : lt x y = false)
    (h2 : lt y x = false) : x = y := by
  cases x <;> cases y <;> simp_all [lt]
  exact le_antisymm h2 h1

end Flt

namespace LdMatrixCsr

theorem tuple_not_lt_iff (a b : CooEntry) :
    tuple_lt b a = false ↔
      a.1 < b.1 ∨ (a.1 = b.1 ∧ (a.2.1 < b.2.1 ∨ (a.2.1 = b.2.1 ∧ Flt.lt b.2.2 a.2.2 = false))) := by
  unfold tuple_lt
  simp only [Bool.or_eq_false_iff, Bool.and_eq_false_imp, Bool.not_eq_true',
    decide_eq_false_iff_not, decide_eq_true_eq, not_lt]
  constructor
  · rintro ⟨h1, h2⟩
    by_cases h3 : a.1 < b.1
    · exact Or.inl h3
    · obtain ⟨h4, h5⟩ := h2 (by omega)
      refine Or.inr ⟨by omega, ?_⟩
      by_cases h6 : a.2.1 < b.2.1
      · exact Or.inl h6
      · exact Or.inr ⟨by omega, h5 (by omega)⟩
  · rintro (h | ⟨h1, h2⟩)
    · exact ⟨by omega, fun h3 => by omega⟩
    · refine ⟨by omega, fun _ => ?_⟩
      rcases h2 with h2 | ⟨h2, h3⟩
      · exact ⟨by omega, fun h4 => by omega⟩
      · exact ⟨by omega, fun _ => h3⟩

theorem tuple_le_trans {a b c : CooEntry} (ha : a.2.2 ≠ Flt.nan) (hb : b.2.2 ≠ Flt.nan)
    (hc : c.2.2 ≠ Flt.nan) (h1 : tuple_lt b a = false) (h2 : tuple_lt c b = false) :
    tuple_lt c a = false := by
  rw [tuple_not_lt_iff] at h1 h2 ⊢
  rcases h1 with h1 | ⟨h1, h1'⟩
  · rcases h2 with h2 | ⟨h2, -⟩
    · exact Or.inl (by omega)
    · exact Or.inl (by omega)
  · rcases h2 with h2 | ⟨h2, h2'⟩
    · exact Or.inl (by omega)
    · refine Or.inr ⟨by omega, ?_⟩
      rcases h1' with h3 | ⟨h3, h4⟩
      · rcases h2' with h5 | ⟨h5, -⟩
        · exact Or.inl (by omega)
        · exact Or.inl (by omega)
      · rcases h2' with h5 | ⟨h5, h6⟩
        · exact Or.inl (by omega)
        · exact Or.inr ⟨by omega, Flt.not_lt_trans ha hb hc h4 h6⟩

theorem tuple_le_antisymm {a b : CooEntry} (ha : a.2.2 ≠ Flt.nan) (hb : b.2.2 ≠ Flt.nan)
    (h1 : tuple_lt b a = false) (h2 : tuple_lt a b = false) : a = b := by
  rw [tuple_not_lt_iff] at h1 h2
  rcases h1 with h1 | ⟨h1, h1'⟩
  · rcases h2 with h2 | ⟨h2, -⟩ <;> omega
  · rcases h2 with h2 | ⟨-, h2'⟩
    · omega
    · rcases h1' with h3 | ⟨h3, h4⟩
      · rcases h2' with h5 | ⟨h5, -⟩ <;> omega
      · rcases h2' with h5 | ⟨-, h6⟩
        · omega
        · have := Flt.eq_of_not_lt ha hb h6 h4
          exact Prod.ext h1 (Prod.ext h3 this)

theorem orderedInsert_sorted (a : CooEntry) (l : List CooEntry) (ha : a.2.2 ≠ Flt.nan)
    (hl : ∀ e ∈ l, e.2.2 ≠ Flt.nan)
    (h : l.Pairwise (fun x y => tuple_lt y x = false)) :
    (l.orderedInsert (fun x y => tuple_lt y x = false) a).Pairwise
      (fun x y => tuple_lt y x = false) := by
  induction l with
  | nil => simp
  | cons b l ih =>
    rw [List.orderedInsert]
    obtain ⟨hb, hrest⟩ := List.pairwise_cons.mp h
    have hbn := hl b (List.mem_cons_self b l)
    split
    · rename_i hab
      refine List.pairwise_cons.mpr ⟨?_, h⟩
      intro x hx
      rcases List.mem_cons.mp hx with rfl | hx1
      · exact hab
      · exact tuple_le_trans ha hbn (hl x (List.mem_cons_of_mem b hx1)) hab (hb x hx1)
    · rename_i hab
      have hab1 : tuple_lt b a = true := by simpa using hab
      refine List.pairwise_cons.mpr ⟨?_,
        ih (fun e he => hl e (List.mem_cons_of_mem b he)) hrest⟩
      intro x hx
      rcases (List.mem_orderedInsert _).mp hx with rfl | hx1
      · -- `b < a`, so `a` is not below `b`
        rw [tuple_not_lt_iff]
        unfold tuple_lt at hab1
        simp only [Bool.or_eq_true, Bool.and_eq_true, Bool.not_eq_true',
          decide_eq_false_iff_not, decide_eq_true_eq, not_lt] at hab1
        rcases hab1 with h1 | ⟨h1, h2⟩
        · exact Or.inl h1
        · by_cases h3 : b.1 < x.1
          · exact Or.inl h3
          · refine Or.inr ⟨by omega, ?_⟩
            rcases h2 with h2 | ⟨h2, h4⟩
            · exact Or.inl h2
            · by_cases h5 : b.2.1 < x.2.1
              · exact Or.inl h5
              · refine Or.inr ⟨by omega, ?_⟩
                cases hx2 : x.2.2 <;> cases hb2 : b.2.2 <;> simp_all [Flt.lt]
                exact le_of_lt h4
      · exact hb x hx1

/-- Without a NaN in the list, the sorted COO list is in ascending order of `tuple_lt`. -/
theorem sort_coo_sorted (l : List CooEntry) (hl : ∀ e ∈ l, e.2.2 ≠ Flt.nan) :
    (sort_coo l).Pairwise (fun x y => tuple_lt y x = false) := by
  unfold sort_coo
  induction l with
  | nil => simp
  | cons a l ih =>
    rw [List.insertionSort]
    have hl1 : ∀ e ∈ l, e.2.2 ≠ Flt.nan := fun e he => hl e (List.mem_cons_of_mem a he)
    apply orderedInsert_sorted a _ (hl a (List.mem_cons_self a l))
    · intro e he
      exact hl1 e ((List.perm_insertionSort _ l).mem_iff.mp he)
    · exact ih hl1

/-- Without a NaN in the list, every arrangement of the list in ascending order of
`tuple_lt` is `sort_coo` of the list: whatever algorithm `std::sort` runs, its result is
this list. -/
theorem sort_coo_unique (l l1 : List CooEntry) (hl : ∀ e ∈ l, e.2.2 ≠ Flt.nan)
    (hp : l1.Perm l) (hs : l1.Pairwise (fun x y => tuple_lt y x = false)) :
    l1 = sort_coo l := by
  apply List.Perm.eq_of_sorted _ hs (sort_coo_sorted l hl) (hp.trans (sort_coo_perm l).symm)
  intro a b ha hb h1 h2
  exact tuple_le_antisymm (hl a (hp.mem_iff.mp ha)) (hl b (mem_sort_coo.mp hb)) h1 h2

end LdMatrixCsr

/-! ### Compaction preserves content (C8) -/

namespace LdMatrixCsr

/-- What `build_csr` makes of an object in its ingestion phase with empty CSR arrays, a
non-empty COO list and every snp index in `[0, num_snp)`: it returns normally with the
COO list sorted and compacted into the three arrays. -/
theorem build_csr_spec {m : TagToSnpMapping} (hw : m.WellFormed) (hm : m.mafvec ≠ [])
    {s : LdMatrixCsr} (hg : Good m s)
    (hcsr : s.combined_.csr_ld_tag_index_ = [] ∧ s.combined_.csr_ld_snp_index_ = [])
    (hne : s.combined_.coo_ld_ ≠ [])
    (hr : ∀ e ∈ s.combined_.coo_ld_, 0 ≤ e.1 ∧ e.1 < m.num_snp) :
    ∃ s1, build_csr m s = (s1, Outcome.ok) ∧
      s1.combined_ =
        { csr_ld_snp_index_ := (List.range (m.num_snp + 1)).map
            (fun i : Nat => first_ge i 0 (sort_coo (s.combined_.coo_ld_ ++ diag_entries m)))
          csr_ld_tag_index_ :=
            (sort_coo (s.combined_.coo_ld_ ++ diag_entries m)).map (fun e => e.2.1)
          csr_ld_r2_ :=
            (sort_coo (s.combined_.coo_ld_ ++ diag_entries m)).map (fun e => e.2.2)
          coo_ld_ := sort_coo (s.combined_.coo_ld_ ++ diag_entries m) } ∧
      ∀ e ∈ sort_coo (s.combined_.coo_ld_ ++ diag_entries m), 0 ≤ e.1 ∧ e.1 < m.num_snp := by
  have hlen : m.mafvec.length = m.num_snp := by
    rcases hw.2.2.2.2.1 with h0 | h0
    · exact absurd h0 hm
    · exact h0
  obtain ⟨sa, ha, -, -, hcomb, -, -⟩ := runs_inject_diagonal hw hlen s hg
  have hall : ∀ e ∈ sort_coo (s.combined_.coo_ld_ ++ diag_entries m),
      0 ≤ e.1 ∧ e.1 < m.num_snp := by
    intro e he
    rcases List.mem_append.mp (mem_sort_coo.mp he) with h1 | h1
    · exact hr e h1
    · obtain ⟨t, -, -, h2⟩ := mem_diag_entries hw h1
      exact h2
  have hsort : sort_step sa =
      (({ sa with combined_ := { sa.combined_ with
          coo_ld_ := sort_coo sa.combined_.coo_ld_ } } : LdMatrixCsr), Outcome.ok) := rfl
  have hn : m.snp_to_tag.length = m.num_snp := hw.2.1
  obtain ⟨rs1, hrs1⟩ := fill_row_start_some (sort_coo (s.combined_.coo_ld_ ++ diag_entries m)) 0
    (List.replicate (m.num_snp + 1)
      ((sort_coo (s.combined_.coo_ld_ ++ diag_entries m)).length : Int))
    (by intro e he; have := hall e he; simp only [List.length_replicate]; omega)
  have hrow := compact_row_start _ m.num_snp rs1 hrs1 (fun e he => (hall e he).2)
  have hfill : fill_row_start 0
      ({ sa with combined_ := { sa.combined_ with
          coo_ld_ := sort_coo sa.combined_.coo_ld_ } } : LdMatrixCsr).combined_.coo_ld_
      (vec_resize ({ sa with combined_ := { sa.combined_ with
          coo_ld_ := sort_coo sa.combined_.coo_ld_ } } : LdMatrixCsr).combined_.csr_ld_snp_index_
        (m.snp_to_tag.length + 1)
        (({ sa with combined_ := { sa.combined_ with
          coo_ld_ := sort_coo sa.combined_.coo_ld_ } } :
            LdMatrixCsr).combined_.coo_ld_.length : Int)) = some rs1 := by
    simp only [hcomb, hcsr.2, vec_resize_nil, hn]
    exact hrs1
  have hb : build_csr m s = compact m
      { sa with combined_ := { sa.combined_ with
          coo_ld_ := sort_coo sa.combined_.coo_ld_ } } := by
    unfold build_csr
    rw [seq_apply_ok (check_coo_not_empty_ok hne), seq_apply_ok ha, seq_apply_ok hsort]
  have hbuild := hb.trans (compact_some hfill)
  refine ⟨_, hbuild, ?_, hall⟩
  simp only [hcomb, hcsr.1, hg.1, hrow, List.nil_append]

end LdMatrixCsr

/-- C8: for every object in its ingestion phase (CSR arrays empty, accumulators created)
with a non-empty COO list whose snp indices lie in `[0, num_snp)`, steps 1-3 of
`set_ld_r2_csr` return normally and, with `L` the sorted list of the ingested records
plus the records `(tag_to_snp[t], t, 1.0)`: the row of every snp `j` is the sequence of
`(tag, r²)` of the records of `L` with snp index `j`; `row_start[j]` is the number of
records of `L` with a smaller snp index; a snp with no record has a zero-length row; and
`nnz` is the number of ingested records plus `num_tag`. -/
theorem C8_compaction_preserves_content (m : TagToSnpMapping) (hw : m.WellFormed)
    (hm : m.mafvec ≠ []) (s : LdMatrixCsr) (hg : LdMatrixCsr.Good m s)
    (hcsr : s.combined_.csr_ld_tag_index_ = [] ∧ s.combined_.csr_ld_snp_index_ = [])
    (hne : s.combined_.coo_ld_ ≠ [])
    (hr : ∀ e ∈ s.combined_.coo_ld_, 0 ≤ e.1 ∧ e.1 < m.num_snp) :
    ∃ s1, LdMatrixCsr.build_csr m s = (s1, Outcome.ok) ∧
      (∀ j : Nat, j < m.num_snp →
        s1.combined_.row j =
          ((LdMatrixCsr.sort_coo (s.combined_.coo_ld_ ++ LdMatrixCsr.diag_entries m)).filter
            (fun e => decide (e.1 = (j : Int)))).map (fun e => (e.2.1, e.2.2))) ∧
      (∀ j : Nat, j ≤ m.num_snp →
        s1.combined_.csr_ld_snp_index_[j]? = some
          (((LdMatrixCsr.sort_coo (s.combined_.coo_ld_ ++ LdMatrixCsr.diag_entries m)).filter
            (fun e => decide (e.1 < (j : Int)))).length : Int)) ∧
      (∀ j : Nat, j < m.num_snp →
        (∀ e ∈ s.combined_.coo_ld_ ++ LdMatrixCsr.diag_entries m, e.1 ≠ (j : Int)) →
        s1.combined_.csr_ld_snp_index_[j]? = s1.combined_.csr_ld_snp_index_[j + 1]?) ∧
      s1.combined_.csr_ld_snp_index_.length = m.num_snp + 1 ∧
      s1.combined_.csr_ld_tag_index_.length = s.combined_.coo_ld_.length + m.num_tag ∧
      s1.combined_.csr_ld_r2_.length = s.combined_.coo_ld_.length + m.num_tag := by
  obtain ⟨s1, hs1, hcomb, -⟩ := LdMatrixCsr.build_csr_spec hw hm hg hcsr hne hr
  have hsorted := LdMatrixCsr.sort_coo_key_sorted
    (s.combined_.coo_ld_ ++ LdMatrixCsr.diag_entries m)
  have hstart : ∀ j : Nat, j ≤ m.num_snp →
      s1.combined_.csr_ld_snp_index_[j]? = some
        (((LdMatrixCsr.sort_coo (s.combined_.coo_ld_ ++ LdMatrixCsr.diag_entries m)).filter
          (fun e => decide (e.1 < (j : Int)))).length : Int) := by
    intro j hj
    rw [hcomb]
    simp only [List.getElem?_map, List.getElem?_range (show j < m.num_snp + 1 by omega),
      Option.map_some', LdMatrixCsr.first_ge_eq_takeWhile,
      LdMatrixCsr.takeWhile_eq_filter_lt _ _ hsorted]
    simp
  refine ⟨s1, hs1, ?_, hstart, ?_, ?_, ?_, ?_⟩
  · intro j hj
    rw [LdMatrixCsr.row_of_compact _ m.num_snp s1.combined_ (by rw [hcomb]) (by rw [hcomb])
      (by rw [hcomb]) j hj, LdMatrixCsr.segment_eq_filter _ _ hsorted]
  · intro j hj hnone
    rw [hstart j (by omega), hstart (j + 1) (by omega)]
    congr 3
    apply List.filter_congr
    intro e he
    have := hnone e (LdMatrixCsr.mem_sort_coo.mp he)
    simp only [decide_eq_decide]
    push_cast
    omega
  · rw [hcomb]
    simp
  · rw [hcomb]
    simp [LdMatrixCsr.sort_coo_length, LdMatrixCsr.diag_entries_length, hw.2.2.2.1]
  · rw [hcomb]
    simp [LdMatrixCsr.sort_coo_length, LdMatrixCsr.diag_entries_length, hw.2.2.2.1]

/-! ### Finalized structures: row order (C5) and the diagonal (C3) -/

namespace LdMatrixCsr

/-- The structure a successful `set_ld_r2_csr` leaves behind when it started with empty
CSR arrays: the compaction of the sorted list `L` of the COO records and the diagonal
records; the snp indices of `L` lie in `[0, num_snp)`. -/
theorem finalized_spec {m : TagToSnpMapping} {r2_min : Flt} {s s1 : LdMatrixCsr}
    (h : set_ld_r2_csr m r2_min s = (s1, Outcome.ok))
    (hcsr : s.combined_.csr_ld_r2_ = [] ∧ s.combined_.csr_ld_tag_index_ = [] ∧
      s.combined_.csr_ld_snp_index_ = []) :
    s1.combined_ =
      { csr_ld_snp_index_ := (List.range (m.num_snp + 1)).map
          (fun i : Nat => first_ge i 0 (sort_coo (s.combined_.coo_ld_ ++ diag_entries m)))
        csr_ld_tag_index_ :=
          (sort_coo (s.combined_.coo_ld_ ++ diag_entries m)).map (fun e => e.2.1)
        csr_ld_r2_ :=
          (sort_coo (s.combined_.coo_ld_ ++ diag_entries m)).map (fun e => e.2.2)
        coo_ld_ := [] } ∧
    (∀ e ∈ sort_coo (s.combined_.coo_ld_ ++ diag_entries m), 0 ≤ e.1 ∧ e.1 < m.num_snp) := by
  obtain ⟨-, -, ⟨rs1, hfill, hc⟩, hv⟩ := set_ld_r2_csr_ok h
  obtain ⟨h1, -, -, h4, -⟩ := validate_ok hv
  rw [hcsr.2.2, vec_resize_nil] at hfill
  obtain ⟨hlen, hmem, hget⟩ := fill_row_start_spec _ 0 _ rs1 hfill
  simp only [List.length_replicate] at hlen hmem hget
  rw [hc] at h1 h4
  simp only [backfill_row_start_length, hlen] at h1
  simp only [backfill_row_start_getLast, hcsr.1, List.nil_append, List.length_map] at h4
  have hn : m.snp_to_tag.length = m.num_snp := by omega
  rw [hn] at hfill hlen hmem hget
  -- the last row start is `nnz`, so no record has the snp index `num_snp`
  have hlast : rs1[m.num_snp]? =
      some (((sort_coo (s.combined_.coo_ld_ ++ diag_entries m)).length : Nat) : Int) := by
    rw [List.getLast?_eq_getElem?, hlen] at h4
    simpa using h4
  have hall : ∀ e ∈ sort_coo (s.combined_.coo_ld_ ++ diag_entries m),
      0 ≤ e.1 ∧ e.1 < m.num_snp := by
    intro e he
    have hr := hmem e he
    refine ⟨hr.1, ?_⟩
    by_contra hge
    have heq : e.1 = (m.num_snp : Int) := by
      have := hr.2
      push_cast at this
      omega
    have hlt := first_pos_lt (m.num_snp : Int)
      ((List.replicate (m.num_snp + 1)
        ((sort_coo (s.combined_.coo_ld_ ++ diag_entries m)).length : Int)).getD m.num_snp 0)
      (sort_coo (s.combined_.coo_ld_ ++ diag_entries m)) ⟨e, he, heq⟩ 0
    rw [hget m.num_snp (by omega)] at hlast
    simp only [Option.some.injEq] at hlast
    rw [hlast] at hlt
    simp at hlt
  refine ⟨?_, hall⟩
  rw [hc, hcsr.1, hcsr.2.1, compact_row_start _ m.num_snp rs1 hfill (fun e he => (hall e he).2)]
  simp

/-- The rows of a structure that comes from the compaction of the list `l` in key order:
the row of the snp `j` holds the records of `l` with the snp index `j`. -/
theorem row_eq_filter (l : List CooEntry) (n : Nat) (c : LdMatrixCsrChunk)
    (hs : l.Pairwise key_le)
    (h1 : c.csr_ld_snp_index_ = (List.range (n + 1)).map (fun i : Nat => first_ge i 0 l))
    (h2 : c.csr_ld_tag_index_ = l.map (fun e => e.2.1))
    (h3 : c.csr_ld_r2_ = l.map (fun e => e.2.2)) (j : Nat) (hj : j < n) :
    c.row j = (l.filter (fun e => decide (e.1 = (j : Int)))).map (fun e => (e.2.1, e.2.2)) := by
  rw [row_of_compact l n c h1 h2 h3 j hj, segment_eq_filter _ _ hs]

theorem strict_of_no_adjacent_duplicate (r : List (Int × Flt))
    (hle : r.Pairwise (fun a b => a.1 ≤ b.1)) (hd : has_adjacent_duplicate r = false) :
    r.Pairwise (fun a b => a.1 < b.1) := by
  induction r with
  | nil => exact List.Pairwise.nil
  | cons a r ih =>
    obtain ⟨ha, hr⟩ := List.pairwise_cons.mp hle
    cases r with
    | nil => simp
    | cons b r =>
      simp only [has_adjacent_duplicate, Bool.or_eq_false_iff, decide_eq_false_iff_not] at hd
      have hrec := ih hr hd.2
      obtain ⟨hb, -⟩ := List.pairwise_cons.mp hrec
      have hab : a.1 < b.1 := by
        have := ha b (List.mem_cons_self b r)
        have := hd.1
        omega
      refine List.pairwise_cons.mpr ⟨?_, hrec⟩
      intro x hx
      rcases List.mem_cons.mp hx with rfl | hx1
      · exact hab
      · have := hb x hx1
        omega

/-- The rows of a finalized structure are in strictly ascending order of the tag index. -/
theorem finalized_rows_strict {m : TagToSnpMapping} {r2_min : Flt} {s s1 : LdMatrixCsr}
    (h : set_ld_r2_csr m r2_min s = (s1, Outcome.ok))
    (hcsr : s.combined_.csr_ld_r2_ = [] ∧ s.combined_.csr_ld_tag_index_ = [] ∧
      s.combined_.csr_ld_snp_index_ = []) (j : Nat) (hj : j < m.num_snp) :
    (s1.combined_.row j).Pairwise (fun a b => a.1 < b.1) := by
  obtain ⟨hcomb, -⟩ := finalized_spec h hcsr
  obtain ⟨-, -, -, hv⟩ := set_ld_r2_csr_ok h
  have hdup := (validate_ok hv).2.2.2.2.2.2.2.2.1 j hj
  have hsorted := sort_coo_key_sorted (s.combined_.coo_ld_ ++ diag_entries m)
  apply strict_of_no_adjacent_duplicate _ _ hdup
  rw [row_eq_filter _ m.num_snp s1.combined_ hsorted (by rw [hcomb]) (by rw [hcomb])
    (by rw [hcomb]) j hj, List.pairwise_map]
  refine (hsorted.sublist (List.filter_sublist _)).imp_of_mem ?_
  intro a b ha hb hab
  have ha1 := (List.mem_filter.mp ha).2
  have hb1 := (List.mem_filter.mp hb).2
  simp only [decide_eq_true_eq] at ha1 hb1
  unfold key_le at hab
  omega

theorem reachable_csr_empty {m : TagToSnpMapping} {s : LdMatrixCsr} (hr : Reachable m s)
    (hne : s.combined_.coo_ld_ ≠ []) :
    s.combined_.csr_ld_r2_ = [] ∧ s.combined_.csr_ld_tag_index_ = [] ∧
      s.combined_.csr_ld_snp_index_ = [] := by
  have hinv := reachable_inv hr
  have h1 := hinv.1 hne
  exact ⟨h1, hinv.2.1 h1⟩

end LdMatrixCsr

/-- C5: whenever `set_ld_r2_csr` succeeds on a reachable object, for every snp `i` in
`[0, num_snp)` the tag indices stored in `[row_start[i], row_start[i + 1])` are strictly
ascending; hence no row holds two entries with the same tag index. -/
theorem C5_rows_strictly_ascending (m : TagToSnpMapping) (r2_min : Flt)
    (s s1 : LdMatrixCsr) (hr : LdMatrixCsr.Reachable m s)
    (h : LdMatrixCsr.set_ld_r2_csr m r2_min s = (s1, Outcome.ok)) (i : Nat)
    (hi : i < m.num_snp) :
    ((s1.combined_.row i).map Prod.fst).Pairwise (fun a b => a < b) ∧
    ((s1.combined_.row i).map Prod.fst).Nodup := by
  have hne := (LdMatrixCsr.set_ld_r2_csr_ok h).1
  have hstrict := LdMatrixCsr.finalized_rows_strict h
    (LdMatrixCsr.reachable_csr_empty hr hne) i hi
  have hp : ((s1.combined_.row i).map Prod.fst).Pairwise (fun a b => a < b) := by
    rw [List.pairwise_map]
    exact hstrict
  exact ⟨hp, hp.imp (fun hab => ne_of_lt hab)⟩

/-- C3: for every object reached from a fresh one (the triplets ingested through
`set_ld_r2_coo`) on which `set_ld_r2_csr` has succeeded, with a well-formed mapping
(`tag_to_snp` and `snp_to_tag` mutually inverse on the tag subset), and for every tag
index `t` in `[0, num_tag)`: `find_and_retrieve_ld_r2(tag_to_snp[t], t)` returns exactly
1.0. -/
theorem C3_diagonal_lookup (m : TagToSnpMapping) (hw : m.WellFormed) (r2_min : Flt)
    (s s1 : LdMatrixCsr) (hr : LdMatrixCsr.Reachable m s)
    (h : LdMatrixCsr.set_ld_r2_csr m r2_min s = (s1, Outcome.ok)) (t : Nat)
    (ht : t < m.num_tag) :
    m.tag_to_snp[t]? = some (m.snpOf t) ∧
    s1.combined_.find_and_retrieve_ld_r2 (m.snpOf t) t = some (Flt.fin 1) := by
  have hne := (LdMatrixCsr.set_ld_r2_csr_ok h).1
  have hcsr := LdMatrixCsr.reachable_csr_empty hr hne
  obtain ⟨hcomb, hall⟩ := LdMatrixCsr.finalized_spec h hcsr
  have hsorted := LdMatrixCsr.sort_coo_key_sorted
    (s.combined_.coo_ld_ ++ LdMatrixCsr.diag_entries m)
  have ht0 : (0 : Int) ≤ (t : Int) := by omega
  have ht1 : (t : Int) < m.num_tag := by omega
  obtain ⟨hs0, hs1, -, -⟩ := TagToSnpMapping.snpOf_spec hw ht0 ht1
  have hread := TagToSnpMapping.tag_to_snp_at hw ht0 ht1
  rw [vec_at_nat'] at hread
  refine ⟨hread, ?_⟩
  -- the snp of the tag index, as a natural number
  obtain ⟨j, hj⟩ : ∃ j : Nat, m.snpOf t = (j : Int) := ⟨(m.snpOf t).toNat, by omega⟩
  have hjn : j < m.num_snp := by omega
  rw [hj]
  have hrow := LdMatrixCsr.row_eq_filter _ m.num_snp s1.combined_ hsorted (by rw [hcomb])
    (by rw [hcomb]) (by rw [hcomb]) j hjn
  have hstrict := LdMatrixCsr.finalized_rows_strict h hcsr j hjn
  -- the diagonal record is in the row
  have hmem : ((t : Int), Flt.fin 1) ∈ s1.combined_.row j := by
    rw [hrow]
    refine List.mem_map.mpr ⟨(m.snpOf t, (t : Int), Flt.fin 1), ?_, rfl⟩
    refine List.mem_filter.mpr ⟨LdMatrixCsr.mem_sort_coo.mpr (List.mem_append_right _ ?_),
      by simpa using hj⟩
    unfold LdMatrixCsr.diag_entries
    refine List.mem_map.mpr ⟨t, List.mem_range.mpr (by rw [hw.2.2.2.1]; exact ht), ?_⟩
    rw [LdMatrixCsr.snpOf_eq_getD m t (by rw [hw.2.2.2.1]; exact ht)]
  obtain ⟨k, hk⟩ := List.getElem?_of_mem hmem
  -- the row starts, as natural numbers
  have hstart : ∀ i : Nat, i < m.num_snp + 1 →
      s1.combined_.csr_ld_snp_index_[i]? = some
        ((((LdMatrixCsr.sort_coo (s.combined_.coo_ld_ ++ LdMatrixCsr.diag_entries m)).takeWhile
          (fun e => decide (e.1 < (i : Int)))).length : Nat) : Int) := by
    intro i hi
    rw [hcomb]
    simp only [List.getElem?_map, List.getElem?_range hi, Option.map_some',
      LdMatrixCsr.first_ge_eq_takeWhile]
    simp
  have hlen : s1.combined_.csr_ld_tag_index_.length = s1.combined_.csr_ld_r2_.length := by
    rw [hcomb]
    simp
  have hmono : ((LdMatrixCsr.sort_coo (s.combined_.coo_ld_ ++
        LdMatrixCsr.diag_entries m)).takeWhile (fun e => decide (e.1 < (j : Int)))).length ≤
      ((LdMatrixCsr.sort_coo (s.combined_.coo_ld_ ++
        LdMatrixCsr.diag_entries m)).takeWhile
          (fun e => decide (e.1 < ((j + 1 : Nat) : Int)))).length := by
    rw [LdMatrixCsr.takeWhile_split (fun e : CooEntry => decide (e.1 < (j : Int)))
      (fun e => decide (e.1 < ((j + 1 : Nat) : Int)))
      (by intro x hx; simp at hx ⊢; omega)]
    simp
  have hbound : ((LdMatrixCsr.sort_coo (s.combined_.coo_ld_ ++
        LdMatrixCsr.diag_entries m)).takeWhile
          (fun e => decide (e.1 < ((j + 1 : Nat) : Int)))).length ≤
      s1.combined_.csr_ld_tag_index_.length := by
    rw [hcomb]
    simp only [List.length_map]
    exact (List.takeWhile_sublist _).length_le
  rw [LdMatrixCsr.find_and_retrieve_row s1.combined_ j t _ _ (hstart j (by omega))
    (hstart (j + 1) (by omega)) hmono hbound hlen]
  have hfst : ((s1.combined_.row j).map Prod.fst)[k]? = some (t : Int) := by
    rw [List.getElem?_map, hk]
    rfl
  have hsnd : ((s1.combined_.row j).map Prod.snd)[k]? = some (Flt.fin 1) := by
    rw [List.getElem?_map, hk]
    rfl
  rw [LdMatrixCsr.lower_bound_of_mem _ _ (by rw [List.pairwise_map]; exact hstrict) k hfst,
    hsnd]
  rfl

/-! ### The running sums after ingestion and diagonal injection -/

namespace Flt

theorem add_comm (a b : Flt) : Flt.add a b = Flt.add b a := by
  cases a <;> cases b <;> simp [Flt.add, Rat.add_comm]

end Flt

namespace LdMatrixCsr

/-- A snp in range is the snp of the tag index `t` exactly when it is a tag variant with
the tag index `t`. -/
theorem is_snp_of_tag {m : TagToSnpMapping} (hw : m.WellFormed) {x t : Int} (hx0 : 0 ≤ x)
    (hx1 : x < m.num_snp) (ht0 : 0 ≤ t) (ht1 : t < m.num_tag) :
    (m.isTag x = true ∧ t = m.tagOf x) ↔ x = m.snpOf t := by
  constructor
  · rintro ⟨h1, h2⟩
    rw [h2]
    exact (TagToSnpMapping.tagOf_spec hw hx0 hx1 h1).2.2.symm
  · intro h
    obtain ⟨-, -, h3, h4⟩ := TagToSnpMapping.snpOf_spec hw ht0 ht1
    rw [h]
    exact ⟨h3, h4.symm⟩

/-- The terms the loop body stores for the slot `(c, t)` are the terms of the endpoints
equal to `tag_to_snp[t]`, in the component of the triplet. -/
theorem stored_terms_eq {m : TagToSnpMapping} (hw : m.WellFormed) (r2_min : Flt)
    (weighted : Bool) {e : Int × Int × Flt}
    (he : 0 ≤ e.1 ∧ e.1 < m.num_snp ∧ 0 ≤ e.2.1 ∧ e.2.1 < m.num_snp ∧ e.1 ≠ e.2.1 ∧
      e.2.2.isfinite = true) (c : Int) {t : Int} (ht0 : 0 ≤ t) (ht1 : t < m.num_tag) :
    stored_terms m r2_min weighted e c t =
      if c = ld_component e.2.2 r2_min then endpoint_terms m weighted (m.snpOf t) e
      else [] := by
  obtain ⟨ha0, ha1, hb0, hb1, hab, -⟩ := he
  have hA := is_snp_of_tag hw ha0 ha1 ht0 ht1
  have hB := is_snp_of_tag hw hb0 hb1 ht0 ht1
  unfold stored_terms endpoint_terms
  by_cases hc : c = ld_component e.2.2 r2_min
  · rw [if_pos hc]
    by_cases h1 : e.1 = m.snpOf t
    · have h2 : ¬ e.2.1 = m.snpOf t := fun h => hab (h1.trans h.symm)
      have h3 : ¬ (m.isTag e.2.1 = true ∧ c = ld_component e.2.2 r2_min ∧ t = m.tagOf e.2.1) :=
        fun h => h2 (hB.mp ⟨h.1, h.2.2⟩)
      have h4 : m.isTag e.1 = true ∧ c = ld_component e.2.2 r2_min ∧ t = m.tagOf e.1 :=
        ⟨(hA.mpr h1).1, hc, (hA.mpr h1).2⟩
      rw [if_neg h3, if_pos h4, if_pos h1, if_neg h2]
      rfl
    · have h4 : ¬ (m.isTag e.1 = true ∧ c = ld_component e.2.2 r2_min ∧ t = m.tagOf e.1) :=
        fun h => h1 (hA.mp ⟨h.1, h.2.2⟩)
      rw [if_neg h4, if_neg h1]
      by_cases h2 : e.2.1 = m.snpOf t
      · have h3 : m.isTag e.2.1 = true ∧ c = ld_component e.2.2 r2_min ∧
            t = m.tagOf e.2.1 := ⟨(hB.mpr h2).1, hc, (hB.mpr h2).2⟩
        rw [if_pos h3, if_pos h2]
        rfl
      · have h3 : ¬ (m.isTag e.2.1 = true ∧ c = ld_component e.2.2 r2_min ∧
            t = m.tagOf e.2.1) := fun h => h2 (hB.mp ⟨h.1, h.2.2⟩)
        rw [if_neg h3, if_neg h2]
  · rw [if_neg hc, if_neg (fun h => hc h.2.1), if_neg (fun h => hc h.2.1)]
    rfl

theorem flatMap_filter {α β : Type} (p : α → Bool) (f : α → List β) (l : List α) :
    (l.filter p).flatMap f = l.flatMap (fun x => if p x = true then f x else []) := by
  induction l with
  | nil => rfl
  | cons x l ih =>
    by_cases hp : p x = true
    · rw [List.filter_cons_of_pos hp, List.flatMap_cons, List.flatMap_cons, ih, if_pos hp]
    · rw [List.filter_cons_of_neg hp, List.flatMap_cons, ih, if_neg hp]
      rfl

theorem flatMap_congr_mem {α β : Type} (l : List α) (f g : α → List β)
    (h : ∀ x ∈ l, f x = g x) : l.flatMap f = l.flatMap g := by
  induction l with
  | nil => rfl
  | cons x l ih =>
    rw [List.flatMap_cons, List.flatMap_cons, h x (List.mem_cons_self x l),
      ih (fun y hy => h y (List.mem_cons_of_mem x hy))]

theorem flatMap_flatten {α β : Type} (ls : List (List α)) (f : α → List β) :
    ls.flatten.flatMap f = ls.flatMap (fun l => l.flatMap f) := by
  induction ls with
  | nil => rfl
  | cons l ls ih =>
    rw [List.flatten_cons, List.flatMap_append, List.flatMap_cons, ih]

theorem component_below (r2 r2_min : Flt) :
    LD_TAG_COMPONENT_BELOW_R2MIN = ld_component r2 r2_min ↔ Flt.lt r2 r2_min = true := by
  unfold ld_component
  cases Flt.lt r2 r2_min <;>
    simp [LD_TAG_COMPONENT_BELOW_R2MIN, LD_TAG_COMPONENT_ABOVE_R2MIN]

theorem component_above (r2 r2_min : Flt) :
    LD_TAG_COMPONENT_ABOVE_R2MIN = ld_component r2 r2_min ↔
      (!Flt.lt r2 r2_min) = true := by
  unfold ld_component
  cases Flt.lt r2 r2_min <;>
    simp [LD_TAG_COMPONENT_BELOW_R2MIN, LD_TAG_COMPONENT_ABOVE_R2MIN]

/-- The terms stored by the ingestion of the batches for the slot `(c, t)` are the terms
of the endpoints equal to `tag_to_snp[t]` of the triplets of the component `c`. -/
theorem stored_terms_batches {m : TagToSnpMapping} (hw : m.WellFormed) (r2_min : Flt)
    (weighted : Bool) (batches : List (List (Int × Int × Flt)))
    (hacc : ∀ b ∈ batches, ∀ e ∈ b, 0 ≤ e.1 ∧ e.1 < m.num_snp ∧ 0 ≤ e.2.1 ∧
      e.2.1 < m.num_snp ∧ e.1 ≠ e.2.1 ∧ e.2.2.isfinite = true)
    (c : Int) (keep : Flt → Bool)
    (hkeep : ∀ r, c = ld_component r r2_min ↔ keep r = true)
    {t : Int} (ht0 : 0 ≤ t) (ht1 : t < m.num_tag) :
    batches.flatMap (fun b => b.flatMap (fun e => stored_terms m r2_min weighted e c t)) =
      (batches.flatten.filter (fun e => keep e.2.2)).flatMap
        (endpoint_terms m weighted (m.snpOf t)) := by
  rw [flatMap_filter, flatMap_flatten]
  apply flatMap_congr_mem
  intro b hb
  apply flatMap_congr_mem
  intro e he
  rw [stored_terms_eq hw r2_min weighted (hacc b hb e he) c ht0 ht1]
  by_cases hk : keep e.2.2 = true
  · rw [if_pos ((hkeep _).mpr hk), if_pos hk]
  · rw [if_neg (fun h => hk ((hkeep _).mp h)), if_neg hk]

theorem below_range :
    0 ≤ LD_TAG_COMPONENT_BELOW_R2MIN ∧
      LD_TAG_COMPONENT_BELOW_R2MIN < (LD_TAG_COMPONENT_COUNT : Int) := by
  simp [LD_TAG_COMPONENT_BELOW_R2MIN, LD_TAG_COMPONENT_COUNT]

/-- The running sums of a fresh object on which the accumulators have been created are
zero. -/
theorem alloc_empty_values (m : TagToSnpMapping) {c t : Int} (hc0 : 0 ≤ c)
    (hc1 : c < LD_TAG_COMPONENT_COUNT) (ht0 : 0 ≤ t) (ht1 : t < m.num_tag) :
    (alloc_tag_sums m LdMatrixCsr.empty).1.sum_value c t = some (Flt.fin 0) ∧
    (alloc_tag_sums m LdMatrixCsr.empty).1.adjust_value c t = some (Flt.fin 0) := by
  simp only [alloc_tag_sums, LdMatrixCsr.empty, sum_value, adjust_value]
  exact ⟨LdTagSum.value_create hc0 hc1 ht0 ht1, LdTagSum.value_create hc0 hc1 ht0 ht1⟩

/-- Ingesting a non-empty sequence of accepted batches into a fresh object, then
injecting the diagonal: both steps return normally and the terms of every slot are the
stored terms of the triplets followed by the term of the diagonal. -/
theorem ingest_then_inject {m : TagToSnpMapping} (hw : m.WellFormed) (hm : m.mafvec ≠ [])
    (r2_min : Flt) (batches : List (List (Int × Int × Flt))) (hne : batches ≠ [])
    (hacc : ∀ b ∈ batches, ∀ e ∈ b, 0 ≤ e.1 ∧ e.1 < m.num_snp ∧ 0 ≤ e.2.1 ∧
      e.2.1 < m.num_snp ∧ e.1 ≠ e.2.1 ∧ e.2.2.isfinite = true) :
    ∃ s1 s2, Step.forEach (fun b => set_ld_r2_coo m b r2_min) batches LdMatrixCsr.empty =
        (s1, Outcome.ok) ∧
      inject_diagonal m s1 = (s2, Outcome.ok) ∧
      Adds m (alloc_tag_sums m LdMatrixCsr.empty).1 s2
        (fun c t =>
          batches.flatMap (fun b => b.flatMap (fun e => stored_terms m r2_min true e c t)) ++
          (if c = LD_TAG_COMPONENT_ABOVE_R2MIN ∧ 0 ≤ t ∧ t < m.num_tag
            then [diag_term m true t] else []))
        (fun c t =>
          batches.flatMap (fun b => b.flatMap (fun e => stored_terms m r2_min false e c t)) ++
          (if c = LD_TAG_COMPONENT_ABOVE_R2MIN ∧ 0 ≤ t ∧ t < m.num_tag
            then [diag_term m false t] else []))
        (batches.flatMap (fun b => b.flatMap (coo_records m r2_min)) ++ diag_entries m) := by
  have hlen : m.mafvec.length = m.num_snp := by
    rcases hw.2.2.2.2.1 with h0 | h0
    · exact absurd h0 hm
    · exact h0
  have hgood : Good m (alloc_tag_sums m LdMatrixCsr.empty).1 :=
    good_alloc (inv_empty m) rfl
  obtain ⟨s1, hs1, hadds1⟩ := runs_forEach batches
    (fun b hb s h => runs_set_ld_r2_coo hw hm r2_min b (hacc b hb) s h) _ hgood
  obtain ⟨s2, hs2, hadds2⟩ := runs_inject_diagonal hw hlen s1 hadds1.1
  refine ⟨s1, s2, ?_, hs2, adds_trans hadds1 hadds2⟩
  cases batches with
  | nil => exact absurd rfl hne
  | cons b bs =>
    rw [forEach_cons] at hs1 ⊢
    unfold Step.seq at hs1 ⊢
    rw [set_ld_r2_coo_alloc hm b r2_min (s := LdMatrixCsr.empty) rfl]
    exact hs1

end LdMatrixCsr

/-! ### The running sums (C7) -/

/-- C7, counterexample: the scenario of spec §8 with the threshold `r2_min = NaN`.  The
triplet `(0, 2, 0.5)` is added to the above-threshold component (its test `r² < r2_min`
is false), so the unweighted sum of tag index 0 is `0.5 + 1.0`, while 1.0 plus the sum
over the endpoints with `r² >= r2_min` is 1.0. -/
theorem C7_counterexample :
    (Step.forEach (fun b => LdMatrixCsr.set_ld_r2_coo Scenario.mapping b Flt.nan)
        [[(0, 2, Flt.fin (1 / 2))]] LdMatrixCsr.empty).2 = Outcome.ok ∧
    (LdMatrixCsr.inject_diagonal Scenario.mapping
      (Step.forEach (fun b => LdMatrixCsr.set_ld_r2_coo Scenario.mapping b Flt.nan)
        [[(0, 2, Flt.fin (1 / 2))]] LdMatrixCsr.empty).1).2 = Outcome.ok ∧
    (LdMatrixCsr.inject_diagonal Scenario.mapping
      (Step.forEach (fun b => LdMatrixCsr.set_ld_r2_coo Scenario.mapping b Flt.nan)
        [[(0, 2, Flt.fin (1 / 2))]] LdMatrixCsr.empty).1).1.sum_value
          LD_TAG_COMPONENT_ABOVE_R2MIN 0 = some (Flt.fin (3 / 2)) ∧
    Flt.add (LdMatrixCsr.diag_term Scenario.mapping false 0)
      (LdMatrixCsr.endpoint_sum Scenario.mapping false 0 (fun r => Flt.le Flt.nan r)
        [(0, 2, Flt.fin (1 / 2))]) = Flt.fin 1 ∧
    (LdMatrixCsr.inject_diagonal Scenario.mapping
      (Step.forEach (fun b => LdMatrixCsr.set_ld_r2_coo Scenario.mapping b Flt.nan)
        [[(0, 2, Flt.fin (1 / 2))]] LdMatrixCsr.empty).1).1.sum_value
          LD_TAG_COMPONENT_ABOVE_R2MIN 0 ≠
      some (Flt.add (LdMatrixCsr.diag_term Scenario.mapping false 0)
        (LdMatrixCsr.endpoint_sum Scenario.mapping false 0 (fun r => Flt.le Flt.nan r)
          [(0, 2, Flt.fin (1 / 2))])) := by
  decide!

/-- C7 (amended): starting from a fresh object, after the ingestion of a non-empty
sequence of accepted batches with the threshold `r2_min` and the diagonal injection of
`set_ld_r2_csr`, for every tag index `t` the unweighted accumulator holds, in the
below-threshold component, the sum of r² over all triplet endpoints equal to
`tag_to_snp[t]` with `r² < r2_min`, and in the above-threshold component 1.0 plus the sum
of r² over all triplet endpoints equal to `tag_to_snp[t]` for which `r² < r2_min` is
false; the hvec-weighted accumulator holds the same sums with each r² multiplied by `h`
of the other endpoint and the diagonal 1.0 multiplied by `h` of `tag_to_snp[t]`.  When
`r2_min` is not NaN the second condition is `r² >= r2_min`.  The sums do not depend on
the causal-eligibility flags. -/
theorem C7_running_sums (m : TagToSnpMapping) (hw : m.WellFormed) (hm : m.mafvec ≠ [])
    (r2_min : Flt) (batches : List (List (Int × Int × Flt))) (hne : batches ≠ [])
    (hacc : ∀ b ∈ batches, ∀ e ∈ b, 0 ≤ e.1 ∧ e.1 < m.num_snp ∧ 0 ≤ e.2.1 ∧
      e.2.1 < m.num_snp ∧ e.1 ≠ e.2.1 ∧ e.2.2.isfinite = true) :
    (∃ s1 s2,
      Step.forEach (fun b => LdMatrixCsr.set_ld_r2_coo m b r2_min) batches
        LdMatrixCsr.empty = (s1, Outcome.ok) ∧
      LdMatrixCsr.inject_diagonal m s1 = (s2, Outcome.ok) ∧
      ∀ t : Int, 0 ≤ t → t < m.num_tag →
        s2.sum_value LD_TAG_COMPONENT_BELOW_R2MIN t =
          some (LdMatrixCsr.endpoint_sum m false t (fun r => Flt.lt r r2_min)
            batches.flatten) ∧
        s2.sum_value LD_TAG_COMPONENT_ABOVE_R2MIN t =
          some (Flt.add (LdMatrixCsr.diag_term m false t)
            (LdMatrixCsr.endpoint_sum m false t (fun r => !Flt.lt r r2_min)
              batches.flatten)) ∧
        s2.adjust_value LD_TAG_COMPONENT_BELOW_R2MIN t =
          some (LdMatrixCsr.endpoint_sum m true t (fun r => Flt.lt r r2_min)
            batches.flatten) ∧
        s2.adjust_value LD_TAG_COMPONENT_ABOVE_R2MIN t =
          some (Flt.add (LdMatrixCsr.diag_term m true t)
            (LdMatrixCsr.endpoint_sum m true t (fun r => !Flt.lt r r2_min)
              batches.flatten))) ∧
    (r2_min ≠ Flt.nan → ∀ (weighted : Bool) (t : Int),
      LdMatrixCsr.endpoint_sum m weighted t (fun r => !Flt.lt r r2_min) batches.flatten =
        LdMatrixCsr.endpoint_sum m weighted t (fun r => Flt.le r2_min r) batches.flatten) ∧
    (∀ (flags : List Bool) (weighted : Bool) (t : Int) (keep : Flt → Bool),
      LdMatrixCsr.endpoint_sum { m with snp_can_be_causal := flags } weighted t keep
          batches.flatten =
        LdMatrixCsr.endpoint_sum m weighted t keep batches.flatten) := by
  refine ⟨?_, ?_, fun _ _ _ _ => rfl⟩
  · obtain ⟨s1, s2, hs1, hs2, -, -, -, hadj, hsum⟩ :=
      LdMatrixCsr.ingest_then_inject hw hm r2_min batches hne hacc
    refine ⟨s1, s2, hs1, hs2, ?_⟩
    intro t ht0 ht1
    obtain ⟨hb0, hb1⟩ := LdMatrixCsr.below_range
    obtain ⟨ha0, ha1⟩ := LdMatrixCsr.above_range
    have hne01 : ¬ (LD_TAG_COMPONENT_BELOW_R2MIN = LD_TAG_COMPONENT_ABOVE_R2MIN ∧
        0 ≤ t ∧ t < (m.num_tag : Int)) := by
      simp [LD_TAG_COMPONENT_BELOW_R2MIN, LD_TAG_COMPONENT_ABOVE_R2MIN]
    have hz1 := LdMatrixCsr.alloc_empty_values m hb0 hb1 ht0 ht1
    have hz2 := LdMatrixCsr.alloc_empty_values m ha0 ha1 ht0 ht1
    refine ⟨?_, ?_, ?_, ?_⟩
    · rw [hsum]
      simp only [hz1.1, if_neg hne01, List.append_nil, Option.map_some']
      rw [LdMatrixCsr.stored_terms_batches hw r2_min false batches hacc _
          (fun r => Flt.lt r r2_min) (fun r => LdMatrixCsr.component_below r r2_min) ht0 ht1]
      rfl
    · have hA := hsum LD_TAG_COMPONENT_ABOVE_R2MIN t
      beta_reduce at hA
      rw [if_pos ⟨rfl, ht0, ht1⟩, hz2.1,
        LdMatrixCsr.stored_terms_batches hw r2_min false batches hacc _
          (fun r => !Flt.lt r r2_min) (fun r => LdMatrixCsr.component_above r r2_min) ht0 ht1,
        Option.map_some', List.foldl_append, List.foldl_cons, List.foldl_nil] at hA
      rw [hA, Flt.add_comm]
      rfl
    · rw [hadj]
      simp only [hz1.2, if_neg hne01, List.append_nil, Option.map_some']
      rw [LdMatrixCsr.stored_terms_batches hw r2_min true batches hacc _
          (fun r => Flt.lt r r2_min) (fun r => LdMatrixCsr.component_below r r2_min) ht0 ht1]
      rfl
    · have hA := hadj LD_TAG_COMPONENT_ABOVE_R2MIN t
      beta_reduce at hA
      rw [if_pos ⟨rfl, ht0, ht1⟩, hz2.2,
        LdMatrixCsr.stored_terms_batches hw r2_min true batches hacc _
          (fun r => !Flt.lt r r2_min) (fun r => LdMatrixCsr.component_above r r2_min) ht0 ht1,
        Option.map_some', List.foldl_append, List.foldl_cons, List.foldl_nil] at hA
      rw [hA, Flt.add_comm]
      rfl
  · intro hnan weighted t
    unfold LdMatrixCsr.endpoint_sum
    congr 2
    apply List.filter_congr
    intro e he
    obtain ⟨b, hb, heb⟩ := List.mem_flatten.mp he
    have hfin := (hacc b hb e heb).2.2.2.2.2
    cases hr : e.2.2 with
    | fin q =>
      cases r2_min with
      | fin a =>
        simp only [Flt.lt, Flt.le]
        by_cases hqa : q < a
        · simp [hqa, not_le.mpr hqa]
        · simp [hqa, not_lt.mp hqa]
      | pinf => rfl
      | ninf => rfl
      | nan => exact absurd rfl hnan
    | pinf => rw [hr] at hfin; exact Bool.noConfusion hfin
    | ninf => rw [hr] at hfin; exact Bool.noConfusion hfin
    | nan => rw [hr] at hfin; exact Bool.noConfusion hfin

/-- C7, witness: the scenario of spec §8, the triplet `(0, 2, 0.5)` ingested with
`r2_min = 0.1`: the above-threshold sum of tag index 0 is `1.0 + 0.5`. -/
theorem C7_running_sums_witness :
    Scenario.mapping.WellFormed ∧ Scenario.mapping.mafvec ≠ [] ∧
    ([[((0 : Int), (2 : Int), Flt.fin (1 / 2))]] : List (List (Int × Int × Flt))) ≠ [] ∧
    (∃ s1 s2,
      Step.forEach (fun b => LdMatrixCsr.set_ld_r2_coo Scenario.mapping b (Flt.fin (1 / 10)))
        [[(0, 2, Flt.fin (1 / 2))]] LdMatrixCsr.empty = (s1, Outcome.ok) ∧
      LdMatrixCsr.inject_diagonal Scenario.mapping s1 = (s2, Outcome.ok) ∧
      s2.sum_value LD_TAG_COMPONENT_ABOVE_R2MIN 0 =
        some (Flt.add (LdMatrixCsr.diag_term Scenario.mapping false 0)
          (LdMatrixCsr.endpoint_sum Scenario.mapping false 0
            (fun r => !Flt.lt r (Flt.fin (1 / 10)))
            ([[((0 : Int), (2 : Int), Flt.fin (1 / 2))]] :
              List (List (Int × Int × Flt))).flatten))) ∧
    Flt.add (LdMatrixCsr.diag_term Scenario.mapping false 0)
      (LdMatrixCsr.endpoint_sum Scenario.mapping false 0
        (fun r => !Flt.lt r (Flt.fin (1 / 10))) [(0, 2, Flt.fin (1 / 2))]) =
      Flt.fin (3 / 2) :=
  have t := (C7_running_sums Scenario.mapping Scenario.mapping_wf (by decide)
    (Flt.fin (1 / 10)) [[(0, 2, Flt.fin (1 / 2))]] (by decide) (by decide!)).1
  ⟨Scenario.mapping_wf, by decide, by decide,
    t.elim (fun s1 h1 => h1.elim (fun s2 h2 =>
      ⟨s1, s2, h2.1, h2.2.1, (h2.2.2 0 (by decide) (by decide)).2.1⟩)),
    by decide!⟩

/-! ### The lookup without an exact match (C1, C2); the scenario of spec §8 -/

/-- C1, the code at the failing input: under a well-formed mapping with three tag
variants, the triplet `(0, 2, 0.5)` is ingested and `set_ld_r2_csr` succeeds; the row of
snp 0 holds the tag indices 0 and 2 only, yet the lookup of the tag index 1 in that row
returns 0.5, the value stored for the tag index 2, instead of NaN. -/
theorem C1_lookup_returns_next_entry :
    Scenario.mapping_all_tags.WellFormed ∧
    LdMatrixCsr.set_ld_r2_coo Scenario.mapping_all_tags [(0, 2, Flt.fin (1 / 2))]
      (Flt.fin (1 / 10)) LdMatrixCsr.empty = (Scenario.ingested_all_tags, Outcome.ok) ∧
    LdMatrixCsr.set_ld_r2_csr Scenario.mapping_all_tags (Flt.fin (1 / 10))
      Scenario.ingested_all_tags = (Scenario.finalized_all_tags, Outcome.ok) ∧
    Scenario.finalized_all_tags.combined_.row 0 = [(0, Flt.fin 1), (2, Flt.fin (1 / 2))] ∧
    (∀ e ∈ Scenario.finalized_all_tags.combined_.row 0, e.1 ≠ 1) ∧
    Scenario.finalized_all_tags.combined_.find_and_retrieve_ld_r2 0 1 =
      some (Flt.fin (1 / 2)) ∧
    Scenario.finalized_all_tags.combined_.find_and_retrieve_ld_r2 0 1 ≠ some Flt.nan := by
  decide!

/-- C2, the code at the failing input: under a well-formed mapping with two tag variants
of which snp 1 is not causal-eligible, the triplet `(0, 1, 1.0)` is ingested and
`set_ld_r2_csr` succeeds; the row of snp 0 (tag index 0) holds the entry
(tag index 1, 1.0), but the row of snp 1 = `tag_to_snp[1]` holds no entry with the tag
index 0: the lookup the validator makes there returns the diagonal entry of snp 1, whose
value happens to be 1.0 too. -/
theorem C2_symmetry_not_established :
    Scenario.mapping_not_causal.WellFormed ∧
    LdMatrixCsr.set_ld_r2_coo Scenario.mapping_not_causal [(0, 1, Flt.fin 1)]
      (Flt.fin (1 / 10)) LdMatrixCsr.empty = (Scenario.ingested_not_causal, Outcome.ok) ∧
    LdMatrixCsr.set_ld_r2_csr Scenario.mapping_not_causal (Flt.fin (1 / 10))
      Scenario.ingested_not_causal = (Scenario.finalized_not_causal, Outcome.ok) ∧
    Scenario.finalized_not_causal.combined_.row 0 = [(0, Flt.fin 1), (1, Flt.fin 1)] ∧
    Scenario.mapping_not_causal.tagOf 0 = 0 ∧ Scenario.mapping_not_causal.snpOf 1 = 1 ∧
    Scenario.finalized_not_causal.combined_.row 1 = [(1, Flt.fin 1)] ∧
    (∀ e ∈ Scenario.finalized_not_causal.combined_.row 1, e.1 ≠ 0) ∧
    Scenario.finalized_not_causal.combined_.find_and_retrieve_ld_r2 1 0 =
      some (Flt.fin 1) := by
  decide!

theorem Scenario.finalize_ok :
    LdMatrixCsr.set_ld_r2_csr Scenario.mapping (Flt.fin (1 / 10)) Scenario.ingested =
      (Scenario.finalized, Outcome.ok) := by
  decide!

/-- C3, witness: in the finalized scenario of spec §8 the lookup of the diagonal of the
tag index 1 (snp 2) returns 1.0. -/
theorem C3_diagonal_lookup_witness :
    Scenario.mapping.WellFormed ∧
    LdMatrixCsr.Reachable Scenario.mapping Scenario.ingested ∧
    LdMatrixCsr.set_ld_r2_csr Scenario.mapping (Flt.fin (1 / 10)) Scenario.ingested =
      (Scenario.finalized, Outcome.ok) ∧
    Scenario.mapping.tag_to_snp[1]? = some (Scenario.mapping.snpOf ((1 : Nat) : Int)) ∧
    Scenario.finalized.combined_.find_and_retrieve_ld_r2
      (Scenario.mapping.snpOf ((1 : Nat) : Int)) ((1 : Nat) : Int) = some (Flt.fin 1) :=
  ⟨Scenario.mapping_wf, Scenario.ingested_reachable, Scenario.finalize_ok,
    C3_diagonal_lookup Scenario.mapping Scenario.mapping_wf (Flt.fin (1 / 10))
      Scenario.ingested Scenario.finalized Scenario.ingested_reachable Scenario.finalize_ok
      1 (by decide)⟩

/-- C5, witness: in the finalized scenario of spec §8 the tag indices of the row of snp 0
are strictly ascending. -/
theorem C5_rows_strictly_ascending_witness :
    LdMatrixCsr.Reachable Scenario.mapping Scenario.ingested ∧
    LdMatrixCsr.set_ld_r2_csr Scenario.mapping (Flt.fin (1 / 10)) Scenario.ingested =
      (Scenario.finalized, Outcome.ok) ∧
    ((Scenario.finalized.combined_.row 0).map Prod.fst).Pairwise (fun a b => a < b) ∧
    ((Scenario.finalized.combined_.row 0).map Prod.fst).Nodup ∧
    (Scenario.finalized.combined_.row 0).map Prod.fst = [0, 1] :=
  ⟨Scenario.ingested_reachable, Scenario.finalize_ok,
    (C5_rows_strictly_ascending Scenario.mapping (Flt.fin (1 / 10)) Scenario.ingested
      Scenario.finalized Scenario.ingested_reachable Scenario.finalize_ok 0 (by decide)).1,
    (C5_rows_strictly_ascending Scenario.mapping (Flt.fin (1 / 10)) Scenario.ingested
      Scenario.finalized Scenario.ingested_reachable Scenario.finalize_ok 0 (by decide)).2,
    by decide!⟩

theorem Scenario.ingested_good : LdMatrixCsr.Good Scenario.mapping Scenario.ingested :=
  LdMatrixCsr.good_of_inv (LdMatrixCsr.reachable_inv Scenario.ingested_reachable)
    (by decide!) (by decide!)

/-- C8, witness: steps 1-3 of `set_ld_r2_csr` on the ingested scenario of spec §8 give
four stored entries, two ingested records and one diagonal record per tag. -/
theorem C8_compaction_preserves_content_witness :
    Scenario.mapping.WellFormed ∧ Scenario.mapping.mafvec ≠ [] ∧
    LdMatrixCsr.Good Scenario.mapping Scenario.ingested ∧
    Scenario.ingested.combined_.coo_ld_ ≠ [] ∧
    (∀ e ∈ Scenario.ingested.combined_.coo_ld_, 0 ≤ e.1 ∧ e.1 < Scenario.mapping.num_snp) ∧
    ∃ s1, LdMatrixCsr.build_csr Scenario.mapping Scenario.ingested = (s1, Outcome.ok) ∧
      s1.combined_.csr_ld_snp_index_.length = Scenario.mapping.num_snp + 1 ∧
      s1.combined_.csr_ld_r2_.length =
        Scenario.ingested.combined_.coo_ld_.length + Scenario.mapping.num_tag :=
  ⟨Scenario.mapping_wf, by decide, Scenario.ingested_good, by decide!, by decide!,
    (C8_compaction_preserves_content Scenario.mapping Scenario.mapping_wf (by decide)
      Scenario.ingested Scenario.ingested_good (by decide!) (by decide!) (by decide!)).elim
      (fun s1 h => ⟨s1, h.1, h.2.2.2.2.1, h.2.2.2.2.2.2⟩)⟩

/-! ### C11: finalization needs a non-empty COO list -/

namespace LdMatrixCsr

/-- With an empty COO list `set_ld_r2_csr` throws at once and writes nothing. -/
theorem set_ld_r2_csr_empty (m : TagToSnpMapping) (r2_min : Flt) {s : LdMatrixCsr}
    (h : s.combined_.coo_ld_ = []) :
    set_ld_r2_csr m r2_min s = (s, Outcome.runtime_error "coo_ld_ is empty") := by
  have hb : build_csr m s = (s, Outcome.runtime_error "coo_ld_ is empty") := by
    unfold build_csr
    rw [seq_apply_err (check_coo_not_empty_err h) (by simp)]
  unfold set_ld_r2_csr
  rw [seq_apply_err hb (by simp)]

/-- Once the diagonal injection has returned, `set_ld_r2_csr` either runs into undefined
behaviour or leaves the COO list empty, whatever the validation says. -/
theorem set_ld_r2_csr_releases {m : TagToSnpMapping} (r2_min : Flt) {s sa : LdMatrixCsr}
    (hne : s.combined_.coo_ld_ ≠ []) (hinj : inject_diagonal m s = (sa, Outcome.ok)) :
    (set_ld_r2_csr m r2_min s).2 = Outcome.undefined ∨
      (set_ld_r2_csr m r2_min s).1.combined_.coo_ld_ = [] := by
  have hsort : sort_step sa =
      (({ sa with combined_ := { sa.combined_ with
          coo_ld_ := sort_coo sa.combined_.coo_ld_ } } : LdMatrixCsr), Outcome.ok) := rfl
  have hb : build_csr m s = compact m
      { sa with combined_ := { sa.combined_ with
          coo_ld_ := sort_coo sa.combined_.coo_ld_ } } := by
    unfold build_csr
    rw [seq_apply_ok (check_coo_not_empty_ok hne), seq_apply_ok hinj, seq_apply_ok hsort]
  rcases hcomp : compact m
      { sa with combined_ := { sa.combined_ with
          coo_ld_ := sort_coo sa.combined_.coo_ld_ } } with ⟨sc, ec⟩
  rw [hcomp] at hb
  cases ec with
  | runtime_error w =>
    exfalso
    unfold compact at hcomp
    simp only at hcomp
    split at hcomp <;> simp at hcomp
  | undefined =>
    left
    unfold set_ld_r2_csr
    rw [seq_apply_err hb (by simp)]
  | ok =>
    right
    unfold set_ld_r2_csr
    rw [seq_apply_ok hb]
    simp [Step.seq, release_coo]

/-- A reachable object holds COO records only when the MAF vector is set. -/
theorem reachable_coo_mafvec {m : TagToSnpMapping} {s : LdMatrixCsr} (h : Reachable m s) :
    s.combined_.coo_ld_ ≠ [] → m.mafvec ≠ [] := by
  induction h with
  | empty => intro hne; exact absurd rfl hne
  | coo batch r2_min s _ _ ih =>
    rcases set_ld_r2_coo_cases m batch r2_min s with hsame | ⟨-, hm, -⟩
    · rw [hsame]; exact ih
    · exact fun _ => hm
  | csr r2_min s _ hdef ih =>
    rcases set_ld_r2_csr_cases m r2_min s with hsame | ⟨hne, -, -⟩ | hund | hdone
    · rw [hsame]; exact ih
    · exact fun _ => ih hne
    · exact absurd hund hdef
    · exact fun hh => absurd hdone.2.1 hh
  | clear s _ _ => intro hne; exact absurd rfl hne

/-- A reachable object with COO records is in its ingestion phase. -/
theorem reachable_good {m : TagToSnpMapping} {s : LdMatrixCsr} (h : Reachable m s)
    (hne : s.combined_.coo_ld_ ≠ []) : Good m s :=
  good_of_inv (reachable_inv h) ((reachable_inv h).1 hne) ((reachable_inv h).2.2.2.1 hne)

theorem wf_mafvec_length {m : TagToSnpMapping} (hw : m.WellFormed) (hm : m.mafvec ≠ []) :
    m.mafvec.length = m.num_snp := by
  rcases hw.2.2.2.2.1 with h0 | h0
  · exact absurd h0 hm
  · exact h0

end LdMatrixCsr

/-- C11: `set_ld_r2_csr` called with an empty COO list throws "coo_ld_ is empty" and
leaves the object as it was.  Consequently a second `set_ld_r2_csr` fails in that way and
changes nothing (CSR arrays and running sums included): after a first call that returned
normally, and, for a well-formed mapping and a reachable object, after a first call that
ended in any defined way (returned, or threw from the emptiness check or the
validation). -/
theorem C11_finalize_ordering (m : TagToSnpMapping) (r2_min r2_next : Flt)
    (s : LdMatrixCsr) :
    (s.combined_.coo_ld_ = [] →
      LdMatrixCsr.set_ld_r2_csr m r2_min s =
        (s, Outcome.runtime_error "coo_ld_ is empty")) ∧
    (∀ s1, LdMatrixCsr.set_ld_r2_csr m r2_min s = (s1, Outcome.ok) →
      LdMatrixCsr.set_ld_r2_csr m r2_next s1 =
        (s1, Outcome.runtime_error "coo_ld_ is empty")) ∧
    (m.WellFormed → LdMatrixCsr.Reachable m s →
      (LdMatrixCsr.set_ld_r2_csr m r2_min s).2 ≠ Outcome.undefined →
      LdMatrixCsr.set_ld_r2_csr m r2_next (LdMatrixCsr.set_ld_r2_csr m r2_min s).1 =
        ((LdMatrixCsr.set_ld_r2_csr m r2_min s).1,
          Outcome.runtime_error "coo_ld_ is empty")) := by
  refine ⟨LdMatrixCsr.set_ld_r2_csr_empty m r2_min, ?_, ?_⟩
  · intro s1 h
    obtain ⟨-, -, ⟨rs1, -, hcomb⟩, -⟩ := LdMatrixCsr.set_ld_r2_csr_ok h
    exact LdMatrixCsr.set_ld_r2_csr_empty m r2_next (by rw [hcomb])
  · intro hw hr hdef
    apply LdMatrixCsr.set_ld_r2_csr_empty
    by_cases hne : s.combined_.coo_ld_ = []
    · rw [LdMatrixCsr.set_ld_r2_csr_empty m r2_min hne]
      exact hne
    · have hg := LdMatrixCsr.reachable_good hr hne
      have hlen := LdMatrixCsr.wf_mafvec_length hw (LdMatrixCsr.reachable_coo_mafvec hr hne)
      obtain ⟨sa, ha, -⟩ := LdMatrixCsr.runs_inject_diagonal hw hlen s hg
      rcases LdMatrixCsr.set_ld_r2_csr_releases r2_min hne ha with hund | hrel
      · exact absurd hund hdef
      · exact hrel

theorem C11_finalize_ordering_witness :
    LdMatrixCsr.set_ld_r2_csr Scenario.mapping (Flt.fin (1 / 10)) Scenario.ingested =
      (Scenario.finalized, Outcome.ok) ∧
    LdMatrixCsr.set_ld_r2_csr Scenario.mapping (Flt.fin (1 / 10)) Scenario.finalized =
      (Scenario.finalized, Outcome.runtime_error "coo_ld_ is empty") ∧
    Scenario.mapping.WellFormed ∧ LdMatrixCsr.Reachable Scenario.mapping Scenario.ingested ∧
    (LdMatrixCsr.set_ld_r2_csr Scenario.mapping (Flt.fin (6 / 10)) Scenario.ingested).2 =
      Outcome.runtime_error "csr_ld_tag_index_ < 0 || csr_ld_tag_index_ >= num_tag_" ∧
    LdMatrixCsr.set_ld_r2_csr Scenario.mapping (Flt.fin (1 / 10))
        (LdMatrixCsr.set_ld_r2_csr Scenario.mapping (Flt.fin (6 / 10)) Scenario.ingested).1 =
      ((LdMatrixCsr.set_ld_r2_csr Scenario.mapping (Flt.fin (6 / 10)) Scenario.ingested).1,
        Outcome.runtime_error "coo_ld_ is empty") :=
  ⟨Scenario.finalize_ok,
    (C11_finalize_ordering Scenario.mapping (Flt.fin (1 / 10)) (Flt.fin (1 / 10))
      Scenario.ingested).2.1 Scenario.finalized Scenario.finalize_ok,
    Scenario.mapping_wf, Scenario.ingested_reachable, by decide!,
    (C11_finalize_ordering Scenario.mapping (Flt.fin (6 / 10)) (Flt.fin (1 / 10))
      Scenario.ingested).2.2 Scenario.mapping_wf Scenario.ingested_reachable (by decide!)⟩

/-! ### C12: what a failed validation leaves behind -/

namespace LdMatrixCsr

/-- What steps 1-3 of `set_ld_r2_csr` have done when they return normally. -/
theorem build_csr_ok {m : TagToSnpMapping} {s sb : LdMatrixCsr}
    (h : build_csr m s = (sb, Outcome.ok)) :
    s.combined_.coo_ld_ ≠ [] ∧
    (∃ sa, inject_diagonal m s = (sa, Outcome.ok) ∧
      sb.ld_tag_sum_ = sa.ld_tag_sum_ ∧
      sb.ld_tag_sum_adjust_for_hvec_ = sa.ld_tag_sum_adjust_for_hvec_ ∧
      sb.chunks_ = sa.chunks_) ∧
    ∃ rs1,
      fill_row_start 0 (sort_coo (s.combined_.coo_ld_ ++ diag_entries m))
        (vec_resize s.combined_.csr_ld_snp_index_ (m.snp_to_tag.length + 1)
          ((sort_coo (s.combined_.coo_ld_ ++ diag_entries m)).length : Int)) = some rs1 ∧
      sb.combined_ =
        { csr_ld_snp_index_ := backfill_row_start rs1
          csr_ld_tag_index_ := s.combined_.csr_ld_tag_index_ ++
            (sort_coo (s.combined_.coo_ld_ ++ diag_entries m)).map (fun e => e.2.1)
          csr_ld_r2_ := s.combined_.csr_ld_r2_ ++
            (sort_coo (s.combined_.coo_ld_ ++ diag_entries m)).map (fun e => e.2.2)
          coo_ld_ := sort_coo (s.combined_.coo_ld_ ++ diag_entries m) } := by
  unfold build_csr at h
  obtain ⟨s0, h0, hb1⟩ := seq_eq_ok h
  clear h
  obtain ⟨sa, ha, hb2⟩ := seq_eq_ok hb1
  clear hb1
  obtain ⟨sd, hd, hb⟩ := seq_eq_ok hb2
  clear hb2
  have hne : s.combined_.coo_ld_ ≠ [] := by
    intro hnil
    rw [check_coo_not_empty_err hnil] at h0
    simp at h0
  have hs0 : s0 = s := by
    rw [check_coo_not_empty_ok hne] at h0
    simp only [Prod.mk.injEq, and_true] at h0
    exact h0.symm
  subst hs0
  have hinj := inject_diagonal_ok ha
  simp only [sort_step, Prod.mk.injEq, and_true] at hd
  subst hd
  obtain ⟨rs1, hfill, hsb⟩ := compact_ok hb
  subst hsb
  simp only [hinj.1] at hfill
  refine ⟨hne, ⟨sa, ha, rfl, rfl, rfl⟩, ⟨rs1, hfill, ?_⟩⟩
  simp only [hinj.1]

/-- The whole of `set_ld_r2_csr` once steps 1-3 have returned: the COO list is released
and the outcome is the one of the validation. -/
theorem set_ld_r2_csr_of_build {m : TagToSnpMapping} (r2_min : Flt) {s sb : LdMatrixCsr}
    (h : build_csr m s = (sb, Outcome.ok)) :
    set_ld_r2_csr m r2_min s =
      ((release_coo sb).1, validate_ld_r2_csr m r2_min (release_coo sb).1) := by
  unfold set_ld_r2_csr
  rw [seq_apply_ok h]
  rfl

end LdMatrixCsr

/-- C12, as stated, fails: in the scenario of spec §8 finalized with `r2_min = 0.6`,
steps 1-3 return, the validation rejects the structure (the stored 0.5 is below the
threshold), yet afterwards the three CSR arrays are not empty and the lookup of (0, 1)
returns the 0.5 stored by the failed build. -/
theorem C12_counterexample :
    (LdMatrixCsr.build_csr Scenario.mapping Scenario.ingested).2 = Outcome.ok ∧
    LdMatrixCsr.set_ld_r2_csr Scenario.mapping (Flt.fin (6 / 10)) Scenario.ingested =
      (Scenario.rejected, Outcome.runtime_error
        "csr_ld_tag_index_ < 0 || csr_ld_tag_index_ >= num_tag_") ∧
    LdMatrixCsr.validate_ld_r2_csr Scenario.mapping (Flt.fin (6 / 10)) Scenario.rejected =
      Outcome.runtime_error "csr_ld_tag_index_ < 0 || csr_ld_tag_index_ >= num_tag_" ∧
    Scenario.rejected.combined_.csr_ld_snp_index_ = [0, 2, 2, 4] ∧
    Scenario.rejected.combined_.csr_ld_tag_index_ = [0, 1, 0, 1] ∧
    Scenario.rejected.combined_.csr_ld_r2_ =
      [Flt.fin 1, Flt.fin (1 / 2), Flt.fin (1 / 2), Flt.fin 1] ∧
    Scenario.rejected.combined_.find_and_retrieve_ld_r2 0 1 = some (Flt.fin (1 / 2)) ∧
    ¬ (Scenario.rejected.combined_.csr_ld_snp_index_ = [] ∧
        Scenario.rejected.combined_.csr_ld_tag_index_ = [] ∧
        Scenario.rejected.combined_.csr_ld_r2_ = []) := by
  decide!

/-- C12, amended: when steps 1-3 of `set_ld_r2_csr` return and `validate_ld_r2_csr`
rejects the compacted structure, the call throws the error of the validation and the COO
list is released, but the object keeps the rejected structure: the three CSR arrays are
the ones the compaction wrote (the value array is not empty, the row starts have length
`snp_to_tag.size() + 1`).  The object can then neither be extended (`set_ld_r2_coo`
throws) nor finalized again (`set_ld_r2_csr` throws); only `clear()` empties the
arrays. -/
theorem C12_failed_validation_keeps_structure (m : TagToSnpMapping) (r2_min : Flt)
    (s sb : LdMatrixCsr) (what : String)
    (hb : LdMatrixCsr.build_csr m s = (sb, Outcome.ok))
    (hv : LdMatrixCsr.validate_ld_r2_csr m r2_min (LdMatrixCsr.release_coo sb).1 =
      Outcome.runtime_error what) :
    ∃ s1, LdMatrixCsr.set_ld_r2_csr m r2_min s = (s1, Outcome.runtime_error what) ∧
      s1.combined_.coo_ld_ = [] ∧
      s1.combined_.csr_ld_snp_index_ = sb.combined_.csr_ld_snp_index_ ∧
      s1.combined_.csr_ld_tag_index_ = sb.combined_.csr_ld_tag_index_ ∧
      s1.combined_.csr_ld_r2_ = sb.combined_.csr_ld_r2_ ∧
      s1.combined_.csr_ld_r2_ = s.combined_.csr_ld_r2_ ++
        (LdMatrixCsr.sort_coo (s.combined_.coo_ld_ ++ LdMatrixCsr.diag_entries m)).map
          (fun e => e.2.2) ∧
      s1.combined_.csr_ld_r2_ ≠ [] ∧
      s1.combined_.csr_ld_snp_index_.length = m.snp_to_tag.length + 1 ∧
      (∀ (batch : List (Int × Int × Flt)) (r : Flt),
        LdMatrixCsr.set_ld_r2_coo m batch r s1 =
          (s1, Outcome.runtime_error "can't call set_ld_r2_coo after set_ld_r2_csr")) ∧
      (∀ r : Flt, LdMatrixCsr.set_ld_r2_csr m r s1 =
        (s1, Outcome.runtime_error "coo_ld_ is empty")) ∧
      s1.clear.combined_ = LdMatrixCsrChunk.empty := by
  obtain ⟨hne, -, rs1, hfill, hcomb⟩ := LdMatrixCsr.build_csr_ok hb
  have hr2 : (LdMatrixCsr.release_coo sb).1.combined_.csr_ld_r2_ ≠ [] := by
    simp only [LdMatrixCsr.release_coo, hcomb]
    intro hnil
    have hl := congrArg List.length hnil
    simp only [List.length_append, List.length_map, LdMatrixCsr.sort_coo_length,
      List.length_nil] at hl
    exact hne (List.length_eq_zero.mp (by omega))
  refine ⟨(LdMatrixCsr.release_coo sb).1, ?_, rfl, rfl, rfl, rfl, ?_, hr2, ?_, ?_, ?_, rfl⟩
  · rw [LdMatrixCsr.set_ld_r2_csr_of_build r2_min hb, hv]
  · simp only [LdMatrixCsr.release_coo, hcomb]
  · simp only [LdMatrixCsr.release_coo, hcomb]
    rw [LdMatrixCsr.backfill_row_start_length,
      (LdMatrixCsr.fill_row_start_spec _ _ _ _ hfill).1]
    simp [vec_resize]
    omega
  · intro batch r
    exact LdMatrixCsr.set_ld_r2_coo_after_csr m batch r _ hr2
  · intro r
    exact LdMatrixCsr.set_ld_r2_csr_empty m r rfl

theorem C12_failed_validation_keeps_structure_witness :
    LdMatrixCsr.build_csr Scenario.mapping Scenario.ingested =
      ((LdMatrixCsr.build_csr Scenario.mapping Scenario.ingested).1, Outcome.ok) ∧
    LdMatrixCsr.validate_ld_r2_csr Scenario.mapping (Flt.fin (6 / 10))
        (LdMatrixCsr.release_coo
          (LdMatrixCsr.build_csr Scenario.mapping Scenario.ingested).1).1 =
      Outcome.runtime_error "csr_ld_tag_index_ < 0 || csr_ld_tag_index_ >= num_tag_" ∧
    ∃ s1, LdMatrixCsr.set_ld_r2_csr Scenario.mapping (Flt.fin (6 / 10)) Scenario.ingested =
        (s1, Outcome.runtime_error
          "csr_ld_tag_index_ < 0 || csr_ld_tag_index_ >= num_tag_") ∧
      s1.combined_.coo_ld_ = [] ∧ s1.combined_.csr_ld_r2_ ≠ [] ∧
      s1.clear.combined_ = LdMatrixCsrChunk.empty :=
  ⟨by decide!, by decide!,
    (C12_failed_validation_keeps_structure Scenario.mapping (Flt.fin (6 / 10))
      Scenario.ingested (LdMatrixCsr.build_csr Scenario.mapping Scenario.ingested).1 _
      (by decide!) (by decide!)).imp
      (fun _ h => ⟨h.1, h.2.1, h.2.2.2.2.2.2.1, h.2.2.2.2.2.2.2.2.2.2⟩)⟩

/-! ### C13: `clear()` gives back the object a first ingestion starts from -/

namespace LdTagSum

/-- Resetting an accumulator gives the accumulator its constructor makes. -/
theorem clear_eq_create {a : LdTagSum} {nc nt : Nat} (hs : a.Shaped nc nt) :
    a.clear = create nc nt := by
  obtain ⟨h1, h2⟩ := hs
  unfold clear create
  congr 1
  rw [List.eq_replicate_iff]
  refine ⟨by rw [List.length_map, h1], ?_⟩
  intro b hb
  obtain ⟨row, hrow, rfl⟩ := List.mem_map.mp hb
  rw [List.eq_replicate_iff]
  refine ⟨by rw [List.length_map, h2 row hrow], ?_⟩
  intro x hx
  obtain ⟨y, -, rfl⟩ := List.mem_map.mp hx
  rfl

end LdTagSum

namespace LdMatrixCsr

/-- A run of ingestion calls that all return leads from a reachable object to a reachable
object. -/
theorem reachable_forEach_coo {m : TagToSnpMapping}
    (calls : List (List (Int × Int × Flt) × Flt)) :
    ∀ {s s1 : LdMatrixCsr}, Reachable m s →
      Step.forEach (fun c => set_ld_r2_coo m c.1 c.2) calls s = (s1, Outcome.ok) →
      Reachable m s1 := by
  induction calls with
  | nil =>
    intro s s1 hr h
    rw [forEach_nil] at h
    simp only [Prod.mk.injEq, and_true] at h
    rw [← h]
    exact hr
  | cons c cs ih =>
    intro s s1 hr h
    rw [forEach_cons] at h
    obtain ⟨sm, hm, hrest⟩ := seq_eq_ok h
    have hstep := Reachable.coo c.1 c.2 s hr (by rw [hm]; simp)
    rw [hm] at hstep
    exact ih hstep hrest

/-- After a successful `set_ld_r2_csr` on a reachable object, `clear()` gives the object
that a fresh one becomes when its accumulators are created. -/
theorem clear_finalized {m : TagToSnpMapping} {r2_min : Flt} {s1 s2 : LdMatrixCsr}
    (hr : Reachable m s1) (h : set_ld_r2_csr m r2_min s1 = (s2, Outcome.ok)) :
    s2.clear = (alloc_tag_sums m LdMatrixCsr.empty).1 := by
  obtain ⟨hne, ⟨sa, ha, hsum, hadj⟩, -, -⟩ := set_ld_r2_csr_ok h
  have hr2 : Reachable m s2 := by
    have := Reachable.csr r2_min s1 hr (by rw [h]; simp)
    rw [h] at this
    exact this
  have hinv1 := reachable_inv hr
  have hinv2 := reachable_inv hr2
  have hext := inject_diagonal_extends m s1
  rw [ha] at hext
  have hsome : s2.ld_tag_sum_.isSome = true := by
    rw [hsum, hext.2.2.2.2.2.2.1]
    exact hinv1.2.2.2.1 hne
  have hsome2 : s2.ld_tag_sum_adjust_for_hvec_.isSome = true := by
    rw [hinv2.2.2.1, hsome]
  obtain ⟨a, ha2⟩ := Option.isSome_iff_exists.mp hsome2
  obtain ⟨b, hb2⟩ := Option.isSome_iff_exists.mp hsome
  have hca := LdTagSum.clear_eq_create (hinv2.2.2.2.2.1 a ha2)
  have hcb := LdTagSum.clear_eq_create (hinv2.2.2.2.2.2 b hb2)
  simp [clear, alloc_tag_sums, LdMatrixCsr.empty, ha2, hb2, hca, hcb, LdMatrixCsrChunk.clear,
    LdMatrixCsrChunk.empty]

/-- A non-empty run of ingestion calls does the same on a fresh object and on a fresh
object whose accumulators exist already. -/
theorem forEach_coo_alloc {m : TagToSnpMapping} (hm : m.mafvec ≠ [])
    (calls : List (List (Int × Int × Flt) × Flt)) (hne : calls ≠ []) :
    Step.forEach (fun c => set_ld_r2_coo m c.1 c.2) calls
        (alloc_tag_sums m LdMatrixCsr.empty).1 =
      Step.forEach (fun c => set_ld_r2_coo m c.1 c.2) calls LdMatrixCsr.empty := by
  cases calls with
  | nil => exact absurd rfl hne
  | cons c cs =>
    rw [forEach_cons]
    unfold Step.seq
    rw [← set_ld_r2_coo_alloc hm c.1 c.2 (s := LdMatrixCsr.empty) rfl]

end LdMatrixCsr

/-- C13: for every mapping, every sequence of ingestion calls (each with its batch and its
`r2_min`) that is accepted by a fresh object and every `r2_min` with which the following
`set_ld_r2_csr` returns normally, `clear()` on the finalized object followed by the same
ingestion calls gives the very object the first ingestion gave, so the same
`set_ld_r2_csr` returns normally again with an identical object: identical row starts,
tag indices and r² values, and identical running sums. -/
theorem C13_rebuild_idempotence (m : TagToSnpMapping)
    (calls : List (List (Int × Int × Flt) × Flt)) (r2_min : Flt) (s1 s2 : LdMatrixCsr)
    (h1 : Step.forEach (fun c => LdMatrixCsr.set_ld_r2_coo m c.1 c.2) calls
      LdMatrixCsr.empty = (s1, Outcome.ok))
    (h2 : LdMatrixCsr.set_ld_r2_csr m r2_min s1 = (s2, Outcome.ok)) :
    Step.forEach (fun c => LdMatrixCsr.set_ld_r2_coo m c.1 c.2) calls s2.clear =
      (s1, Outcome.ok) ∧
    Step.seq (Step.forEach (fun c => LdMatrixCsr.set_ld_r2_coo m c.1 c.2) calls)
      (LdMatrixCsr.set_ld_r2_csr m r2_min) s2.clear = (s2, Outcome.ok) := by
  have hr1 := LdMatrixCsr.reachable_forEach_coo calls LdMatrixCsr.Reachable.empty h1
  have hne := (LdMatrixCsr.set_ld_r2_csr_ok h2).1
  have hm := LdMatrixCsr.reachable_coo_mafvec hr1 hne
  have hcalls : calls ≠ [] := by
    intro hnil
    subst hnil
    rw [LdMatrixCsr.forEach_nil] at h1
    simp only [Prod.mk.injEq, and_true] at h1
    rw [← h1] at hne
    exact hne rfl
  have h3 : Step.forEach (fun c => LdMatrixCsr.set_ld_r2_coo m c.1 c.2) calls s2.clear =
      (s1, Outcome.ok) := by
    rw [LdMatrixCsr.clear_finalized hr1 h2, LdMatrixCsr.forEach_coo_alloc hm calls hcalls, h1]
  exact ⟨h3, by rw [LdMatrixCsr.seq_apply_ok h3, h2]⟩

theorem C13_rebuild_idempotence_witness :
    Step.forEach (fun c => LdMatrixCsr.set_ld_r2_coo Scenario.mapping c.1 c.2)
        [([(0, 2, Flt.fin (1 / 2))], Flt.fin (1 / 10))] LdMatrixCsr.empty =
      (Scenario.ingested, Outcome.ok) ∧
    LdMatrixCsr.set_ld_r2_csr Scenario.mapping (Flt.fin (1 / 10)) Scenario.ingested =
      (Scenario.finalized, Outcome.ok) ∧
    Step.forEach (fun c => LdMatrixCsr.set_ld_r2_coo Scenario.mapping c.1 c.2)
        [([(0, 2, Flt.fin (1 / 2))], Flt.fin (1 / 10))] Scenario.finalized.clear =
      (Scenario.ingested, Outcome.ok) ∧
    Step.seq (Step.forEach (fun c => LdMatrixCsr.set_ld_r2_coo Scenario.mapping c.1 c.2)
        [([(0, 2, Flt.fin (1 / 2))], Flt.fin (1 / 10))])
      (LdMatrixCsr.set_ld_r2_csr Scenario.mapping (Flt.fin (1 / 10)))
      Scenario.finalized.clear = (Scenario.finalized, Outcome.ok) :=
  ⟨by decide!, Scenario.finalize_ok,
    C13_rebuild_idempotence Scenario.mapping [([(0, 2, Flt.fin (1 / 2))], Flt.fin (1 / 10))]
      (Flt.fin (1 / 10)) Scenario.ingested Scenario.finalized (by decide!)
      Scenario.finalize_ok⟩

/-! ### The validator, check by check -/

namespace LdMatrixCsr

theorem has_descent_iff (l : List Int) :
    has_descent l = false ↔ l.Pairwise (fun a b => a ≤ b) := by
  refine ⟨has_descent_false, ?_⟩
  intro h
  rw [← List.chain'_iff_pairwise] at h
  induction l with
  | nil => rfl
  | cons a l ih =>
    cases l with
    | nil => rfl
    | cons b l =>
      have h1 := List.chain'_cons.mp h
      simp only [has_descent, Bool.or_eq_false_iff, decide_eq_false_iff_not, gt_iff_lt,
        not_lt]
      exact ⟨h1.1, ih h1.2⟩

/-- The function `validate_ld_r2_csr` as a chain of tests, in the order of lines 159-200,
each test written as the condition it stands for. -/
theorem validate_chain (m : TagToSnpMapping) (r2_min : Flt) (s : LdMatrixCsr) :
    validate_ld_r2_csr m r2_min s =
      if ¬ s.combined_.csr_ld_snp_index_.length = m.num_snp + 1 then
        Outcome.runtime_error "csr_ld_snp_index_.size() != (num_snp_ + 1))"
      else if ¬ (∀ x ∈ s.combined_.csr_ld_snp_index_,
          0 ≤ x ∧ x ≤ (s.combined_.csr_ld_r2_.length : Int)) then
        Outcome.runtime_error
          "csr_ld_snp_index_[i] < 0 || csr_ld_snp_index_[i] > csr_ld_r2_.size()"
      else if ¬ s.combined_.csr_ld_snp_index_.Pairwise (fun a b => a ≤ b) then
        Outcome.runtime_error "csr_ld_snp_index_[i-1] > csr_ld_snp_index_[i]"
      else if ¬ s.combined_.csr_ld_snp_index_.getLast? =
          some (s.combined_.csr_ld_r2_.length : Int) then
        Outcome.runtime_error "csr_ld_snp_index_.back() != csr_ld_r2_.size()"
      else if ¬ s.combined_.csr_ld_tag_index_.length = s.combined_.csr_ld_r2_.length then
        Outcome.runtime_error "csr_ld_tag_index_.size() != csr_ld_r2_.size()"
      else if ¬ (∀ t ∈ s.combined_.csr_ld_tag_index_, 0 ≤ t ∧ t < (m.num_tag : Int)) then
        Outcome.runtime_error "csr_ld_tag_index_ < 0 || csr_ld_tag_index_ >= num_tag_"
      else if ¬ (∀ v ∈ s.combined_.csr_ld_r2_,
          Flt.lt v r2_min = false ∧ Flt.lt (Flt.fin 1) v = false) then
        Outcome.runtime_error "csr_ld_tag_index_ < 0 || csr_ld_tag_index_ >= num_tag_"
      else if ¬ (∀ v ∈ s.combined_.csr_ld_r2_, v.isfinite = true) then
        Outcome.runtime_error "!std::isfinite(csr_ld_r2_[i])"
      else if ¬ rows_distinct m s.combined_ then
        Outcome.runtime_error
          "csr_ld_tag_index_[r2_index] == csr_ld_tag_index_[r2_index + 1]"
      else check_rows m s.combined_ (List.range m.num_snp) := by
  have e2 : (s.combined_.csr_ld_snp_index_.any
      (fun x => decide (x < 0) || decide (x > (s.combined_.csr_ld_r2_.length : Int))) = true) ↔
      ¬ (∀ x ∈ s.combined_.csr_ld_snp_index_,
          0 ≤ x ∧ x ≤ (s.combined_.csr_ld_r2_.length : Int)) := by
    simp only [List.any_eq_true, Bool.or_eq_true, decide_eq_true_eq, not_forall]
    constructor
    · rintro ⟨x, hx, h⟩
      exact ⟨x, hx, by omega⟩
    · rintro ⟨x, hx, h⟩
      exact ⟨x, hx, by omega⟩
  have e3 : (has_descent s.combined_.csr_ld_snp_index_ = true) ↔
      ¬ s.combined_.csr_ld_snp_index_.Pairwise (fun a b => a ≤ b) := by
    rw [← has_descent_iff]
    simp
  have e6 : (s.combined_.csr_ld_tag_index_.any
      (fun t => decide (t < 0) || decide (t ≥ (m.num_tag : Int))) = true) ↔
      ¬ (∀ t ∈ s.combined_.csr_ld_tag_index_, 0 ≤ t ∧ t < (m.num_tag : Int)) := by
    simp only [List.any_eq_true, Bool.or_eq_true, decide_eq_true_eq, not_forall]
    constructor
    · rintro ⟨x, hx, h⟩
      exact ⟨x, hx, by omega⟩
    · rintro ⟨x, hx, h⟩
      exact ⟨x, hx, by omega⟩
  have e7 : (s.combined_.csr_ld_r2_.any
      (fun v => Flt.lt v r2_min || Flt.lt (Flt.fin 1) v) = true) ↔
      ¬ (∀ v ∈ s.combined_.csr_ld_r2_,
          Flt.lt v r2_min = false ∧ Flt.lt (Flt.fin 1) v = false) := by
    simp only [List.any_eq_true, Bool.or_eq_true, not_forall]
    constructor
    · rintro ⟨x, hx, h⟩
      refine ⟨x, hx, ?_⟩
      rintro ⟨h1, h2⟩
      rw [h1, h2] at h
      simp at h
    · rintro ⟨x, hx, h⟩
      refine ⟨x, hx, ?_⟩
      by_contra hc
      simp only [not_or, Bool.not_eq_true] at hc
      exact h hc
  have e8 : (s.combined_.csr_ld_r2_.any (fun v => !v.isfinite) = true) ↔
      ¬ (∀ v ∈ s.combined_.csr_ld_r2_, v.isfinite = true) := by
    simp [List.any_eq_true]
  have e9 : ((List.range m.num_snp).any
      (fun i => has_adjacent_duplicate (s.combined_.row i)) = true) ↔
      ¬ rows_distinct m s.combined_ := by
    simp [List.any_eq_true, rows_distinct]
  unfold validate_ld_r2_csr
  simp only [ne_eq, e2, e3, e6, e7, e8, e9]

end LdMatrixCsr

/-! ### The loop over the rows: symmetry first, then the diagonal -/

namespace LdMatrixCsrChunk

/-- An entry of a row is made of a stored tag index and a stored r². -/
theorem mem_row {c : LdMatrixCsrChunk} {i : Nat} {e : Int × Flt} (h : e ∈ c.row i) :
    e.1 ∈ c.csr_ld_tag_index_ ∧ e.2 ∈ c.csr_ld_r2_ := by
  unfold row at h
  have h1 := List.mem_of_mem_drop (List.mem_of_mem_take h)
  exact List.of_mem_zip h1

end LdMatrixCsrChunk

namespace LdMatrixCsr

/-- On CSR arrays that pass checks 1 and 2 a lookup with a snp index in `[0, num_snp)`
reads within the bounds. -/
theorem lookup_defined {m : TagToSnpMapping} {c : LdMatrixCsrChunk}
    (h1 : row_start_valid m c) (h2 : columns_valid m c) {snp : Int} (h0 : 0 ≤ snp)
    (hs : snp < m.num_snp) (t : Int) : ∃ v, c.find_and_retrieve_ld_r2 snp t = some v := by
  obtain ⟨hlen, hrange, hmono, -⟩ := h1
  obtain ⟨j, rfl⟩ := Int.eq_ofNat_of_zero_le h0
  have hj : j < m.num_snp := by omega
  have hj0 : j < c.csr_ld_snp_index_.length := by omega
  have hj1 : j + 1 < c.csr_ld_snp_index_.length := by omega
  have ha := hrange _ (List.getElem_mem hj0)
  have hb := hrange _ (List.getElem_mem hj1)
  have hab : c.csr_ld_snp_index_[j] ≤ c.csr_ld_snp_index_[j + 1] :=
    List.pairwise_iff_getElem.mp hmono j (j + 1) hj0 hj1 (by omega)
  obtain ⟨a, ha2⟩ := Int.eq_ofNat_of_zero_le ha.1
  obtain ⟨b, hb2⟩ := Int.eq_ofNat_of_zero_le hb.1
  refine ⟨_, find_and_retrieve_row c j t a b ?_ ?_ ?_ ?_ h2.1⟩
  · rw [List.getElem?_eq_getElem hj0, ha2]
  · rw [List.getElem?_eq_getElem hj1, hb2]
  · omega
  · rw [h2.1]; omega

/-- With every lookup within the bounds, the symmetry loop returns normally exactly when
every entry is symmetric, and throws one of its two errors otherwise. -/
theorem check_symmetry_spec (m : TagToSnpMapping) (c : LdMatrixCsrChunk) (ts : Int)
    (r : List (Int × Flt))
    (hdef : ∀ e ∈ r, ∃ snp v, vec_at m.tag_to_snp e.1 = some snp ∧
      c.find_and_retrieve_ld_r2 snp ts = some v) :
    ((∀ e ∈ r, symmetric_entry m c ts e = true) →
      check_symmetry m c ts r = Outcome.ok) ∧
    ((∃ e ∈ r, symmetric_entry m c ts e = false) →
      check_symmetry m c ts r = Outcome.runtime_error "!std::isfinite(r2symm)" ∨
      check_symmetry m c ts r = Outcome.runtime_error "r2symm != r2") := by
  induction r with
  | nil =>
    refine ⟨fun _ => rfl, ?_⟩
    rintro ⟨e, he, -⟩
    simp at he
  | cons e rest ih =>
    obtain ⟨snp, v, hsnp, hv⟩ := hdef e (List.mem_cons_self _ _)
    have ih2 := ih (fun x hx => hdef x (List.mem_cons_of_mem _ hx))
    have hse : symmetric_entry m c ts e = (v.isfinite && !Flt.ne v e.2) := by
      simp only [symmetric_entry, hsnp, hv]
    have hcs : check_symmetry m c ts (e :: rest) =
        if (!v.isfinite) = true then Outcome.runtime_error "!std::isfinite(r2symm)"
        else if Flt.ne v e.2 = true then Outcome.runtime_error "r2symm != r2"
        else check_symmetry m c ts rest := by
      rw [check_symmetry]
      simp only [hsnp, hv]
    by_cases hf : v.isfinite = true
    · by_cases hn : Flt.ne v e.2 = true
      · have hcs1 : check_symmetry m c ts (e :: rest) =
            Outcome.runtime_error "r2symm != r2" := by
          rw [hcs, hf, if_neg (by simp), if_pos hn]
        rw [hcs1]
        refine ⟨?_, fun _ => Or.inr rfl⟩
        intro hall
        have := hall e (List.mem_cons_self _ _)
        rw [hse, hf, hn] at this
        simp at this
      · have hcs1 : check_symmetry m c ts (e :: rest) = check_symmetry m c ts rest := by
          rw [hcs, hf, if_neg (by simp), if_neg hn]
        rw [hcs1]
        refine ⟨fun hall => ih2.1 (fun x hx => hall x (List.mem_cons_of_mem _ hx)), ?_⟩
        rintro ⟨x, hx, hxs⟩
        rcases List.mem_cons.mp hx with rfl | hx
        · rw [hse, hf] at hxs
          simp only [Bool.true_and, Bool.not_eq_false'] at hxs
          exact absurd hxs hn
        · exact ih2.2 ⟨x, hx, hxs⟩
    · have hf1 : v.isfinite = false := by simpa using hf
      have hcs1 : check_symmetry m c ts (e :: rest) =
          Outcome.runtime_error "!std::isfinite(r2symm)" := by
        rw [hcs, hf1, if_pos (by simp)]
      rw [hcs1]
      refine ⟨?_, fun _ => Or.inl rfl⟩
      intro hall
      have := hall e (List.mem_cons_self _ _)
      rw [hse, hf1] at this
      simp at this

theorem check_rows_cons (m : TagToSnpMapping) (c : LdMatrixCsrChunk) (i : Nat)
    (rest : List Nat) :
    check_rows m c (i :: rest) =
      match check_row m c i with
      | Outcome.ok => check_rows m c rest
      | e => e := rfl

/-- The loop over the rows skips a first part whose rows all pass. -/
theorem check_rows_append (m : TagToSnpMapping) (c : LdMatrixCsrChunk) (l l1 : List Nat)
    (h : ∀ i ∈ l, check_row m c i = Outcome.ok) :
    check_rows m c (l ++ l1) = check_rows m c l1 := by
  induction l with
  | nil => rfl
  | cons i rest ih =>
    rw [List.cons_append, check_rows_cons, h i (List.mem_cons_self _ _)]
    exact ih (fun j hj => h j (List.mem_cons_of_mem _ hj))

theorem check_rows_all_ok (m : TagToSnpMapping) (c : LdMatrixCsrChunk) (l : List Nat)
    (h : ∀ i ∈ l, check_row m c i = Outcome.ok) : check_rows m c l = Outcome.ok := by
  have := check_rows_append m c l [] h
  rw [List.append_nil] at this
  rw [this]
  rfl

/-- The loop over the rows ends with the error of the first row that does not pass. -/
theorem check_rows_first (m : TagToSnpMapping) (c : LdMatrixCsrChunk) (n i : Nat)
    (hi : i < n) (hprev : ∀ j, j < i → check_row m c j = Outcome.ok) (w : String)
    (h : check_row m c i = Outcome.runtime_error w) :
    check_rows m c (List.range n) = Outcome.runtime_error w := by
  have hn : n = i + ((n - i - 1) + 1) := by omega
  rw [hn, List.range_add, List.range_succ_eq_map, List.map_cons]
  rw [check_rows_append m c _ _ (fun j hj => hprev j (List.mem_range.mp hj))]
  rw [check_rows_cons]
  simp only [Nat.add_zero]
  rw [h]

/-- What the loop body of lines 182-200 does with the row of the snp `i`, on CSR arrays
that pass checks 1 and 2. -/
theorem check_row_spec {m : TagToSnpMapping} (hw : m.WellFormed) {c : LdMatrixCsrChunk}
    (h1 : row_start_valid m c) (h2 : columns_valid m c) {i : Nat} (hi : i < m.num_snp) :
    (row_passes m c i → check_row m c i = Outcome.ok) ∧
    (m.isTag i = true → (∃ e ∈ c.row i, symmetric_entry m c (m.tagOf i) e = false) →
      check_row m c i = Outcome.runtime_error "!std::isfinite(r2symm)" ∨
      check_row m c i = Outcome.runtime_error "r2symm != r2") ∧
    (m.isTag i = true → (∀ e ∈ c.row i, symmetric_entry m c (m.tagOf i) e = true) →
      has_diagonal m c i = false →
      check_row m c i = Outcome.runtime_error "!ld_r2_contains_diagonal") := by
  have hi0 : (0 : Int) ≤ (i : Int) := by omega
  have hi1 : (i : Int) < m.num_snp := by omega
  have htag := TagToSnpMapping.is_tag_at hw hi0 hi1
  have hts := TagToSnpMapping.snp_to_tag_at hw hi0 hi1
  have hdef : ∀ e ∈ c.row i, ∃ snp v, vec_at m.tag_to_snp e.1 = some snp ∧
      c.find_and_retrieve_ld_r2 snp (m.tagOf i) = some v := by
    intro e he
    have ht := h2.2 _ (LdMatrixCsrChunk.mem_row he).1
    have hsnp := TagToSnpMapping.snpOf_spec hw ht.1 ht.2
    obtain ⟨v, hv⟩ := lookup_defined h1 h2 hsnp.1 hsnp.2.1 (m.tagOf i)
    exact ⟨_, v, TagToSnpMapping.tag_to_snp_at hw ht.1 ht.2, hv⟩
  have hsym := check_symmetry_spec m c (m.tagOf i) (c.row i) hdef
  have hrow : m.isTag i = true → check_row m c i =
      match check_symmetry m c (m.tagOf i) (c.row i) with
      | Outcome.ok =>
        if has_diagonal m c i = true then Outcome.ok
        else Outcome.runtime_error "!ld_r2_contains_diagonal"
      | e => e := by
    intro ht
    rw [ht] at htag
    unfold check_row
    simp only [htag, hts]
    rfl
  refine ⟨?_, ?_, ?_⟩
  · rintro (hnt | ⟨hall, hd⟩)
    · rw [hnt] at htag
      unfold check_row
      simp only [htag]
    · by_cases ht : m.isTag i = true
      · rw [hrow ht, hsym.1 hall]
        simp only [hd, if_true]
      · have hnt : m.isTag i = false := by simpa using ht
        rw [hnt] at htag
        unfold check_row
        simp only [htag]
  · intro ht hex
    rw [hrow ht]
    rcases hsym.2 hex with h | h <;> rw [h]
    · exact Or.inl rfl
    · exact Or.inr rfl
  · intro ht hall hd
    rw [hrow ht, hsym.1 hall]
    simp only [hd, Bool.false_eq_true, if_false]

/-- For a well-formed mapping and CSR arrays that pass checks 1 and 2, the loop body of
lines 182-200 reads within the bounds. -/
theorem check_row_defined {m : TagToSnpMapping} (hw : m.WellFormed) {c : LdMatrixCsrChunk}
    (h1 : row_start_valid m c) (h2 : columns_valid m c) {i : Nat} (hi : i < m.num_snp) :
    check_row m c i ≠ Outcome.undefined := by
  have hspec := check_row_spec hw h1 h2 hi
  by_cases hp : row_passes m c i
  · rw [hspec.1 hp]
    simp
  · unfold row_passes at hp
    simp only [not_or, Bool.not_eq_false, not_and] at hp
    by_cases hall : ∀ e ∈ c.row i, symmetric_entry m c (m.tagOf i) e = true
    · have hd : has_diagonal m c i = false := by simpa using hp.2 hall
      rw [hspec.2.2 hp.1 hall hd]
      simp
    · simp only [not_forall, Bool.not_eq_true] at hall
      obtain ⟨e, he, hes⟩ := hall
      rcases hspec.2.1 hp.1 ⟨e, he, hes⟩ with h | h <;> rw [h] <;> simp

theorem check_rows_defined {m : TagToSnpMapping} (hw : m.WellFormed) {c : LdMatrixCsrChunk}
    (h1 : row_start_valid m c) (h2 : columns_valid m c) (l : List Nat)
    (hl : ∀ i ∈ l, i < m.num_snp) : check_rows m c l ≠ Outcome.undefined := by
  induction l with
  | nil => simp [check_rows]
  | cons i rest ih =>
    rw [check_rows_cons]
    have hi := check_row_defined hw h1 h2 (hl i (List.mem_cons_self _ _))
    cases hrow : check_row m c i with
    | ok => exact ih (fun j hj => hl j (List.mem_cons_of_mem _ hj))
    | runtime_error w => simp
    | undefined => exact absurd hrow hi

/-- For a well-formed mapping the validation reads within the bounds: it returns or it
throws. -/
theorem validate_defined {m : TagToSnpMapping} (hw : m.WellFormed) (r2_min : Flt)
    (s : LdMatrixCsr) : validate_ld_r2_csr m r2_min s ≠ Outcome.undefined := by
  rw [validate_chain]
  split_ifs with a1 a2 a3 a4 a5 a6 a7 a8 a9
  all_goals try simp
  exact check_rows_defined hw ⟨a1, a2, a3, a4⟩ ⟨a5, a6⟩ _ (fun i hi => List.mem_range.mp hi)

end LdMatrixCsr

/-! ### C14: the order of the triplets does not matter -/

namespace LdMatrixCsr

/-- The validation reads the chunk `combined_` only. -/
theorem validate_congr (m : TagToSnpMapping) (r2_min : Flt) {s s1 : LdMatrixCsr}
    (h : s.combined_ = s1.combined_) :
    validate_ld_r2_csr m r2_min s = validate_ld_r2_csr m r2_min s1 := by
  unfold validate_ld_r2_csr
  simp only [h]

/-- A record that an accepted triplet gives has the snp index of one endpoint and the r²
of the triplet. -/
theorem mem_coo_records {m : TagToSnpMapping} {r2_min : Flt} {t : Int × Int × Flt}
    {e : CooEntry} (h : e ∈ coo_records m r2_min t) :
    (e.1 = t.1 ∨ e.1 = t.2.1) ∧ e.2.2 = t.2.2 := by
  unfold coo_records at h
  split at h
  · simp at h
  · rcases List.mem_append.mp h with h1 | h1
    · split at h1
      · simp only [List.mem_singleton] at h1
        subst h1
        exact ⟨Or.inl rfl, rfl⟩
      · simp at h1
    · split at h1
      · simp only [List.mem_singleton] at h1
        subst h1
        exact ⟨Or.inr rfl, rfl⟩
      · simp at h1

/-- Sorting gives the same list for two lists with the same records, when no r² is NaN. -/
theorem sort_coo_perm_eq {l l1 : List CooEntry} (hl : ∀ e ∈ l, e.2.2 ≠ Flt.nan)
    (hp : l1.Perm l) : sort_coo l1 = sort_coo l :=
  sort_coo_unique l (sort_coo l1) hl ((sort_coo_perm l1).trans hp)
    (sort_coo_sorted l1 (fun e he => hl e (hp.subset he)))

/-- Ingesting accepted batches into a fresh object returns normally; the COO list is made
of the records of the triplets, in the order of the triplets, and nothing else is in the
chunk. -/
theorem ingest_batches {m : TagToSnpMapping} (hw : m.WellFormed) (hm : m.mafvec ≠ [])
    (r2_min : Flt) (batches : List (List (Int × Int × Flt)))
    (hacc : ∀ b ∈ batches, ∀ e ∈ b, 0 ≤ e.1 ∧ e.1 < m.num_snp ∧ 0 ≤ e.2.1 ∧
      e.2.1 < m.num_snp ∧ e.1 ≠ e.2.1 ∧ e.2.2.isfinite = true) :
    ∃ s1, Step.forEach (fun b => set_ld_r2_coo m b r2_min) batches LdMatrixCsr.empty =
        (s1, Outcome.ok) ∧
      s1.combined_ = { LdMatrixCsrChunk.empty with
        coo_ld_ := batches.flatten.flatMap (coo_records m r2_min) } ∧
      (s1.combined_.coo_ld_ = [] ∨ Good m s1) := by
  cases batches with
  | nil => exact ⟨LdMatrixCsr.empty, rfl, rfl, Or.inl rfl⟩
  | cons b bs =>
    have hgood : Good m (alloc_tag_sums m LdMatrixCsr.empty).1 :=
      good_alloc (inv_empty m) rfl
    obtain ⟨s1, hs1, hadds1⟩ := runs_forEach (b :: bs)
      (fun b hb s h => runs_set_ld_r2_coo hw hm r2_min b (hacc b hb) s h) _ hgood
    refine ⟨s1, ?_, ?_, Or.inr hadds1.1⟩
    · rw [forEach_cons] at hs1 ⊢
      unfold Step.seq at hs1 ⊢
      rw [set_ld_r2_coo_alloc hm b r2_min (s := LdMatrixCsr.empty) rfl]
      exact hs1
    · rw [hadds1.2.2.1, flatMap_flatten]
      simp [alloc_tag_sums, LdMatrixCsr.empty, LdMatrixCsrChunk.empty]

/-- Two objects in their ingestion phase whose COO lists hold the same records, in
whatever order, are finalized alike: the same outcome (a return or a thrown error) and
the same chunk. -/
theorem set_ld_r2_csr_perm {m : TagToSnpMapping} (hw : m.WellFormed) (hm : m.mafvec ≠ [])
    (r2_min : Flt) {s s1 : LdMatrixCsr} {l l1 : List CooEntry}
    (hs : s.combined_ = { LdMatrixCsrChunk.empty with coo_ld_ := l })
    (hs1 : s1.combined_ = { LdMatrixCsrChunk.empty with coo_ld_ := l1 })
    (hg : l = [] ∨ Good m s) (hg1 : l1 = [] ∨ Good m s1) (hp : l1.Perm l)
    (hl : ∀ e ∈ l, 0 ≤ e.1 ∧ e.1 < m.num_snp ∧ e.2.2 ≠ Flt.nan) :
    (set_ld_r2_csr m r2_min s).2 ≠ Outcome.undefined ∧
    (set_ld_r2_csr m r2_min s).2 = (set_ld_r2_csr m r2_min s1).2 ∧
    (set_ld_r2_csr m r2_min s).1.combined_ = (set_ld_r2_csr m r2_min s1).1.combined_ := by
  by_cases hnil : l = []
  · subst hnil
    have hnil1 : l1 = [] := List.Perm.eq_nil hp
    subst hnil1
    rw [set_ld_r2_csr_empty m r2_min (by rw [hs]), set_ld_r2_csr_empty m r2_min (by rw [hs1])]
    exact ⟨by simp, rfl, by rw [hs, hs1]⟩
  · have hnil1 : l1 ≠ [] := fun h => hnil (by rw [h] at hp; exact List.Perm.nil_eq hp |>.symm)
    have hgs : Good m s := hg.resolve_left hnil
    have hgs1 : Good m s1 := hg1.resolve_left hnil1
    have hdiag : ∀ e ∈ diag_entries m, e.2.2 ≠ Flt.nan := by
      intro e he
      obtain ⟨t, -, rfl, -⟩ := mem_diag_entries hw he
      simp
    have hsort : sort_coo (l1 ++ diag_entries m) = sort_coo (l ++ diag_entries m) := by
      apply sort_coo_perm_eq
      · intro e he
        rcases List.mem_append.mp he with h1 | h1
        · exact (hl e h1).2.2
        · exact hdiag e h1
      · exact hp.append_right _
    obtain ⟨sb, hb, hcomb, -⟩ := build_csr_spec hw hm hgs
      (by rw [hs]; exact ⟨rfl, rfl⟩) (by rw [hs]; exact hnil)
      (by rw [hs]; exact fun e he => ⟨(hl e he).1, (hl e he).2.1⟩)
    obtain ⟨sb1, hb1, hcomb1, -⟩ := build_csr_spec hw hm hgs1
      (by rw [hs1]; exact ⟨rfl, rfl⟩) (by rw [hs1]; exact hnil1)
      (by rw [hs1]; exact fun e he =>
        ⟨(hl e (hp.subset he)).1, (hl e (hp.subset he)).2.1⟩)
    have heq : (release_coo sb).1.combined_ = (release_coo sb1).1.combined_ := by
      simp only [release_coo, hcomb, hcomb1, hs, hs1, hsort]
    rw [set_ld_r2_csr_of_build r2_min hb, set_ld_r2_csr_of_build r2_min hb1]
    exact ⟨validate_defined hw r2_min _, validate_congr m r2_min heq, heq⟩

end LdMatrixCsr

/-- C14: for a well-formed mapping with its MAF vector set, two sequences of accepted
batches whose triplets are permutations of each other (however they are split into
`set_ld_r2_coo` calls), ingested into fresh objects with the same `r2_min`, are finalized
alike: `set_ld_r2_csr` reads within the bounds and ends in the same way for both (both
return normally, or both throw the same error), with identical row starts, tag indices
and r² values. -/
theorem C14_insertion_order_irrelevant (m : TagToSnpMapping) (hw : m.WellFormed)
    (hm : m.mafvec ≠ []) (r2_min r2_fin : Flt)
    (batches batches1 : List (List (Int × Int × Flt)))
    (hp : batches1.flatten.Perm batches.flatten)
    (hacc : ∀ e ∈ batches.flatten, 0 ≤ e.1 ∧ e.1 < m.num_snp ∧ 0 ≤ e.2.1 ∧
      e.2.1 < m.num_snp ∧ e.1 ≠ e.2.1 ∧ e.2.2.isfinite = true) :
    ∃ s s1,
      Step.forEach (fun b => LdMatrixCsr.set_ld_r2_coo m b r2_min) batches
        LdMatrixCsr.empty = (s, Outcome.ok) ∧
      Step.forEach (fun b => LdMatrixCsr.set_ld_r2_coo m b r2_min) batches1
        LdMatrixCsr.empty = (s1, Outcome.ok) ∧
      (LdMatrixCsr.set_ld_r2_csr m r2_fin s).2 ≠ Outcome.undefined ∧
      (LdMatrixCsr.set_ld_r2_csr m r2_fin s).2 = (LdMatrixCsr.set_ld_r2_csr m r2_fin s1).2 ∧
      (LdMatrixCsr.set_ld_r2_csr m r2_fin s).1.combined_.csr_ld_snp_index_ =
        (LdMatrixCsr.set_ld_r2_csr m r2_fin s1).1.combined_.csr_ld_snp_index_ ∧
      (LdMatrixCsr.set_ld_r2_csr m r2_fin s).1.combined_.csr_ld_tag_index_ =
        (LdMatrixCsr.set_ld_r2_csr m r2_fin s1).1.combined_.csr_ld_tag_index_ ∧
      (LdMatrixCsr.set_ld_r2_csr m r2_fin s).1.combined_.csr_ld_r2_ =
        (LdMatrixCsr.set_ld_r2_csr m r2_fin s1).1.combined_.csr_ld_r2_ := by
  have hacc0 : ∀ b ∈ batches, ∀ e ∈ b, 0 ≤ e.1 ∧ e.1 < m.num_snp ∧ 0 ≤ e.2.1 ∧
      e.2.1 < m.num_snp ∧ e.1 ≠ e.2.1 ∧ e.2.2.isfinite = true :=
    fun b hb e he => hacc e (List.mem_flatten.mpr ⟨b, hb, he⟩)
  have hacc1 : ∀ b ∈ batches1, ∀ e ∈ b, 0 ≤ e.1 ∧ e.1 < m.num_snp ∧ 0 ≤ e.2.1 ∧
      e.2.1 < m.num_snp ∧ e.1 ≠ e.2.1 ∧ e.2.2.isfinite = true :=
    fun b hb e he => hacc e (hp.subset (List.mem_flatten.mpr ⟨b, hb, he⟩))
  obtain ⟨s, hs, hcomb, hg⟩ := LdMatrixCsr.ingest_batches hw hm r2_min batches hacc0
  obtain ⟨s1, hs1, hcomb1, hg1⟩ := LdMatrixCsr.ingest_batches hw hm r2_min batches1 hacc1
  have hrec : ∀ e ∈ batches.flatten.flatMap (LdMatrixCsr.coo_records m r2_min),
      0 ≤ e.1 ∧ e.1 < m.num_snp ∧ e.2.2 ≠ Flt.nan := by
    intro e he
    obtain ⟨t, ht, het⟩ := List.mem_flatMap.mp he
    obtain ⟨h1, h2⟩ := LdMatrixCsr.mem_coo_records het
    have ha := hacc t ht
    have hfin : e.2.2 ≠ Flt.nan := by
      intro hn
      rw [h2] at hn
      rw [hn] at ha
      simp [Flt.isfinite] at ha
    rcases h1 with h1 | h1 <;> rw [h1] <;> refine ⟨?_, ?_, hfin⟩ <;> omega
  have hfin := LdMatrixCsr.set_ld_r2_csr_perm hw hm r2_fin hcomb hcomb1
    (by rw [hcomb] at hg; exact hg) (by rw [hcomb1] at hg1; exact hg1)
    (hp.flatMap_right _) hrec
  exact ⟨s, s1, hs, hs1, hfin.1, hfin.2.1, by rw [hfin.2.2], by rw [hfin.2.2],
    by rw [hfin.2.2]⟩

theorem C14_insertion_order_irrelevant_witness :
    Scenario.mapping.WellFormed ∧ Scenario.mapping.mafvec ≠ [] ∧
    ([[((2 : Int), (1 : Int), Flt.fin (3 / 10)), (0, 2, Flt.fin (1 / 2))]] :
        List (List (Int × Int × Flt))).flatten.Perm
      ([[((0 : Int), (2 : Int), Flt.fin (1 / 2))], [(2, 1, Flt.fin (3 / 10))]] :
        List (List (Int × Int × Flt))).flatten ∧
    ∃ s s1,
      Step.forEach (fun b => LdMatrixCsr.set_ld_r2_coo Scenario.mapping b (Flt.fin (1 / 10)))
        [[(0, 2, Flt.fin (1 / 2))], [(2, 1, Flt.fin (3 / 10))]] LdMatrixCsr.empty =
          (s, Outcome.ok) ∧
      Step.forEach (fun b => LdMatrixCsr.set_ld_r2_coo Scenario.mapping b (Flt.fin (1 / 10)))
        [[(2, 1, Flt.fin (3 / 10)), (0, 2, Flt.fin (1 / 2))]] LdMatrixCsr.empty =
          (s1, Outcome.ok) ∧
      (LdMatrixCsr.set_ld_r2_csr Scenario.mapping (Flt.fin (1 / 10)) s).2 ≠
        Outcome.undefined ∧
      (LdMatrixCsr.set_ld_r2_csr Scenario.mapping (Flt.fin (1 / 10)) s).2 =
        (LdMatrixCsr.set_ld_r2_csr Scenario.mapping (Flt.fin (1 / 10)) s1).2 ∧
      (LdMatrixCsr.set_ld_r2_csr Scenario.mapping (Flt.fin (1 / 10))
          s).1.combined_.csr_ld_snp_index_ =
        (LdMatrixCsr.set_ld_r2_csr Scenario.mapping (Flt.fin (1 / 10))
          s1).1.combined_.csr_ld_snp_index_ ∧
      (LdMatrixCsr.set_ld_r2_csr Scenario.mapping (Flt.fin (1 / 10))
          s).1.combined_.csr_ld_tag_index_ =
        (LdMatrixCsr.set_ld_r2_csr Scenario.mapping (Flt.fin (1 / 10))
          s1).1.combined_.csr_ld_tag_index_ ∧
      (LdMatrixCsr.set_ld_r2_csr Scenario.mapping (Flt.fin (1 / 10))
          s).1.combined_.csr_ld_r2_ =
        (LdMatrixCsr.set_ld_r2_csr Scenario.mapping (Flt.fin (1 / 10))
          s1).1.combined_.csr_ld_r2_ :=
  ⟨Scenario.mapping_wf, by decide, List.Perm.swap _ _ _,
    C14_insertion_order_irrelevant Scenario.mapping Scenario.mapping_wf (by decide)
      (Flt.fin (1 / 10)) (Flt.fin (1 / 10))
      [[(0, 2, Flt.fin (1 / 2))], [(2, 1, Flt.fin (3 / 10))]]
      [[(2, 1, Flt.fin (3 / 10)), (0, 2, Flt.fin (1 / 2))]] (List.Perm.swap _ _ _)
      (by decide!)⟩

/-! ### C15: the worked scenario; `snp_to_tag` is read at tag variants only -/

namespace LdMatrixCsr

theorem store_if_tag_snp_to_tag (m : TagToSnpMapping) (l : List Int)
    (hag : ∀ i, vec_at m.is_tag i = some true → vec_at l i = vec_at m.snp_to_tag i)
    (adjust : Bool) (c x : Int) (v : Option Flt) :
    store_if_tag { m with snp_to_tag := l } adjust c x v = store_if_tag m adjust c x v := by
  funext s
  unfold store_if_tag
  simp only
  cases h : vec_at m.is_tag x with
  | none => rfl
  | some b =>
    cases b with
    | false => rfl
    | true => simp only [hag x h]

theorem push_if_causal_snp_to_tag (m : TagToSnpMapping) (l : List Int)
    (hag : ∀ i, vec_at m.is_tag i = some true → vec_at l i = vec_at m.snp_to_tag i)
    (x y : Int) (r2 : Flt) :
    push_if_causal { m with snp_to_tag := l } x y r2 = push_if_causal m x y r2 := by
  funext s
  unfold push_if_causal
  simp only
  cases vec_at m.snp_can_be_causal x with
  | none => rfl
  | some c =>
    cases c with
    | false => rfl
    | true =>
      cases h : vec_at m.is_tag y with
      | none => rfl
      | some b =>
        cases b with
        | false => rfl
        | true => simp only [hag y h]

/-- Ingestion reads `snp_to_tag` at tag variants only. -/
theorem set_ld_r2_coo_snp_to_tag (m : TagToSnpMapping) (l : List Int)
    (hag : ∀ i, vec_at m.is_tag i = some true → vec_at l i = vec_at m.snp_to_tag i)
    (batch : List (Int × Int × Flt)) (r2_min : Flt) :
    set_ld_r2_coo { m with snp_to_tag := l } batch r2_min = set_ld_r2_coo m batch r2_min := by
  have hbody : coo_loop_body { m with snp_to_tag := l } r2_min (find_hvec m) =
      coo_loop_body m r2_min (find_hvec m) := by
    funext e
    unfold coo_loop_body
    simp only [store_if_tag_snp_to_tag m l hag, push_if_causal_snp_to_tag m l hag]
    rfl
  unfold set_ld_r2_coo
  have hh : find_hvec { m with snp_to_tag := l } = find_hvec m := rfl
  rw [hh, hbody]
  rfl

theorem check_row_snp_to_tag (m : TagToSnpMapping) (l : List Int)
    (hag : ∀ i, vec_at m.is_tag i = some true → vec_at l i = vec_at m.snp_to_tag i)
    (c : LdMatrixCsrChunk) (i : Nat) :
    check_row { m with snp_to_tag := l } c i = check_row m c i := by
  have hsym : ∀ (t : Int) (r : List (Int × Flt)),
      check_symmetry { m with snp_to_tag := l } c t r = check_symmetry m c t r := by
    intro t r
    induction r with
    | nil => rfl
    | cons e rest ih =>
      unfold check_symmetry
      simp only [ih]
  unfold check_row
  simp only
  cases h : vec_at m.is_tag (i : Int) with
  | none => rfl
  | some b =>
    cases b with
    | false => rfl
    | true => simp only [hag _ h, hsym]

/-- Finalization reads `snp_to_tag` at tag variants only, and its length. -/
theorem set_ld_r2_csr_snp_to_tag (m : TagToSnpMapping) (l : List Int)
    (hlen : l.length = m.snp_to_tag.length)
    (hag : ∀ i, vec_at m.is_tag i = some true → vec_at l i = vec_at m.snp_to_tag i)
    (r2_min : Flt) :
    set_ld_r2_csr { m with snp_to_tag := l } r2_min = set_ld_r2_csr m r2_min := by
  have hcompact : compact { m with snp_to_tag := l } = compact m := by
    funext s
    unfold compact
    simp only [hlen]
  have hrows : ∀ (c : LdMatrixCsrChunk) (is : List Nat),
      check_rows { m with snp_to_tag := l } c is = check_rows m c is := by
    intro c is
    induction is with
    | nil => rfl
    | cons i rest ih =>
      unfold check_rows
      simp only [check_row_snp_to_tag m l hag, ih]
  have hval : validate_ld_r2_csr { m with snp_to_tag := l } r2_min =
      validate_ld_r2_csr m r2_min := by
    funext s
    unfold validate_ld_r2_csr
    simp only [hrows]
  have hbuild : build_csr { m with snp_to_tag := l } = build_csr m := by
    unfold build_csr
    rw [hcompact]
    rfl
  unfold set_ld_r2_csr
  rw [hbuild, hval]

end LdMatrixCsr

namespace Scenario

/-- The scenario mapping differs from the one with `snp_to_tag[1] = -1` in an entry that
belongs to no tag variant. -/
theorem mapping_with_agrees (x : Int) (c1 : Bool) (i : Int)
    (h : vec_at (mapping_with (-1) c1).is_tag i = some true) :
    vec_at [0, x, 1] i = vec_at (mapping_with (-1) c1).snp_to_tag i := by
  unfold vec_at at h ⊢
  simp only [mapping_with] at h ⊢
  split
  · rfl
  · rename_i hi
    rw [if_neg hi] at h
    rcases hn : i.toNat with _ | _ | _ | n
    · rfl
    · rw [hn] at h
      simp at h
    · rfl
    · rfl

end Scenario

/-- C15: in the scenario of spec §8 (three snps with MAF 0.1, 0.2, 0.3; snp 0 and snp 2
are the tag variants 0 and 1 and are causal-eligible; whatever `snp_to_tag` holds for
snp 1 and whether or not snp 1 is causal-eligible), ingesting the triplet (0, 2, 0.5)
with `r2_min = 0.1` into a fresh object returns normally with the COO list
[(0, 1, 0.5), (2, 0, 0.5)]; `set_ld_r2_csr(0.1)` then returns normally with the row
starts [0, 2, 2, 4], and the lookups give (0, 1) = 0.5, (2, 0) = 0.5, (0, 0) = 1.0 and
(2, 1) = 1.0. -/
theorem C15_worked_scenario (x : Int) (c1 : Bool) :
    ∃ s1 s2,
      LdMatrixCsr.set_ld_r2_coo (Scenario.mapping_with x c1) [(0, 2, Flt.fin (1 / 2))]
        (Flt.fin (1 / 10)) LdMatrixCsr.empty = (s1, Outcome.ok) ∧
      s1.combined_.coo_ld_ = [(0, 1, Flt.fin (1 / 2)), (2, 0, Flt.fin (1 / 2))] ∧
      LdMatrixCsr.set_ld_r2_csr (Scenario.mapping_with x c1) (Flt.fin (1 / 10)) s1 =
        (s2, Outcome.ok) ∧
      s2.combined_.csr_ld_snp_index_ = [0, 2, 2, 4] ∧
      s2.combined_.csr_ld_tag_index_ = [0, 1, 0, 1] ∧
      s2.combined_.csr_ld_r2_ = [Flt.fin 1, Flt.fin (1 / 2), Flt.fin (1 / 2), Flt.fin 1] ∧
      s2.combined_.find_and_retrieve_ld_r2 0 1 = some (Flt.fin (1 / 2)) ∧
      s2.combined_.find_and_retrieve_ld_r2 2 0 = some (Flt.fin (1 / 2)) ∧
      s2.combined_.find_and_retrieve_ld_r2 0 0 = some (Flt.fin 1) ∧
      s2.combined_.find_and_retrieve_ld_r2 2 1 = some (Flt.fin 1) := by
  have h1 := LdMatrixCsr.set_ld_r2_coo_snp_to_tag (Scenario.mapping_with (-1) c1) [0, x, 1]
    (Scenario.mapping_with_agrees x c1) [(0, 2, Flt.fin (1 / 2))] (Flt.fin (1 / 10))
  have h2 := LdMatrixCsr.set_ld_r2_csr_snp_to_tag (Scenario.mapping_with (-1) c1) [0, x, 1]
    rfl (Scenario.mapping_with_agrees x c1) (Flt.fin (1 / 10))
  have hm : ({ Scenario.mapping_with (-1) c1 with snp_to_tag := [0, x, 1] } :
      TagToSnpMapping) = Scenario.mapping_with x c1 := rfl
  rw [hm] at h1 h2
  rw [h1, h2]
  refine ⟨Scenario.ingested, Scenario.finalized, ?_⟩
  cases c1 <;> decide!

/-! ### C16: the diagonal check of the validator -/

namespace LdMatrixCsr

/-- The loop over the rows returns normally only when every row passes. -/
theorem check_rows_ok {m : TagToSnpMapping} {c : LdMatrixCsrChunk} (is : List Nat)
    (h : check_rows m c is = Outcome.ok) : ∀ i ∈ is, check_row m c i = Outcome.ok := by
  induction is with
  | nil => intro i hi; simp at hi
  | cons j rest ih =>
    intro i hi
    unfold check_rows at h
    cases hj : check_row m c j with
    | ok =>
      rw [hj] at h
      rcases List.mem_cons.mp hi with rfl | hi
      · exact hj
      · exact ih h i hi
    | runtime_error w => rw [hj] at h; simp at h
    | undefined => rw [hj] at h; simp at h

/-- A row of a tag variant that passes has an entry at the tag index of its snp. -/
theorem check_row_ok {m : TagToSnpMapping} {c : LdMatrixCsrChunk} {i : Nat} {ts : Int}
    (h : check_row m c i = Outcome.ok) (htag : vec_at m.is_tag i = some true)
    (hts : vec_at m.snp_to_tag i = some ts) :
    check_symmetry m c ts (c.row i) = Outcome.ok ∧ ∃ e ∈ c.row i, e.1 = ts := by
  unfold check_row at h
  simp only [htag, hts] at h
  cases hsym : check_symmetry m c ts (c.row i) with
  | ok =>
    rw [hsym] at h
    simp only at h
    split at h
    · rename_i hany
      obtain ⟨e, he, hte⟩ := List.any_eq_true.mp hany
      exact ⟨rfl, e, he, of_decide_eq_true hte⟩
    · simp at h
  | runtime_error w => rw [hsym] at h; simp at h
  | undefined => rw [hsym] at h; simp at h

end LdMatrixCsr

/-- C16, as stated, fails: for the mapping with one snp that is a tag variant, the
validator accepts the CSR arrays with the single entry (snp 0, tag index 0, r² = 0.7),
whose diagonal value is not 1.0. -/
theorem C16_counterexample :
    Scenario.mapping_single.WellFormed ∧
    LdMatrixCsr.validate_ld_r2_csr Scenario.mapping_single (Flt.fin (1 / 10))
      Scenario.diagonal_not_one = Outcome.ok ∧
    Scenario.mapping_single.tag_to_snp[0]? = some 0 ∧
    Scenario.diagonal_not_one.combined_.row 0 = [(0, Flt.fin (7 / 10))] ∧
    ¬ (∃ e ∈ Scenario.diagonal_not_one.combined_.row 0, e.1 = 0 ∧ e.2 = Flt.fin 1) := by
  decide!

/-- C16, amended: for a well-formed mapping, `validate_ld_r2_csr` returns normally only
if, for every tag variant `t`, the row of the snp `tag_to_snp[t]` contains an entry with
the tag index `t`.  The value of that entry is not compared with 1.0: like every stored
value it is finite, not below `r2_min` and not above 1.0. -/
theorem C16_validator_checks_diagonal_presence (m : TagToSnpMapping) (hw : m.WellFormed)
    (r2_min : Flt) (s : LdMatrixCsr)
    (h : LdMatrixCsr.validate_ld_r2_csr m r2_min s = Outcome.ok) (t : Nat)
    (ht : t < m.num_tag) :
    ∃ i : Nat, i < m.num_snp ∧ m.tag_to_snp[t]? = some (i : Int) ∧
      ∃ e ∈ s.combined_.row i, e.1 = (t : Int) ∧ e.2.isfinite = true ∧
        Flt.lt e.2 r2_min = false ∧ Flt.lt (Flt.fin 1) e.2 = false := by
  obtain ⟨-, -, -, -, -, -, h7, h8, -, hrows⟩ := LdMatrixCsr.validate_ok h
  obtain ⟨i, hi, hts, htag, hst⟩ := hw.2.2.2.2.2.1 t ht
  have hrow := LdMatrixCsr.check_rows_ok _ hrows i (List.mem_range.mpr hi)
  obtain ⟨-, e, he, het⟩ := LdMatrixCsr.check_row_ok hrow
    (by rw [vec_at_nat']; exact htag) (by rw [vec_at_nat']; exact hst)
  have hv := (LdMatrixCsrChunk.mem_row he).2
  exact ⟨i, hi, hts, e, he, het, h8 _ hv, (h7 _ hv).1, (h7 _ hv).2⟩

theorem C16_validator_checks_diagonal_presence_witness :
    Scenario.mapping.WellFormed ∧
    LdMatrixCsr.validate_ld_r2_csr Scenario.mapping (Flt.fin (1 / 10)) Scenario.finalized =
      Outcome.ok ∧
    ∃ i : Nat, i < Scenario.mapping.num_snp ∧
      Scenario.mapping.tag_to_snp[1]? = some (i : Int) ∧
      ∃ e ∈ Scenario.finalized.combined_.row i, e.1 = ((1 : Nat) : Int) ∧
        e.2.isfinite = true ∧ Flt.lt e.2 (Flt.fin (1 / 10)) = false ∧
        Flt.lt (Flt.fin 1) e.2 = false :=
  ⟨Scenario.mapping_wf, by decide!,
    C16_validator_checks_diagonal_presence Scenario.mapping Scenario.mapping_wf
      (Flt.fin (1 / 10)) Scenario.finalized (by decide!) 1 (by decide)⟩

/-! ### C17: the messages of the validator -/

/-- C17: the code at the failing input.  In the scenario of spec §8 finalized with
`r2_min = 0.6`, every stored tag index lies in `[0, num_tag)` and the first violated check
is the range of the stored r² (0.5 is below 0.6); for the CSR arrays of
`Scenario.tag_out_of_range` the first violated check is the range of the tag indices.
`validate_ld_r2_csr` throws the same message for both: the one that names the tag
indices (line 167 repeats the message of line 164). -/
theorem C17_r2_range_reports_tag_index_message :
    LdMatrixCsr.set_ld_r2_csr Scenario.mapping (Flt.fin (6 / 10)) Scenario.ingested =
      (Scenario.rejected, Outcome.runtime_error
        "csr_ld_tag_index_ < 0 || csr_ld_tag_index_ >= num_tag_") ∧
    (∀ t ∈ Scenario.rejected.combined_.csr_ld_tag_index_,
      0 ≤ t ∧ t < (Scenario.mapping.num_tag : Int)) ∧
    (∃ v ∈ Scenario.rejected.combined_.csr_ld_r2_, Flt.lt v (Flt.fin (6 / 10)) = true) ∧
    LdMatrixCsr.validate_ld_r2_csr Scenario.mapping (Flt.fin (6 / 10)) Scenario.rejected =
      Outcome.runtime_error "csr_ld_tag_index_ < 0 || csr_ld_tag_index_ >= num_tag_" ∧
    (∃ t ∈ Scenario.tag_out_of_range.combined_.csr_ld_tag_index_,
      ¬ (0 ≤ t ∧ t < (Scenario.mapping.num_tag : Int))) ∧
    (∀ v ∈ Scenario.tag_out_of_range.combined_.csr_ld_r2_,
      Flt.lt v (Flt.fin (1 / 10)) = false ∧ Flt.lt (Flt.fin 1) v = false) ∧
    LdMatrixCsr.validate_ld_r2_csr Scenario.mapping (Flt.fin (1 / 10))
        Scenario.tag_out_of_range =
      Outcome.runtime_error "csr_ld_tag_index_ < 0 || csr_ld_tag_index_ >= num_tag_" ∧
    LdMatrixCsr.validate_ld_r2_csr Scenario.mapping (Flt.fin (6 / 10)) Scenario.rejected =
      LdMatrixCsr.validate_ld_r2_csr Scenario.mapping (Flt.fin (1 / 10))
        Scenario.tag_out_of_range := by
  decide!

/-! ### C18: the order of the checks -/

/-- C18, as stated, fails: the CSR arrays of `Scenario.asymmetric_no_diagonal` pass
checks 1-4, the row of snp 0 has no diagonal entry (check 5) and holds an entry that is
not symmetric (check 6), and the error reported is the one of the symmetry check, not
the one of the diagonal check. -/
theorem C18_counterexample :
    Scenario.mapping_not_causal.WellFormed ∧
    LdMatrixCsr.row_start_valid Scenario.mapping_not_causal
      Scenario.asymmetric_no_diagonal.combined_ ∧
    LdMatrixCsr.columns_valid Scenario.mapping_not_causal
      Scenario.asymmetric_no_diagonal.combined_ ∧
    LdMatrixCsr.values_valid (Flt.fin (1 / 10)) Scenario.asymmetric_no_diagonal.combined_ ∧
    LdMatrixCsr.rows_distinct Scenario.mapping_not_causal
      Scenario.asymmetric_no_diagonal.combined_ ∧
    Scenario.mapping_not_causal.is_tag[0]? = some true ∧
    Scenario.mapping_not_causal.snp_to_tag[0]? = some 0 ∧
    Scenario.asymmetric_no_diagonal.combined_.row 0 = [(1, Flt.fin (1 / 2))] ∧
    (∀ e ∈ Scenario.asymmetric_no_diagonal.combined_.row 0, e.1 ≠ 0) ∧
    Scenario.mapping_not_causal.tag_to_snp[1]? = some 1 ∧
    Scenario.asymmetric_no_diagonal.combined_.row 1 = [(0, Flt.fin (6 / 10)), (1, Flt.fin 1)] ∧
    Scenario.asymmetric_no_diagonal.combined_.find_and_retrieve_ld_r2 1 0 =
      some (Flt.fin (6 / 10)) ∧
    LdMatrixCsr.validate_ld_r2_csr Scenario.mapping_not_causal (Flt.fin (1 / 10))
      Scenario.asymmetric_no_diagonal = Outcome.runtime_error "r2symm != r2" ∧
    LdMatrixCsr.validate_ld_r2_csr Scenario.mapping_not_causal (Flt.fin (1 / 10))
      Scenario.asymmetric_no_diagonal ≠ Outcome.runtime_error "!ld_r2_contains_diagonal" := by
  decide!

/-- C18, amended: for a well-formed mapping `validate_ld_r2_csr` reports the first
violated check in the order 1, 2, 3, 4 of spec §4.4 and then goes through the rows in
ascending snp order, testing for each tag variant first the symmetry of every entry of its
row (check 6) and then the presence of its diagonal entry (check 5).  So for a structure
that passes checks 1-4 and a tag variant `i` whose earlier rows all pass: if the row of
`i` holds an entry that is not symmetric, one of the two symmetry errors is reported,
whether or not the row has its diagonal entry; if every entry of the row is symmetric and
the diagonal entry is missing, the diagonal error is reported.  When every row passes,
the validation returns normally. -/
theorem C18_validation_order (m : TagToSnpMapping) (hw : m.WellFormed) (r2_min : Flt)
    (s : LdMatrixCsr) :
    (¬ LdMatrixCsr.row_start_valid m s.combined_ →
      ∃ what ∈ ["csr_ld_snp_index_.size() != (num_snp_ + 1))",
          "csr_ld_snp_index_[i] < 0 || csr_ld_snp_index_[i] > csr_ld_r2_.size()",
          "csr_ld_snp_index_[i-1] > csr_ld_snp_index_[i]",
          "csr_ld_snp_index_.back() != csr_ld_r2_.size()"],
        LdMatrixCsr.validate_ld_r2_csr m r2_min s = Outcome.runtime_error what) ∧
    (LdMatrixCsr.row_start_valid m s.combined_ →
      ¬ LdMatrixCsr.columns_valid m s.combined_ →
      ∃ what ∈ ["csr_ld_tag_index_.size() != csr_ld_r2_.size()",
          "csr_ld_tag_index_ < 0 || csr_ld_tag_index_ >= num_tag_"],
        LdMatrixCsr.validate_ld_r2_csr m r2_min s = Outcome.runtime_error what) ∧
    (LdMatrixCsr.row_start_valid m s.combined_ → LdMatrixCsr.columns_valid m s.combined_ →
      ¬ LdMatrixCsr.values_valid r2_min s.combined_ →
      ∃ what ∈ ["csr_ld_tag_index_ < 0 || csr_ld_tag_index_ >= num_tag_",
          "!std::isfinite(csr_ld_r2_[i])"],
        LdMatrixCsr.validate_ld_r2_csr m r2_min s = Outcome.runtime_error what) ∧
    (LdMatrixCsr.row_start_valid m s.combined_ → LdMatrixCsr.columns_valid m s.combined_ →
      LdMatrixCsr.values_valid r2_min s.combined_ →
      ¬ LdMatrixCsr.rows_distinct m s.combined_ →
      LdMatrixCsr.validate_ld_r2_csr m r2_min s = Outcome.runtime_error
        "csr_ld_tag_index_[r2_index] == csr_ld_tag_index_[r2_index + 1]") ∧
    (LdMatrixCsr.row_start_valid m s.combined_ → LdMatrixCsr.columns_valid m s.combined_ →
      LdMatrixCsr.values_valid r2_min s.combined_ →
      LdMatrixCsr.rows_distinct m s.combined_ →
      ∀ i : Nat, i < m.num_snp →
        (∀ j : Nat, j < i → LdMatrixCsr.row_passes m s.combined_ j) →
        m.isTag i = true →
        ((∃ e ∈ s.combined_.row i,
            LdMatrixCsr.symmetric_entry m s.combined_ (m.tagOf i) e = false) →
          LdMatrixCsr.validate_ld_r2_csr m r2_min s =
            Outcome.runtime_error "!std::isfinite(r2symm)" ∨
          LdMatrixCsr.validate_ld_r2_csr m r2_min s =
            Outcome.runtime_error "r2symm != r2") ∧
        ((∀ e ∈ s.combined_.row i,
            LdMatrixCsr.symmetric_entry m s.combined_ (m.tagOf i) e = true) →
          LdMatrixCsr.has_diagonal m s.combined_ i = false →
          LdMatrixCsr.validate_ld_r2_csr m r2_min s =
            Outcome.runtime_error "!ld_r2_contains_diagonal")) ∧
    (LdMatrixCsr.row_start_valid m s.combined_ → LdMatrixCsr.columns_valid m s.combined_ →
      LdMatrixCsr.values_valid r2_min s.combined_ →
      LdMatrixCsr.rows_distinct m s.combined_ →
      (∀ i : Nat, i < m.num_snp → LdMatrixCsr.row_passes m s.combined_ i) →
      LdMatrixCsr.validate_ld_r2_csr m r2_min s = Outcome.ok) := by
  have hrows : LdMatrixCsr.row_start_valid m s.combined_ →
      LdMatrixCsr.columns_valid m s.combined_ →
      LdMatrixCsr.values_valid r2_min s.combined_ →
      LdMatrixCsr.rows_distinct m s.combined_ →
      LdMatrixCsr.validate_ld_r2_csr m r2_min s =
        LdMatrixCsr.check_rows m s.combined_ (List.range m.num_snp) := by
    intro h1 h2 h3 h4
    rw [LdMatrixCsr.validate_chain]
    rw [if_neg (not_not.mpr h1.1), if_neg (not_not.mpr h1.2.1),
      if_neg (not_not.mpr h1.2.2.1), if_neg (not_not.mpr h1.2.2.2),
      if_neg (not_not.mpr h2.1), if_neg (not_not.mpr h2.2), if_neg (not_not.mpr h3.1),
      if_neg (not_not.mpr h3.2), if_neg (not_not.mpr h4)]
  refine ⟨?_, ?_, ?_, ?_, ?_, ?_⟩
  · intro h1
    rw [LdMatrixCsr.validate_chain]
    by_cases ha : s.combined_.csr_ld_snp_index_.length = m.num_snp + 1
    · by_cases hb : ∀ x ∈ s.combined_.csr_ld_snp_index_,
          0 ≤ x ∧ x ≤ (s.combined_.csr_ld_r2_.length : Int)
      · by_cases hc : s.combined_.csr_ld_snp_index_.Pairwise (fun a b => a ≤ b)
        · have hd : ¬ s.combined_.csr_ld_snp_index_.getLast? =
              some (s.combined_.csr_ld_r2_.length : Int) := fun hd => h1 ⟨ha, hb, hc, hd⟩
          rw [if_neg (not_not.mpr ha), if_neg (not_not.mpr hb), if_neg (not_not.mpr hc),
            if_pos hd]
          exact ⟨_, by simp, rfl⟩
        · rw [if_neg (not_not.mpr ha), if_neg (not_not.mpr hb), if_pos hc]
          exact ⟨_, by simp, rfl⟩
      · rw [if_neg (not_not.mpr ha), if_pos hb]
        exact ⟨_, by simp, rfl⟩
    · rw [if_pos ha]
      exact ⟨_, by simp, rfl⟩
  · intro h1 h2
    rw [LdMatrixCsr.validate_chain]
    rw [if_neg (not_not.mpr h1.1), if_neg (not_not.mpr h1.2.1),
      if_neg (not_not.mpr h1.2.2.1), if_neg (not_not.mpr h1.2.2.2)]
    by_cases ha : s.combined_.csr_ld_tag_index_.length = s.combined_.csr_ld_r2_.length
    · have hb : ¬ ∀ t ∈ s.combined_.csr_ld_tag_index_, 0 ≤ t ∧ t < (m.num_tag : Int) :=
        fun hb => h2 ⟨ha, hb⟩
      rw [if_neg (not_not.mpr ha), if_pos hb]
      exact ⟨_, by simp, rfl⟩
    · rw [if_pos ha]
      exact ⟨_, by simp, rfl⟩
  · intro h1 h2 h3
    rw [LdMatrixCsr.validate_chain]
    rw [if_neg (not_not.mpr h1.1), if_neg (not_not.mpr h1.2.1),
      if_neg (not_not.mpr h1.2.2.1), if_neg (not_not.mpr h1.2.2.2),
      if_neg (not_not.mpr h2.1), if_neg (not_not.mpr h2.2)]
    by_cases ha : ∀ v ∈ s.combined_.csr_ld_r2_,
        Flt.lt v r2_min = false ∧ Flt.lt (Flt.fin 1) v = false
    · have hb : ¬ ∀ v ∈ s.combined_.csr_ld_r2_, v.isfinite = true := fun hb => h3 ⟨ha, hb⟩
      rw [if_neg (not_not.mpr ha), if_pos hb]
      exact ⟨_, by simp, rfl⟩
    · rw [if_pos ha]
      exact ⟨_, by simp, rfl⟩
  · intro h1 h2 h3 h4
    rw [LdMatrixCsr.validate_chain]
    rw [if_neg (not_not.mpr h1.1), if_neg (not_not.mpr h1.2.1),
      if_neg (not_not.mpr h1.2.2.1), if_neg (not_not.mpr h1.2.2.2),
      if_neg (not_not.mpr h2.1), if_neg (not_not.mpr h2.2), if_neg (not_not.mpr h3.1),
      if_neg (not_not.mpr h3.2), if_pos h4]
  · intro h1 h2 h3 h4 i hi hprev ht
    have hok : ∀ j, j < i → LdMatrixCsr.check_row m s.combined_ j = Outcome.ok :=
      fun j hj => (LdMatrixCsr.check_row_spec hw h1 h2 (by omega)).1 (hprev j hj)
    have hspec := LdMatrixCsr.check_row_spec hw h1 h2 hi
    rw [hrows h1 h2 h3 h4]
    refine ⟨?_, ?_⟩
    · intro hex
      rcases hspec.2.1 ht hex with h | h
      · exact Or.inl (LdMatrixCsr.check_rows_first m _ _ i hi hok _ h)
      · exact Or.inr (LdMatrixCsr.check_rows_first m _ _ i hi hok _ h)
    · intro hall hd
      exact LdMatrixCsr.check_rows_first m _ _ i hi hok _ (hspec.2.2 ht hall hd)
  · intro h1 h2 h3 h4 hall
    rw [hrows h1 h2 h3 h4]
    apply LdMatrixCsr.check_rows_all_ok
    intro i hi
    exact (LdMatrixCsr.check_row_spec hw h1 h2 (List.mem_range.mp hi)).1
      (hall i (List.mem_range.mp hi))

theorem C18_validation_order_witness :
    Scenario.mapping_not_causal.WellFormed ∧
    (LdMatrixCsr.row_start_valid Scenario.mapping_not_causal
        Scenario.asymmetric_no_diagonal.combined_ ∧
      LdMatrixCsr.columns_valid Scenario.mapping_not_causal
        Scenario.asymmetric_no_diagonal.combined_ ∧
      LdMatrixCsr.values_valid (Flt.fin (1 / 10)) Scenario.asymmetric_no_diagonal.combined_ ∧
      LdMatrixCsr.rows_distinct Scenario.mapping_not_causal
        Scenario.asymmetric_no_diagonal.combined_ ∧
      Scenario.mapping_not_causal.isTag ((0 : Nat) : Int) = true ∧
      (∃ e ∈ Scenario.asymmetric_no_diagonal.combined_.row 0,
        LdMatrixCsr.symmetric_entry Scenario.mapping_not_causal
          Scenario.asymmetric_no_diagonal.combined_
          (Scenario.mapping_not_causal.tagOf ((0 : Nat) : Int)) e = false) ∧
      LdMatrixCsr.has_diagonal Scenario.mapping_not_causal
        Scenario.asymmetric_no_diagonal.combined_ 0 = false ∧
      (LdMatrixCsr.validate_ld_r2_csr Scenario.mapping_not_causal (Flt.fin (1 / 10))
          Scenario.asymmetric_no_diagonal =
            Outcome.runtime_error "!std::isfinite(r2symm)" ∨
        LdMatrixCsr.validate_ld_r2_csr Scenario.mapping_not_causal (Flt.fin (1 / 10))
          Scenario.asymmetric_no_diagonal = Outcome.runtime_error "r2symm != r2")) ∧
    (LdMatrixCsr.row_start_valid Scenario.mapping_not_causal Scenario.no_diagonal.combined_ ∧
      LdMatrixCsr.columns_valid Scenario.mapping_not_causal Scenario.no_diagonal.combined_ ∧
      LdMatrixCsr.values_valid (Flt.fin (1 / 10)) Scenario.no_diagonal.combined_ ∧
      LdMatrixCsr.rows_distinct Scenario.mapping_not_causal Scenario.no_diagonal.combined_ ∧
      (∀ e ∈ Scenario.no_diagonal.combined_.row 0,
        LdMatrixCsr.symmetric_entry Scenario.mapping_not_causal Scenario.no_diagonal.combined_
          (Scenario.mapping_not_causal.tagOf ((0 : Nat) : Int)) e = true) ∧
      LdMatrixCsr.has_diagonal Scenario.mapping_not_causal Scenario.no_diagonal.combined_ 0 =
        false ∧
      LdMatrixCsr.validate_ld_r2_csr Scenario.mapping_not_causal (Flt.fin (1 / 10))
        Scenario.no_diagonal = Outcome.runtime_error "!ld_r2_contains_diagonal") :=
  have hw : Scenario.mapping_not_causal.WellFormed := by decide!
  have a1 : LdMatrixCsr.row_start_valid Scenario.mapping_not_causal
      Scenario.asymmetric_no_diagonal.combined_ := by decide!
  have a2 : LdMatrixCsr.columns_valid Scenario.mapping_not_causal
      Scenario.asymmetric_no_diagonal.combined_ := by decide!
  have a3 : LdMatrixCsr.values_valid (Flt.fin (1 / 10))
      Scenario.asymmetric_no_diagonal.combined_ := by decide!
  have a4 : LdMatrixCsr.rows_distinct Scenario.mapping_not_causal
      Scenario.asymmetric_no_diagonal.combined_ := by decide!
  have a5 : Scenario.mapping_not_causal.isTag ((0 : Nat) : Int) = true := by decide!
  have a6 : ∃ e ∈ Scenario.asymmetric_no_diagonal.combined_.row 0,
      LdMatrixCsr.symmetric_entry Scenario.mapping_not_causal
        Scenario.asymmetric_no_diagonal.combined_
        (Scenario.mapping_not_causal.tagOf ((0 : Nat) : Int)) e = false := by decide!
  have b1 : LdMatrixCsr.row_start_valid Scenario.mapping_not_causal
      Scenario.no_diagonal.combined_ := by decide!
  have b2 : LdMatrixCsr.columns_valid Scenario.mapping_not_causal
      Scenario.no_diagonal.combined_ := by decide!
  have b3 : LdMatrixCsr.values_valid (Flt.fin (1 / 10)) Scenario.no_diagonal.combined_ := by
    decide!
  have b4 : LdMatrixCsr.rows_distinct Scenario.mapping_not_causal
      Scenario.no_diagonal.combined_ := by decide!
  have b6 : ∀ e ∈ Scenario.no_diagonal.combined_.row 0,
      LdMatrixCsr.symmetric_entry Scenario.mapping_not_causal Scenario.no_diagonal.combined_
        (Scenario.mapping_not_causal.tagOf ((0 : Nat) : Int)) e = true := by decide!
  have b7 : LdMatrixCsr.has_diagonal Scenario.mapping_not_causal
      Scenario.no_diagonal.combined_ 0 = false := by decide!
  ⟨hw,
    ⟨a1, a2, a3, a4, a5, a6, by decide!,
      ((C18_validation_order Scenario.mapping_not_causal hw (Flt.fin (1 / 10))
        Scenario.asymmetric_no_diagonal).2.2.2.2.1 a1 a2 a3 a4 0 (by decide)
        (fun j hj => absurd hj (Nat.not_lt_zero j)) a5).1 a6⟩,
    ⟨b1, b2, b3, b4, b6, b7,
      ((C18_validation_order Scenario.mapping_not_causal hw (Flt.fin (1 / 10))
        Scenario.no_diagonal).2.2.2.2.1 b1 b2 b3 b4 0 (by decide)
        (fun j hj => absurd hj (Nat.not_lt_zero j)) a5).2 b6 b7⟩⟩

/-! ### C19: the sort step and the stable sort by key -/

namespace LdMatrixCsr

theorem key_le_total (a b : CooEntry) : key_le a b ∨ key_le b a := by
  unfold key_le
  omega

theorem stable_sort_by_key_perm (l : List CooEntry) : (stable_sort_by_key l).Perm l :=
  List.perm_insertionSort _ l

theorem stable_sort_by_key_sorted (l : List CooEntry) :
    (stable_sort_by_key l).Pairwise key_le := by
  haveI : IsTotal CooEntry key_le := ⟨key_le_total⟩
  haveI : IsTrans CooEntry key_le := ⟨fun _ _ _ => key_le_trans⟩
  exact List.sorted_insertionSort key_le l

/-- The stable sort keeps the records of one key in their original relative order. -/
theorem stable_sort_by_key_stable (l : List CooEntry) (k : Int × Int) :
    (stable_sort_by_key l).filter (fun e => decide ((e.1, e.2.1) = k)) =
      l.filter (fun e => decide ((e.1, e.2.1) = k)) := by
  have hpw : (l.filter (fun e => decide ((e.1, e.2.1) = k))).Pairwise key_le := by
    rw [List.pairwise_iff_forall_sublist]
    intro a b hab
    have ha := hab.subset (List.mem_cons_self _ _)
    have hb := hab.subset (List.mem_cons_of_mem _ (List.mem_cons_self _ _))
    simp only [List.mem_filter, decide_eq_true_eq] at ha hb
    have h1 := ha.2
    have h2 := hb.2
    rw [← h2] at h1
    simp only [Prod.mk.injEq] at h1
    unfold key_le
    omega
  have hsub : List.Sublist (l.filter (fun e => decide ((e.1, e.2.1) = k)))
      (stable_sort_by_key l) :=
    List.sublist_insertionSort hpw (List.filter_sublist _)
  have hsub2 := hsub.filter (fun e => decide ((e.1, e.2.1) = k))
  rw [List.filter_filter] at hsub2
  simp only [Bool.and_self] at hsub2
  have hlen := ((stable_sort_by_key_perm l).filter
    (fun e => decide ((e.1, e.2.1) = k))).length_eq
  exact (hsub2.eq_of_length hlen.symm).symm

end LdMatrixCsr

namespace Flt

theorem lt_irrefl (x : Flt) : lt x x = false := by
  cases x <;> simp [lt]

theorem le_of_not_lt {x y : Flt} (hx : x.isfinite = true) (hy : y.isfinite = true)
    (h : lt y x = false) : le x y = true := by
  cases x <;> cases y <;> simp_all [lt, le, isfinite]

end Flt

/-- C19, as stated, fails: on the list [(0, 0, 0.9), (0, 0, 0.5)], whose r² are finite,
the sort step puts the record with the smaller r² first, while the stable sort by
(snp, tag) leaves the two records, which have the same key, in their original order. -/
theorem C19_counterexample :
    (∀ e ∈ [((0 : Int), (0 : Int), Flt.fin (9 / 10)), (0, 0, Flt.fin (1 / 2))],
      e.2.2.isfinite = true) ∧
    LdMatrixCsr.sort_coo [(0, 0, Flt.fin (9 / 10)), (0, 0, Flt.fin (1 / 2))] =
      [(0, 0, Flt.fin (1 / 2)), (0, 0, Flt.fin (9 / 10))] ∧
    LdMatrixCsr.stable_sort_by_key [(0, 0, Flt.fin (9 / 10)), (0, 0, Flt.fin (1 / 2))] =
      [(0, 0, Flt.fin (9 / 10)), (0, 0, Flt.fin (1 / 2))] ∧
    LdMatrixCsr.sort_coo [(0, 0, Flt.fin (9 / 10)), (0, 0, Flt.fin (1 / 2))] ≠
      LdMatrixCsr.stable_sort_by_key [(0, 0, Flt.fin (9 / 10)), (0, 0, Flt.fin (1 / 2))] := by
  decide!

/-- C19, amended: for every COO list whose r² are all finite, the sort step gives a
permutation of the list in ascending order of the key (snp, tag) in which records with
the same key are in ascending order of r²; it equals the sequential stable sort by the
key whenever any two records of the list with the same (snp, tag) pair carry the same
r². -/
theorem C19_sort_step_order (l : List CooEntry) (hfin : ∀ e ∈ l, e.2.2.isfinite = true) :
    (LdMatrixCsr.sort_coo l).Perm l ∧
    (LdMatrixCsr.sort_coo l).Pairwise LdMatrixCsr.key_le ∧
    (LdMatrixCsr.sort_coo l).Pairwise
      (fun a b => a.1 = b.1 → a.2.1 = b.2.1 → Flt.le a.2.2 b.2.2 = true) ∧
    ((∀ a ∈ l, ∀ b ∈ l, a.1 = b.1 → a.2.1 = b.2.1 → a.2.2 = b.2.2) →
      LdMatrixCsr.sort_coo l = LdMatrixCsr.stable_sort_by_key l) := by
  have hnan : ∀ e ∈ l, e.2.2 ≠ Flt.nan := by
    intro e he hn
    have := hfin e he
    rw [hn] at this
    simp [Flt.isfinite] at this
  refine ⟨LdMatrixCsr.sort_coo_perm l, LdMatrixCsr.sort_coo_key_sorted l, ?_, ?_⟩
  · have hs := LdMatrixCsr.sort_coo_sorted l hnan
    refine List.Pairwise.imp_of_mem ?_ hs
    intro a b ha hb hab h1 h2
    have hlt := (LdMatrixCsr.tuple_not_lt_iff a b).mp hab
    have h3 : Flt.lt b.2.2 a.2.2 = false := by
      rcases hlt with h | ⟨-, h | ⟨-, h⟩⟩
      · omega
      · omega
      · exact h
    exact Flt.le_of_not_lt (hfin a (LdMatrixCsr.mem_sort_coo.mp ha))
      (hfin b (LdMatrixCsr.mem_sort_coo.mp hb)) h3
  · intro hsame
    symm
    apply LdMatrixCsr.sort_coo_unique l _ hnan (LdMatrixCsr.stable_sort_by_key_perm l)
    refine List.Pairwise.imp_of_mem ?_ (LdMatrixCsr.stable_sort_by_key_sorted l)
    intro a b ha hb hab
    have ha1 := (LdMatrixCsr.stable_sort_by_key_perm l).subset ha
    have hb1 := (LdMatrixCsr.stable_sort_by_key_perm l).subset hb
    rw [LdMatrixCsr.tuple_not_lt_iff]
    unfold LdMatrixCsr.key_le at hab
    rcases hab with h | ⟨h1, h2⟩
    · exact Or.inl h
    · right
      refine ⟨h1, ?_⟩
      rcases (by omega : a.2.1 < b.2.1 ∨ a.2.1 = b.2.1) with h3 | h3
      · exact Or.inl h3
      · right
        refine ⟨h3, ?_⟩
        rw [hsame a ha1 b hb1 h1 h3]
        exact Flt.lt_irrefl _

theorem C19_sort_step_order_witness :
    (∀ e ∈ [((2 : Int), (0 : Int), Flt.fin (1 / 2)), (0, 1, Flt.fin (1 / 2)),
        (0, 0, Flt.fin 1), (0, 1, Flt.fin (1 / 2))], e.2.2.isfinite = true) ∧
    (∀ a ∈ [((2 : Int), (0 : Int), Flt.fin (1 / 2)), (0, 1, Flt.fin (1 / 2)),
        (0, 0, Flt.fin 1), (0, 1, Flt.fin (1 / 2))],
      ∀ b ∈ [((2 : Int), (0 : Int), Flt.fin (1 / 2)), (0, 1, Flt.fin (1 / 2)),
        (0, 0, Flt.fin 1), (0, 1, Flt.fin (1 / 2))],
      a.1 = b.1 → a.2.1 = b.2.1 → a.2.2 = b.2.2) ∧
    LdMatrixCsr.sort_coo [(2, 0, Flt.fin (1 / 2)), (0, 1, Flt.fin (1 / 2)),
        (0, 0, Flt.fin 1), (0, 1, Flt.fin (1 / 2))] =
      LdMatrixCsr.stable_sort_by_key [(2, 0, Flt.fin (1 / 2)), (0, 1, Flt.fin (1 / 2)),
        (0, 0, Flt.fin 1), (0, 1, Flt.fin (1 / 2))] ∧
    LdMatrixCsr.stable_sort_by_key [(2, 0, Flt.fin (1 / 2)), (0, 1, Flt.fin (1 / 2)),
        (0, 0, Flt.fin 1), (0, 1, Flt.fin (1 / 2))] =
      [(0, 0, Flt.fin 1), (0, 1, Flt.fin (1 / 2)), (0, 1, Flt.fin (1 / 2)),
        (2, 0, Flt.fin (1 / 2))] :=
  ⟨by decide, by decide!,
    (C19_sort_step_order [(2, 0, Flt.fin (1 / 2)), (0, 1, Flt.fin (1 / 2)),
      (0, 0, Flt.fin 1), (0, 1, Flt.fin (1 / 2))] (by decide)).2.2.2 (by decide!),
    by decide!⟩

/-! ### C20: lookups outside the index ranges -/

namespace LdMatrixCsr

/-- When every element of the row is smaller than `val`, the binary search ends behind
the range. -/
theorem lower_bound_loop_all_lt (row : List Int) (val : Int) (h : ∀ x ∈ row, x < val) :
    ∀ (fuel first len : Nat), len ≤ fuel → first + len ≤ row.length →
      lower_bound_loop row val fuel first len = first + len := by
  intro fuel
  induction fuel with
  | zero =>
    intro first len hl _
    have : len = 0 := by omega
    subst this
    rfl
  | succ fuel ih =>
    intro first len hl hb
    unfold lower_bound_loop
    by_cases h0 : len = 0
    · simp [h0]
    · rw [if_neg h0]
      have hmid : first + len / 2 < row.length := by omega
      simp only [List.getElem?_eq_getElem hmid]
      rw [if_pos (h _ (List.getElem_mem hmid))]
      rw [ih (first + len / 2 + 1) (len - len / 2 - 1) (by omega) (by omega)]
      omega

theorem lower_bound_all_lt (row : List Int) (val : Int) (h : ∀ x ∈ row, x < val) :
    lower_bound row val = row.length := by
  unfold lower_bound
  rw [lower_bound_loop_all_lt row val h row.length 0 row.length (le_refl _) (by omega)]
  omega

end LdMatrixCsr

/-- C20, as stated, fails: in the finalized scenario of spec §8 (`num_tag = 2`) the
lookup of snp 0 with the tag index 2 returns a value, the sentinel NaN, and the lookup of
snp 0 with the tag index -1 returns the value 1.0. -/
theorem C20_counterexample :
    LdMatrixCsr.set_ld_r2_csr Scenario.mapping (Flt.fin (1 / 10)) Scenario.ingested =
      (Scenario.finalized, Outcome.ok) ∧
    Scenario.mapping.num_tag = 2 ∧
    Scenario.finalized.combined_.row 0 = [(0, Flt.fin 1), (1, Flt.fin (1 / 2))] ∧
    Scenario.finalized.combined_.find_and_retrieve_ld_r2 0 2 = some Flt.nan ∧
    Scenario.finalized.combined_.find_and_retrieve_ld_r2 0 (-1) = some (Flt.fin 1) ∧
    Scenario.finalized.combined_.find_and_retrieve_ld_r2 0 2 ≠ none ∧
    Scenario.finalized.combined_.find_and_retrieve_ld_r2 0 (-1) ≠ none := by
  decide!

/-- C20, amended: `find_and_retrieve_ld_r2` checks no range.  On a structure that
`set_ld_r2_csr` has finalized, a snp index outside `[0, num_snp)` makes it read the row
starts out of bounds (undefined behaviour: no value), whatever the tag index; with a snp
index in `[0, num_snp)` and a tag index of `num_tag` or more it does not fail but returns
the not-found value NaN. -/
theorem C20_lookup_out_of_range (m : TagToSnpMapping) (r2_min : Flt) (s s1 : LdMatrixCsr)
    (h : LdMatrixCsr.set_ld_r2_csr m r2_min s = (s1, Outcome.ok)) :
    (∀ snp_index tag_index : Int, snp_index < 0 ∨ (m.num_snp : Int) ≤ snp_index →
      s1.combined_.find_and_retrieve_ld_r2 snp_index tag_index = none) ∧
    (∀ snp_index tag_index : Int, 0 ≤ snp_index → snp_index < (m.num_snp : Int) →
      (m.num_tag : Int) ≤ tag_index →
      s1.combined_.find_and_retrieve_ld_r2 snp_index tag_index = some Flt.nan) := by
  obtain ⟨-, -, -, hv⟩ := LdMatrixCsr.set_ld_r2_csr_ok h
  obtain ⟨h1, h2, h3, h4, h5, h6, -, -, -, -⟩ := LdMatrixCsr.validate_ok hv
  refine ⟨?_, ?_⟩
  · intro snp t hout
    unfold LdMatrixCsrChunk.find_and_retrieve_ld_r2
    rcases hout with hneg | hbig
    · have : vec_at s1.combined_.csr_ld_snp_index_ snp = none := by
        unfold vec_at
        rw [if_pos hneg]
      rw [this]
    · have : vec_at s1.combined_.csr_ld_snp_index_ (snp + 1) = none := by
        unfold vec_at
        rw [if_neg (by omega)]
        exact List.getElem?_eq_none (by omega)
      rw [this]
      cases vec_at s1.combined_.csr_ld_snp_index_ snp <;> rfl
  · intro snp t h0 hs ht
    obtain ⟨j, rfl⟩ := Int.eq_ofNat_of_zero_le h0
    have hj0 : j < s1.combined_.csr_ld_snp_index_.length := by omega
    have hj1 : j + 1 < s1.combined_.csr_ld_snp_index_.length := by omega
    have ha := h2 _ (List.getElem_mem hj0)
    have hb := h2 _ (List.getElem_mem hj1)
    have hab : s1.combined_.csr_ld_snp_index_[j] ≤ s1.combined_.csr_ld_snp_index_[j + 1] :=
      List.pairwise_iff_getElem.mp (LdMatrixCsr.has_descent_false h3) j (j + 1) hj0 hj1
        (by omega)
    obtain ⟨a, ha2⟩ := Int.eq_ofNat_of_zero_le ha.1
    obtain ⟨b, hb2⟩ := Int.eq_ofNat_of_zero_le hb.1
    rw [LdMatrixCsr.find_and_retrieve_row s1.combined_ j t a b
      (by rw [List.getElem?_eq_getElem hj0, ha2])
      (by rw [List.getElem?_eq_getElem hj1, hb2]) (by omega) (by rw [h5]; omega) h5]
    have hall : ∀ x ∈ (s1.combined_.row j).map Prod.fst, x < t := by
      intro x hx
      obtain ⟨e, he, rfl⟩ := List.mem_map.mp hx
      have := h6 _ (LdMatrixCsrChunk.mem_row he).1
      omega
    rw [LdMatrixCsr.lower_bound_all_lt _ _ hall]
    simp

theorem C20_lookup_out_of_range_witness :
    LdMatrixCsr.set_ld_r2_csr Scenario.mapping (Flt.fin (1 / 10)) Scenario.ingested =
      (Scenario.finalized, Outcome.ok) ∧
    ((3 : Int) < 0 ∨ (Scenario.mapping.num_snp : Int) ≤ 3) ∧
    Scenario.finalized.combined_.find_and_retrieve_ld_r2 3 0 = none ∧
    (0 : Int) ≤ 2 ∧ (2 : Int) < (Scenario.mapping.num_snp : Int) ∧
    (Scenario.mapping.num_tag : Int) ≤ 5 ∧
    Scenario.finalized.combined_.find_and_retrieve_ld_r2 2 5 = some Flt.nan :=
  ⟨Scenario.finalize_ok, by decide,
    (C20_lookup_out_of_range Scenario.mapping (Flt.fin (1 / 10)) Scenario.ingested
      Scenario.finalized Scenario.finalize_ok).1 3 0 (by decide),
    by decide, by decide, by decide,
    (C20_lookup_out_of_range Scenario.mapping (Flt.fin (1 / 10)) Scenario.ingested
      Scenario.finalized Scenario.finalize_ok).2 2 5 (by decide) (by decide) (by decide)⟩

/-! ### Structures that pass the validation -/

namespace LdMatrixCsr

/-- On CSR arrays that pass checks 1 and 2, the lookup in the row of the snp `j` returns
the value at the position where the binary search for the tag index stops, NaN behind the
row. -/
theorem lookup_eq {m : TagToSnpMapping} {c : LdMatrixCsrChunk}
    (h1 : row_start_valid m c) (h2 : columns_valid m c) {j : Nat} (hj : j < m.num_snp)
    (t : Int) :
    c.find_and_retrieve_ld_r2 j t =
      some ((((c.row j).map Prod.snd)[lower_bound ((c.row j).map Prod.fst) t]?).getD
        Flt.nan) := by
  obtain ⟨hlen, hrange, hmono, -⟩ := h1
  have hj0 : j < c.csr_ld_snp_index_.length := by omega
  have hj1 : j + 1 < c.csr_ld_snp_index_.length := by omega
  have ha := hrange _ (List.getElem_mem hj0)
  have hb := hrange _ (List.getElem_mem hj1)
  have hab : c.csr_ld_snp_index_[j] ≤ c.csr_ld_snp_index_[j + 1] :=
    List.pairwise_iff_getElem.mp hmono j (j + 1) hj0 hj1 (by omega)
  obtain ⟨a, ha2⟩ := Int.eq_ofNat_of_zero_le ha.1
  obtain ⟨b, hb2⟩ := Int.eq_ofNat_of_zero_le hb.1
  refine find_and_retrieve_row c j t a b ?_ ?_ ?_ ?_ h2.1
  · rw [List.getElem?_eq_getElem hj0, ha2]
  · rw [List.getElem?_eq_getElem hj1, hb2]
  · omega
  · rw [h2.1]; omega

/-- In a row in strictly ascending order of the tag index, the lookup of the tag index of
an entry returns the value of the entry. -/
theorem lookup_of_mem {m : TagToSnpMapping} {c : LdMatrixCsrChunk}
    (h1 : row_start_valid m c) (h2 : columns_valid m c) {j : Nat} (hj : j < m.num_snp)
    (hs : (c.row j).Pairwise (fun a b => a.1 < b.1)) {t : Int} {v : Flt}
    (hmem : (t, v) ∈ c.row j) : c.find_and_retrieve_ld_r2 j t = some v := by
  obtain ⟨k, hk⟩ := List.getElem?_of_mem hmem
  have hfst : ((c.row j).map Prod.fst)[k]? = some t := by
    rw [List.getElem?_map, hk]
    rfl
  have hsnd : ((c.row j).map Prod.snd)[k]? = some v := by
    rw [List.getElem?_map, hk]
    rfl
  rw [lookup_eq h1 h2 hj, lower_bound_of_mem _ _ (by rw [List.pairwise_map]; exact hs) k hfst,
    hsnd]
  rfl

theorem no_adjacent_duplicate_of_strict (r : List (Int × Flt))
    (hs : r.Pairwise (fun a b => a.1 < b.1)) : has_adjacent_duplicate r = false := by
  induction r with
  | nil => rfl
  | cons a r ih =>
    cases r with
    | nil => rfl
    | cons b r =>
      obtain ⟨ha, hr⟩ := List.pairwise_cons.mp hs
      simp only [has_adjacent_duplicate, Bool.or_eq_false_iff, decide_eq_false_iff_not]
      have := ha b (List.mem_cons_self b r)
      exact ⟨by omega, ih hr⟩

/-- For a well-formed mapping, CSR arrays that pass checks 1-4 and whose rows all pass
the symmetry and the diagonal check are accepted by the validation. -/
theorem validate_passes {m : TagToSnpMapping} (hw : m.WellFormed) {r2_min : Flt}
    {s : LdMatrixCsr} (h1 : row_start_valid m s.combined_) (h2 : columns_valid m s.combined_)
    (h3 : values_valid r2_min s.combined_) (h4 : rows_distinct m s.combined_)
    (h5 : ∀ i : Nat, i < m.num_snp → row_passes m s.combined_ i) :
    validate_ld_r2_csr m r2_min s = Outcome.ok := by
  rw [validate_chain]
  rw [if_neg (not_not.mpr h1.1), if_neg (not_not.mpr h1.2.1),
    if_neg (not_not.mpr h1.2.2.1), if_neg (not_not.mpr h1.2.2.2),
    if_neg (not_not.mpr h2.1), if_neg (not_not.mpr h2.2), if_neg (not_not.mpr h3.1),
    if_neg (not_not.mpr h3.2), if_neg (not_not.mpr h4)]
  apply check_rows_all_ok
  intro i hi
  exact (check_row_spec hw h1 h2 (List.mem_range.mp hi)).1 (h5 i (List.mem_range.mp hi))

end LdMatrixCsr

/-! ### The compaction of a sorted, symmetric list of records is valid -/

namespace LdMatrixCsr

theorem first_ge_mono (i j : Int) (hij : i ≤ j) (l : List CooEntry) :
    ∀ off : Nat, first_ge i off l ≤ first_ge j off l := by
  induction l with
  | nil => intro off; exact le_refl _
  | cons e rest ih =>
    intro off
    unfold first_ge
    by_cases h1 : i ≤ e.1
    · rw [if_pos h1]
      by_cases h2 : j ≤ e.1
      · rw [if_pos h2]
      · rw [if_neg h2]
        have := first_ge_ge j rest (off + 1)
        push_cast at this
        omega
    · rw [if_neg h1, if_neg (by omega)]
      exact ih (off + 1)

theorem ne_self_of_finite {v : Flt} (h : v.isfinite = true) : Flt.ne v v = false := by
  cases v <;> simp_all [Flt.ne, Flt.isfinite]

/-- The CSR arrays that the compaction makes of a list `l` of records in key order, for
`n` snps. -/
theorem compacted_checks {m : TagToSnpMapping} (r2_min : Flt)
    (l : List CooEntry) (c : LdMatrixCsrChunk) (hs : l.Pairwise key_le)
    (h1 : c.csr_ld_snp_index_ =
      (List.range (m.num_snp + 1)).map (fun i : Nat => first_ge i 0 l))
    (h2 : c.csr_ld_tag_index_ = l.map (fun e => e.2.1))
    (h3 : c.csr_ld_r2_ = l.map (fun e => e.2.2))
    (hsnp : ∀ e ∈ l, 0 ≤ e.1 ∧ e.1 < (m.num_snp : Int))
    (htag : ∀ e ∈ l, 0 ≤ e.2.1 ∧ e.2.1 < (m.num_tag : Int))
    (hval : ∀ e ∈ l, e.2.2.isfinite = true ∧ Flt.lt e.2.2 r2_min = false ∧
      Flt.lt (Flt.fin 1) e.2.2 = false)
    (hkey : l.Pairwise (fun a b => ¬ (a.1 = b.1 ∧ a.2.1 = b.2.1))) :
    row_start_valid m c ∧ columns_valid m c ∧ values_valid r2_min c ∧
    (∀ j : Nat, j < m.num_snp →
      c.row j = (l.filter (fun e => decide (e.1 = (j : Int)))).map
        (fun e => (e.2.1, e.2.2)) ∧
      (c.row j).Pairwise (fun a b => a.1 < b.1)) := by
  refine ⟨⟨?_, ?_, ?_, ?_⟩, ⟨?_, ?_⟩, ⟨?_, ?_⟩, ?_⟩
  · rw [h1]
    simp
  · intro x hx
    rw [h1] at hx
    obtain ⟨i, -, rfl⟩ := List.mem_map.mp hx
    have hge := first_ge_ge (i : Int) l 0
    have hle := first_ge_le (i : Int) l 0
    rw [h3, List.length_map]
    push_cast at hge hle
    omega
  · rw [h1, List.pairwise_map]
    refine (List.pairwise_lt_range (m.num_snp + 1)).imp ?_
    intro a b hab
    exact first_ge_mono a b (by omega) l 0
  · rw [List.getLast?_eq_getElem?, h1]
    simp only [List.length_map, List.length_range, Nat.add_sub_cancel, List.getElem?_map,
      List.getElem?_range (Nat.lt_succ_self m.num_snp), Option.map_some', h3]
    rw [first_ge_none _ l (fun e he => (hsnp e he).2) 0]
    simp
  · rw [h2, h3]
    simp
  · intro t ht
    rw [h2] at ht
    obtain ⟨e, he, rfl⟩ := List.mem_map.mp ht
    exact htag e he
  · intro v hv
    rw [h3] at hv
    obtain ⟨e, he, rfl⟩ := List.mem_map.mp hv
    exact (hval e he).2
  · intro v hv
    rw [h3] at hv
    obtain ⟨e, he, rfl⟩ := List.mem_map.mp hv
    exact (hval e he).1
  · intro j hj
    have hrow := row_eq_filter l m.num_snp c hs h1 h2 h3 j hj
    refine ⟨hrow, ?_⟩
    rw [hrow, List.pairwise_map]
    refine ((hs.and hkey).sublist (List.filter_sublist _)).imp_of_mem ?_
    intro a b ha hb hab
    have ha1 := (List.mem_filter.mp ha).2
    have hb1 := (List.mem_filter.mp hb).2
    simp only [decide_eq_true_eq] at ha1 hb1
    obtain ⟨hle, hne⟩ := hab
    unfold key_le at hle
    have : a.2.1 ≠ b.2.1 := fun h => hne ⟨by omega, h⟩
    show a.2.1 < b.2.1
    omega

/-- The compaction of a list of records in key order passes the six checks and is
accepted by the validation when the records are within the ranges, no two records have the same (snp, tag) pair, every
record in the row of a tag variant has its mirror record, and every tag variant has a
record at its own tag index. -/
theorem compacted_valid {m : TagToSnpMapping} (hw : m.WellFormed) (r2_min : Flt)
    (l : List CooEntry) (s : LdMatrixCsr) (hs : l.Pairwise key_le)
    (h1 : s.combined_.csr_ld_snp_index_ =
      (List.range (m.num_snp + 1)).map (fun i : Nat => first_ge i 0 l))
    (h2 : s.combined_.csr_ld_tag_index_ = l.map (fun e => e.2.1))
    (h3 : s.combined_.csr_ld_r2_ = l.map (fun e => e.2.2))
    (hsnp : ∀ e ∈ l, 0 ≤ e.1 ∧ e.1 < (m.num_snp : Int))
    (htag : ∀ e ∈ l, 0 ≤ e.2.1 ∧ e.2.1 < (m.num_tag : Int))
    (hval : ∀ e ∈ l, e.2.2.isfinite = true ∧ Flt.lt e.2.2 r2_min = false ∧
      Flt.lt (Flt.fin 1) e.2.2 = false)
    (hkey : l.Pairwise (fun a b => ¬ (a.1 = b.1 ∧ a.2.1 = b.2.1)))
    (hmirror : ∀ e ∈ l, m.isTag e.1 = true → (m.snpOf e.2.1, m.tagOf e.1, e.2.2) ∈ l)
    (hdiag : ∀ j : Nat, j < m.num_snp → m.isTag j = true →
      ∃ v, ((j : Int), m.tagOf j, v) ∈ l) :
    row_start_valid m s.combined_ ∧ columns_valid m s.combined_ ∧
    values_valid r2_min s.combined_ ∧ rows_distinct m s.combined_ ∧
    (∀ j : Nat, j < m.num_snp → row_passes m s.combined_ j) ∧
    validate_ld_r2_csr m r2_min s = Outcome.ok := by
  obtain ⟨c1, c2, c3, hrows⟩ :=
    compacted_checks r2_min l s.combined_ hs h1 h2 h3 hsnp htag hval hkey
  have c4 : rows_distinct m s.combined_ :=
    fun j hj => no_adjacent_duplicate_of_strict _ (hrows j hj).2
  suffices h5 : ∀ j : Nat, j < m.num_snp → row_passes m s.combined_ j from
    ⟨c1, c2, c3, c4, h5, validate_passes hw c1 c2 c3 c4 h5⟩
  intro j hj
  by_cases ht : m.isTag j = true
  · right
    refine ⟨?_, ?_⟩
    · intro e he
      rw [(hrows j hj).1] at he
      obtain ⟨r, hr, rfl⟩ := List.mem_map.mp he
      obtain ⟨hrl, hrj⟩ := List.mem_filter.mp hr
      simp only [decide_eq_true_eq] at hrj
      have htr := htag r hrl
      have hsn := TagToSnpMapping.snpOf_spec hw htr.1 htr.2
      obtain ⟨k, hk⟩ := Int.eq_ofNat_of_zero_le hsn.1
      have hkn : k < m.num_snp := by omega
      have hmir := hmirror r hrl (by rw [hrj]; exact ht)
      rw [hrj, hk] at hmir
      have hin : (m.tagOf j, r.2.2) ∈ s.combined_.row k := by
        rw [(hrows k hkn).1]
        exact List.mem_map.mpr ⟨_, List.mem_filter.mpr ⟨hmir, by simp⟩, rfl⟩
      have hlook := lookup_of_mem c1 c2 hkn (hrows k hkn).2 hin
      unfold symmetric_entry
      simp only [TagToSnpMapping.tag_to_snp_at hw htr.1 htr.2, hk, hlook,
        (hval r hrl).1, ne_self_of_finite (hval r hrl).1, Bool.not_false, Bool.and_self]
    · obtain ⟨v, hv⟩ := hdiag j hj ht
      unfold has_diagonal
      rw [List.any_eq_true]
      refine ⟨(m.tagOf j, v), ?_, by simp⟩
      rw [(hrows j hj).1]
      exact List.mem_map.mpr ⟨_, List.mem_filter.mpr ⟨hv, by simp⟩, rfl⟩
  · left
    simpa using ht

end LdMatrixCsr

/-! ### C21: accepted, symmetric input is finalized -/

namespace LdMatrixCsr

/-- The records of a batch: a triplet that is not below the threshold gives, for each of
its two directions `(x, y)`, the record `(x, snp_to_tag[y], r²)` when `x` is
causal-eligible and `y` a tag variant. -/
theorem mem_records {m : TagToSnpMapping} {r2_min : Flt} {batch : List (Int × Int × Flt)}
    {e : CooEntry} :
    e ∈ batch.flatMap (coo_records m r2_min) ↔
      ∃ t ∈ batch, Flt.lt t.2.2 r2_min = false ∧
        ∃ x y, ((x = t.1 ∧ y = t.2.1) ∨ (x = t.2.1 ∧ y = t.1)) ∧
          m.canBeCausal x = true ∧ m.isTag y = true ∧ e = (x, m.tagOf y, t.2.2) := by
  rw [List.mem_flatMap]
  constructor
  · rintro ⟨t, ht, he⟩
    refine ⟨t, ht, ?_⟩
    unfold coo_records at he
    split at he
    · simp at he
    · rename_i hlt
      refine ⟨by simpa using hlt, ?_⟩
      rcases List.mem_append.mp he with h1 | h1
      · split at h1
        · rename_i hc
          simp only [Bool.and_eq_true] at hc
          simp only [List.mem_singleton] at h1
          exact ⟨t.1, t.2.1, Or.inl ⟨rfl, rfl⟩, hc.1, hc.2, h1⟩
        · simp at h1
      · split at h1
        · rename_i hc
          simp only [Bool.and_eq_true] at hc
          simp only [List.mem_singleton] at h1
          exact ⟨t.2.1, t.1, Or.inr ⟨rfl, rfl⟩, hc.1, hc.2, h1⟩
        · simp at h1
  · rintro ⟨t, ht, hlt, x, y, hxy, hc, hy, rfl⟩
    refine ⟨t, ht, ?_⟩
    unfold coo_records
    rw [if_neg (by simp [hlt])]
    rcases hxy with ⟨rfl, rfl⟩ | ⟨rfl, rfl⟩
    · exact List.mem_append_left _ (by simp [hc, hy])
    · exact List.mem_append_right _ (by simp [hc, hy])

/-- Two tag variants with the same tag index are the same snp. -/
theorem tagOf_injective {m : TagToSnpMapping} (hw : m.WellFormed) {x y : Int}
    (hx0 : 0 ≤ x) (hx1 : x < m.num_snp) (hy0 : 0 ≤ y) (hy1 : y < m.num_snp)
    (hx : m.isTag x = true) (hy : m.isTag y = true) (h : m.tagOf x = m.tagOf y) : x = y := by
  have h1 := (TagToSnpMapping.tagOf_spec hw hx0 hx1 hx).2.2
  have h2 := (TagToSnpMapping.tagOf_spec hw hy0 hy1 hy).2.2
  rw [← h1, ← h2, h]

theorem diag_mem {m : TagToSnpMapping} (hw : m.WellFormed) {t : Nat} (ht : t < m.num_tag) :
    (m.snpOf t, (t : Int), Flt.fin 1) ∈ diag_entries m := by
  unfold diag_entries
  refine List.mem_map.mpr ⟨t, List.mem_range.mpr (by rw [hw.2.2.2.1]; exact ht), ?_⟩
  rw [snpOf_eq_getD m t (by rw [hw.2.2.2.1]; exact ht)]

/-- No two records of the COO list that `set_ld_r2_csr` sorts have the same (snp, tag)
pair, when no two triplets are on the same unordered pair of snps. -/
theorem records_keys_distinct {m : TagToSnpMapping} (hw : m.WellFormed) (r2_min : Flt)
    (batch : List (Int × Int × Flt))
    (hacc : ∀ e ∈ batch, 0 ≤ e.1 ∧ e.1 < m.num_snp ∧ 0 ≤ e.2.1 ∧ e.2.1 < m.num_snp ∧
      e.1 ≠ e.2.1)
    (hpair : batch.Pairwise (fun e f =>
      ¬ ((e.1 = f.1 ∧ e.2.1 = f.2.1) ∨ (e.1 = f.2.1 ∧ e.2.1 = f.1)))) :
    (batch.flatMap (coo_records m r2_min) ++ diag_entries m).Pairwise
      (fun a b => ¬ (a.1 = b.1 ∧ a.2.1 = b.2.1)) := by
  -- a record of a triplet: its snp and the snp of its tag index are the two endpoints
  have hrec : ∀ t ∈ batch, ∀ e ∈ coo_records m r2_min t,
      ∃ x y, ((x = t.1 ∧ y = t.2.1) ∨ (x = t.2.1 ∧ y = t.1)) ∧ m.isTag y = true ∧
        e.1 = x ∧ e.2.1 = m.tagOf y := by
    intro t ht e he
    obtain ⟨u, hu, -, x, y, hxy, -, hy, rfl⟩ :=
      (@mem_records m r2_min [t] e).mp (by simpa using he)
    simp only [List.mem_singleton] at hu
    subst hu
    exact ⟨x, y, hxy, hy, rfl, rfl⟩
  rw [List.pairwise_append]
  refine ⟨?_, ?_, ?_⟩
  · rw [List.pairwise_flatMap]
    refine ⟨?_, ?_⟩
    · intro t ht
      have ha := hacc t ht
      unfold coo_records
      split
      · exact List.Pairwise.nil
      · split <;> split <;> simp
        intro h
        exact absurd h ha.2.2.2.2
    · refine hpair.imp_of_mem ?_
      intro t u ht hu htu a ha b hb hab
      obtain ⟨x, y, hxy, hy, hax, hay⟩ := hrec t ht a ha
      obtain ⟨x1, y1, hxy1, hy1, hbx, hby⟩ := hrec u hu b hb
      have hat := hacc t ht
      have hau := hacc u hu
      have hyy : y = y1 := by
        refine tagOf_injective hw ?_ ?_ ?_ ?_ hy hy1 (by rw [← hay, ← hby, hab.2])
        · rcases hxy with ⟨-, rfl⟩ | ⟨-, rfl⟩ <;> omega
        · rcases hxy with ⟨-, rfl⟩ | ⟨-, rfl⟩ <;> omega
        · rcases hxy1 with ⟨-, rfl⟩ | ⟨-, rfl⟩ <;> omega
        · rcases hxy1 with ⟨-, rfl⟩ | ⟨-, rfl⟩ <;> omega
      have hxx : x = x1 := by rw [← hax, ← hbx, hab.1]
      apply htu
      rcases hxy with ⟨h1, h2⟩ | ⟨h1, h2⟩ <;> rcases hxy1 with ⟨h3, h4⟩ | ⟨h3, h4⟩
      · left; exact ⟨by omega, by omega⟩
      · right; exact ⟨by omega, by omega⟩
      · right; exact ⟨by omega, by omega⟩
      · left; exact ⟨by omega, by omega⟩
  · unfold diag_entries
    rw [List.pairwise_map]
    refine (List.pairwise_lt_range _).imp ?_
    intro a b hab h
    simp only at h
    omega
  · intro a ha b hb hab
    obtain ⟨t, ht, hat⟩ := List.mem_flatMap.mp ha
    obtain ⟨x, y, hxy, hy, hax, hay⟩ := hrec t ht a hat
    obtain ⟨i, hi, rfl, -⟩ := mem_diag_entries hw hb
    have hacc1 := hacc t ht
    have hy0 : 0 ≤ y ∧ y < m.num_snp := by
      rcases hxy with ⟨-, rfl⟩ | ⟨-, rfl⟩ <;> omega
    have hsp := (TagToSnpMapping.tagOf_spec hw hy0.1 hy0.2 hy).2.2
    have h1 : m.tagOf y = (i : Int) := by rw [← hay]; exact hab.2
    have h2 : x = m.snpOf i := by rw [← hax]; exact hab.1
    rw [h1] at hsp
    rcases hxy with ⟨rfl, rfl⟩ | ⟨rfl, rfl⟩ <;> omega

end LdMatrixCsr

namespace Flt

theorem not_lt_of_le {a b : Flt} (h : le a b = true) : lt b a = false := by
  cases a <;> cases b <;> simp_all [lt, le]

end Flt

namespace LdMatrixCsr

/-- Ingestion of an accepted batch into a fresh object, then steps 1-3 of
`set_ld_r2_csr`: both return normally when the ingestion has given a record, and the CSR
arrays are the compaction of the sorted list of the records of the batch and the
diagonal records. -/
theorem ingest_then_build {m : TagToSnpMapping} (hw : m.WellFormed) (r2_min : Flt)
    (batch : List (Int × Int × Flt))
    (hacc : ∀ e ∈ batch, 0 ≤ e.1 ∧ e.1 < m.num_snp ∧ 0 ≤ e.2.1 ∧ e.2.1 < m.num_snp ∧
      e.1 ≠ e.2.1 ∧ e.2.2.isfinite = true)
    (hyield : (set_ld_r2_coo m batch r2_min LdMatrixCsr.empty).1.combined_.coo_ld_ ≠ []) :
    ∃ s1 sb, set_ld_r2_coo m batch r2_min LdMatrixCsr.empty = (s1, Outcome.ok) ∧
      s1.combined_.coo_ld_ = batch.flatMap (coo_records m r2_min) ∧
      build_csr m s1 = (sb, Outcome.ok) ∧
      sb.combined_.csr_ld_snp_index_ = (List.range (m.num_snp + 1)).map
        (fun i : Nat => first_ge i 0
          (sort_coo (batch.flatMap (coo_records m r2_min) ++ diag_entries m))) ∧
      sb.combined_.csr_ld_tag_index_ =
        (sort_coo (batch.flatMap (coo_records m r2_min) ++ diag_entries m)).map
          (fun e => e.2.1) ∧
      sb.combined_.csr_ld_r2_ =
        (sort_coo (batch.flatMap (coo_records m r2_min) ++ diag_entries m)).map
          (fun e => e.2.2) ∧
      ∀ e ∈ sort_coo (batch.flatMap (coo_records m r2_min) ++ diag_entries m),
        0 ≤ e.1 ∧ e.1 < m.num_snp := by
  have hm : m.mafvec ≠ [] := by
    intro hnil
    obtain ⟨w, hw1⟩ := set_ld_r2_coo_no_mafvec m batch r2_min LdMatrixCsr.empty hnil
    rw [hw1] at hyield
    exact hyield rfl
  obtain ⟨s1, hs1, hcomb1, hg1⟩ := ingest_batches hw hm r2_min [batch]
    (fun b hb e he => by
      simp only [List.mem_singleton] at hb
      subst hb
      exact hacc e he)
  rw [forEach_cons] at hs1
  obtain ⟨sm, hsm, hrest⟩ := seq_eq_ok hs1
  rw [forEach_nil] at hrest
  simp only [Prod.mk.injEq, and_true] at hrest
  subst hrest
  have hcoo : sm.combined_.coo_ld_ = batch.flatMap (coo_records m r2_min) := by
    rw [hcomb1]
    simp
  rw [hsm] at hyield
  have hg : Good m sm := hg1.resolve_left hyield
  obtain ⟨sb, hb, hcomb, hall⟩ := build_csr_spec hw hm hg
    (by rw [hcomb1]; exact ⟨rfl, rfl⟩) hyield
    (by
      intro e he
      rw [hcoo] at he
      obtain ⟨t, ht, -, x, y, hxy, -, -, rfl⟩ := mem_records.mp he
      have := hacc t ht
      rcases hxy with ⟨rfl, -⟩ | ⟨rfl, -⟩ <;> exact ⟨by omega, by omega⟩)
  rw [hcoo] at hcomb hall
  exact ⟨sm, sb, hsm, hcoo, hb, by rw [hcomb], by rw [hcomb], by rw [hcomb], hall⟩

end LdMatrixCsr

/-- C21: for every well-formed mapping (`tag_to_snp` and `snp_to_tag` mutually inverse on
the tag variants) in which every tag variant is causal-eligible, every finite
`r2_min <= 1.0`, and every list of triplets with indices in `[0, num_snp)`, no self-pair,
no two triplets on the same unordered pair, and every r² finite and at most 1.0, whose
ingestion into a fresh object gives at least one COO record: `set_ld_r2_coo` returns
normally and `set_ld_r2_csr(r2_min)` then returns normally; the structure built passes
the six checks of the validation. -/
theorem C21_well_formed_input_finalizes (m : TagToSnpMapping) (hw : m.WellFormed)
    (hcausal : ∀ i : Nat, i < m.num_snp → m.isTag i = true → m.canBeCausal i = true)
    (r2_min : Flt) (hr : r2_min.isfinite = true ∧ Flt.le r2_min (Flt.fin 1) = true)
    (batch : List (Int × Int × Flt))
    (hacc : ∀ e ∈ batch, 0 ≤ e.1 ∧ e.1 < m.num_snp ∧ 0 ≤ e.2.1 ∧ e.2.1 < m.num_snp ∧
      e.1 ≠ e.2.1 ∧ e.2.2.isfinite = true ∧ Flt.le e.2.2 (Flt.fin 1) = true)
    (hpair : batch.Pairwise (fun e f =>
      ¬ ((e.1 = f.1 ∧ e.2.1 = f.2.1) ∨ (e.1 = f.2.1 ∧ e.2.1 = f.1))))
    (hyield : (LdMatrixCsr.set_ld_r2_coo m batch r2_min
      LdMatrixCsr.empty).1.combined_.coo_ld_ ≠ []) :
    ∃ s1 s2, LdMatrixCsr.set_ld_r2_coo m batch r2_min LdMatrixCsr.empty = (s1, Outcome.ok) ∧
      LdMatrixCsr.set_ld_r2_csr m r2_min s1 = (s2, Outcome.ok) ∧
      LdMatrixCsr.row_start_valid m s2.combined_ ∧
      LdMatrixCsr.columns_valid m s2.combined_ ∧
      LdMatrixCsr.values_valid r2_min s2.combined_ ∧
      LdMatrixCsr.rows_distinct m s2.combined_ ∧
      (∀ j : Nat, j < m.num_snp → LdMatrixCsr.row_passes m s2.combined_ j) := by
  obtain ⟨s1, sb, hs1, -, hb, h1, h2, h3, hsnp⟩ := LdMatrixCsr.ingest_then_build hw r2_min
    batch (fun e he => ⟨(hacc e he).1, (hacc e he).2.1, (hacc e he).2.2.1,
      (hacc e he).2.2.2.1, (hacc e he).2.2.2.2.1, (hacc e he).2.2.2.2.2.1⟩) hyield
  have hcausal1 : ∀ x : Int, 0 ≤ x → x < m.num_snp → m.isTag x = true →
      m.canBeCausal x = true := by
    intro x h0 h1 hx
    obtain ⟨k, rfl⟩ := Int.eq_ofNat_of_zero_le h0
    exact hcausal k (by omega) hx
  -- the records of the sorted list
  have hmem : ∀ e ∈ LdMatrixCsr.sort_coo
      (batch.flatMap (LdMatrixCsr.coo_records m r2_min) ++ LdMatrixCsr.diag_entries m),
      (∃ t ∈ batch, Flt.lt t.2.2 r2_min = false ∧
        ∃ x y, ((x = t.1 ∧ y = t.2.1) ∨ (x = t.2.1 ∧ y = t.1)) ∧
          m.canBeCausal x = true ∧ m.isTag y = true ∧ e = (x, m.tagOf y, t.2.2)) ∨
      (∃ i : Nat, i < m.num_tag ∧ e = (m.snpOf i, (i : Int), Flt.fin 1)) := by
    intro e he
    rcases List.mem_append.mp (LdMatrixCsr.mem_sort_coo.mp he) with h | h
    · exact Or.inl (LdMatrixCsr.mem_records.mp h)
    · obtain ⟨i, hi, hei, -⟩ := LdMatrixCsr.mem_diag_entries hw h
      exact Or.inr ⟨i, hi, hei⟩
  have hrange : ∀ t ∈ batch, ∀ x y, ((x = t.1 ∧ y = t.2.1) ∨ (x = t.2.1 ∧ y = t.1)) →
      0 ≤ x ∧ x < m.num_snp ∧ 0 ≤ y ∧ y < m.num_snp := by
    intro t ht x y hxy
    have := hacc t ht
    rcases hxy with ⟨rfl, rfl⟩ | ⟨rfl, rfl⟩ <;> exact ⟨by omega, by omega, by omega, by omega⟩
  have hfinal := LdMatrixCsr.compacted_valid hw r2_min _ (LdMatrixCsr.release_coo sb).1
    (LdMatrixCsr.sort_coo_key_sorted _) h1 h2 h3 hsnp ?_ ?_ ?_ ?_ ?_
  · refine ⟨s1, (LdMatrixCsr.release_coo sb).1, hs1, ?_, hfinal.1, hfinal.2.1, hfinal.2.2.1,
      hfinal.2.2.2.1, hfinal.2.2.2.2.1⟩
    rw [LdMatrixCsr.set_ld_r2_csr_of_build r2_min hb, hfinal.2.2.2.2.2]
  · -- tag indices in range
    intro e he
    rcases hmem e he with ⟨t, ht, -, x, y, hxy, -, hy, rfl⟩ | ⟨i, hi, rfl⟩
    · have hr1 := hrange t ht x y hxy
      have := TagToSnpMapping.tagOf_spec hw hr1.2.2.1 hr1.2.2.2 hy
      exact ⟨this.1, this.2.1⟩
    · exact ⟨by simp, by simpa using hi⟩
  · -- values in range
    intro e he
    rcases hmem e he with ⟨t, ht, hlt, x, y, -, -, -, rfl⟩ | ⟨i, hi, rfl⟩
    · exact ⟨(hacc t ht).2.2.2.2.2.1, hlt, Flt.not_lt_of_le (hacc t ht).2.2.2.2.2.2⟩
    · exact ⟨rfl, Flt.not_lt_of_le hr.2, Flt.lt_irrefl _⟩
  · -- no two records with the same key
    refine List.Perm.pairwise (LdMatrixCsr.sort_coo_perm _).symm
      (LdMatrixCsr.records_keys_distinct hw r2_min batch
        (fun e he => ⟨(hacc e he).1, (hacc e he).2.1, (hacc e he).2.2.1,
          (hacc e he).2.2.2.1, (hacc e he).2.2.2.2.1⟩) hpair) ?_
    intro a b hab h
    exact hab ⟨h.1.symm, h.2.symm⟩
  · -- every record in the row of a tag variant has its mirror record
    intro e he htag
    apply LdMatrixCsr.mem_sort_coo.mpr
    rcases hmem e he with ⟨t, ht, hlt, x, y, hxy, hc, hy, rfl⟩ | ⟨i, hi, rfl⟩
    · have hr1 := hrange t ht x y hxy
      have hsp := (TagToSnpMapping.tagOf_spec hw hr1.2.2.1 hr1.2.2.2 hy).2.2
      simp only at htag ⊢
      rw [hsp]
      refine List.mem_append_left _ (LdMatrixCsr.mem_records.mpr
        ⟨t, ht, hlt, y, x, ?_, hcausal1 y hr1.2.2.1 hr1.2.2.2 hy, htag, rfl⟩)
      rcases hxy with h | h
      · exact Or.inr ⟨h.2, h.1⟩
      · exact Or.inl ⟨h.2, h.1⟩
    · have hsp := TagToSnpMapping.snpOf_spec hw (by omega : (0 : Int) ≤ (i : Int))
        (by omega : (i : Int) < m.num_tag)
      simp only
      rw [hsp.2.2.2]
      exact List.mem_append_right _ (LdMatrixCsr.diag_mem hw hi)
  · -- every tag variant has its diagonal record
    intro j hj htag
    have hsp := TagToSnpMapping.tagOf_spec hw (by omega : (0 : Int) ≤ (j : Int))
      (by omega : (j : Int) < m.num_snp) htag
    obtain ⟨i, hi⟩ := Int.eq_ofNat_of_zero_le hsp.1
    refine ⟨Flt.fin 1, LdMatrixCsr.mem_sort_coo.mpr (List.mem_append_right _ ?_)⟩
    have := LdMatrixCsr.diag_mem hw (t := i) (by omega)
    rw [← hi, hsp.2.2] at this
    exact this

theorem C21_well_formed_input_finalizes_witness :
    Scenario.mapping.WellFormed ∧
    (∀ i : Nat, i < Scenario.mapping.num_snp → Scenario.mapping.isTag i = true →
      Scenario.mapping.canBeCausal i = true) ∧
    ((Flt.fin (1 / 10)).isfinite = true ∧ Flt.le (Flt.fin (1 / 10)) (Flt.fin 1) = true) ∧
    (LdMatrixCsr.set_ld_r2_coo Scenario.mapping
      [(0, 2, Flt.fin (1 / 2)), (1, 2, Flt.fin (3 / 10)), (0, 1, Flt.fin (1 / 20))]
      (Flt.fin (1 / 10)) LdMatrixCsr.empty).1.combined_.coo_ld_ =
        [(0, 1, Flt.fin (1 / 2)), (2, 0, Flt.fin (1 / 2)), (1, 1, Flt.fin (3 / 10))] ∧
    ∃ s1 s2,
      LdMatrixCsr.set_ld_r2_coo Scenario.mapping
        [(0, 2, Flt.fin (1 / 2)), (1, 2, Flt.fin (3 / 10)), (0, 1, Flt.fin (1 / 20))]
        (Flt.fin (1 / 10)) LdMatrixCsr.empty = (s1, Outcome.ok) ∧
      LdMatrixCsr.set_ld_r2_csr Scenario.mapping (Flt.fin (1 / 10)) s1 = (s2, Outcome.ok) ∧
      LdMatrixCsr.row_start_valid Scenario.mapping s2.combined_ ∧
      LdMatrixCsr.columns_valid Scenario.mapping s2.combined_ ∧
      LdMatrixCsr.values_valid (Flt.fin (1 / 10)) s2.combined_ ∧
      LdMatrixCsr.rows_distinct Scenario.mapping s2.combined_ ∧
      (∀ j : Nat, j < Scenario.mapping.num_snp →
        LdMatrixCsr.row_passes Scenario.mapping s2.combined_ j) :=
  ⟨Scenario.mapping_wf, by decide!, by decide!, by decide!,
    C21_well_formed_input_finalizes Scenario.mapping Scenario.mapping_wf (by decide!)
      (Flt.fin (1 / 10)) (by decide!)
      [(0, 2, Flt.fin (1 / 2)), (1, 2, Flt.fin (3 / 10)), (0, 1, Flt.fin (1 / 20))]
      (by decide!) (by decide!) (by decide!)⟩

/-! ### C22: the phases of an object exclude each other -/

namespace LdMatrixCsr

/-- What `set_ld_r2_csr` does to the CSR arrays of an object whose CSR arrays are empty
when it holds COO records: nothing, or it leaves as many tag indices as values and
`snp_to_tag.size() + 1` row starts (unless its behaviour is undefined). -/
theorem set_ld_r2_csr_arrays (m : TagToSnpMapping) (r2_min : Flt) (s : LdMatrixCsr)
    (hcsr : s.combined_.coo_ld_ ≠ [] → s.combined_.csr_ld_r2_ = [] ∧
      s.combined_.csr_ld_tag_index_ = [] ∧ s.combined_.csr_ld_snp_index_ = []) :
    (set_ld_r2_csr m r2_min s).2 = Outcome.undefined ∨
    ((set_ld_r2_csr m r2_min s).1.combined_.csr_ld_snp_index_ =
        s.combined_.csr_ld_snp_index_ ∧
      (set_ld_r2_csr m r2_min s).1.combined_.csr_ld_tag_index_ =
        s.combined_.csr_ld_tag_index_ ∧
      (set_ld_r2_csr m r2_min s).1.combined_.csr_ld_r2_ = s.combined_.csr_ld_r2_) ∨
    ((set_ld_r2_csr m r2_min s).1.combined_.csr_ld_tag_index_.length =
        (set_ld_r2_csr m r2_min s).1.combined_.csr_ld_r2_.length ∧
      (set_ld_r2_csr m r2_min s).1.combined_.csr_ld_snp_index_.length =
        m.snp_to_tag.length + 1) := by
  by_cases hne : s.combined_.coo_ld_ = []
  · right; left
    rw [set_ld_r2_csr_empty m r2_min hne]
    exact ⟨rfl, rfl, rfl⟩
  · rcases hb : build_csr m s with ⟨sb, eb⟩
    cases eb with
    | ok =>
      right; right
      obtain ⟨-, -, rs1, hfill, hcomb⟩ := build_csr_ok hb
      obtain ⟨h1, h2, h3⟩ := hcsr hne
      rw [set_ld_r2_csr_of_build r2_min hb]
      simp only [release_coo, hcomb, h1, h2, List.nil_append, List.length_map, true_and]
      rw [backfill_row_start_length, (fill_row_start_spec _ _ _ _ hfill).1, h3]
      simp [vec_resize]
    | undefined =>
      left
      unfold set_ld_r2_csr
      rw [seq_apply_err hb (by simp)]
    | runtime_error w =>
      right; left
      have hset : set_ld_r2_csr m r2_min s = (sb, Outcome.runtime_error w) := by
        unfold set_ld_r2_csr
        rw [seq_apply_err hb (by simp)]
      rw [hset]
      unfold build_csr at hb
      rw [seq_apply_ok (check_coo_not_empty_ok hne)] at hb
      have hext := inject_diagonal_extends m s
      rcases hinj : inject_diagonal m s with ⟨sa, ea⟩
      rw [hinj] at hext
      cases ea with
      | ok =>
        exfalso
        have hsort : sort_step sa =
            (({ sa with combined_ := { sa.combined_ with
                coo_ld_ := sort_coo sa.combined_.coo_ld_ } } : LdMatrixCsr), Outcome.ok) := rfl
        rw [seq_apply_ok hinj, seq_apply_ok hsort] at hb
        unfold compact at hb
        simp only at hb
        split at hb <;> simp at hb
      | runtime_error w1 =>
        rw [seq_apply_err hinj (by simp)] at hb
        simp only [Prod.mk.injEq] at hb
        rw [← hb.1]
        exact ⟨hext.2.1, hext.2.2.1, hext.2.2.2.1⟩
      | undefined =>
        rw [seq_apply_err hinj (by simp)] at hb
        simp at hb

/-- In a reachable object the three CSR arrays are empty, or there are as many tag
indices as values and `snp_to_tag.size() + 1` row starts. -/
theorem reachable_csr_shape {m : TagToSnpMapping} {s : LdMatrixCsr} (h : Reachable m s) :
    (s.combined_.csr_ld_snp_index_ = [] ∧ s.combined_.csr_ld_tag_index_ = [] ∧
      s.combined_.csr_ld_r2_ = []) ∨
    (s.combined_.csr_ld_tag_index_.length = s.combined_.csr_ld_r2_.length ∧
      s.combined_.csr_ld_snp_index_.length = m.snp_to_tag.length + 1) := by
  induction h with
  | empty => exact Or.inl ⟨rfl, rfl, rfl⟩
  | coo batch r2_min s hr _ ih =>
    rcases set_ld_r2_coo_cases m batch r2_min s with hsame | ⟨-, -, hext⟩
    · rw [hsame]; exact ih
    · have ha : (alloc_tag_sums m s).1.combined_ = s.combined_ :=
        (inv_alloc (reachable_inv hr)).2.2
      rw [hext.2.1, hext.2.2.1, hext.2.2.2.1, ha]
      exact ih
  | csr r2_min s hr hdef ih =>
    rcases set_ld_r2_csr_arrays m r2_min s (reachable_csr_empty hr) with
      hund | ⟨h1, h2, h3⟩ | hnew
    · exact absurd hund hdef
    · rw [h1, h2, h3]; exact ih
    · exact Or.inr hnew
  | clear s _ _ => exact Or.inl ⟨rfl, rfl, rfl⟩

end LdMatrixCsr

/-- C22: for a mapping whose `snp_to_tag` has one entry per snp, in every object reachable
from a fresh one by `set_ld_r2_coo`, `set_ld_r2_csr` and `clear` calls, whether they
return or throw, the COO list and the CSR value array are not both non-empty, and the
three CSR arrays are all empty or there are as many tag indices as values and
`num_snp + 1` row starts. -/
theorem C22_phase_exclusion (m : TagToSnpMapping)
    (hlen : m.snp_to_tag.length = m.num_snp) (s : LdMatrixCsr)
    (hr : LdMatrixCsr.Reachable m s) :
    ¬ (s.combined_.coo_ld_ ≠ [] ∧ s.combined_.csr_ld_r2_ ≠ []) ∧
    ((s.combined_.csr_ld_snp_index_ = [] ∧ s.combined_.csr_ld_tag_index_ = [] ∧
        s.combined_.csr_ld_r2_ = []) ∨
      (s.combined_.csr_ld_tag_index_.length = s.combined_.csr_ld_r2_.length ∧
        s.combined_.csr_ld_snp_index_.length = m.num_snp + 1)) := by
  refine ⟨fun h => h.2 ((LdMatrixCsr.reachable_inv hr).1 h.1), ?_⟩
  rw [← hlen]
  exact LdMatrixCsr.reachable_csr_shape hr

/-- The object that the failed finalization of the scenario leaves behind is reachable. -/
theorem Scenario.rejected_reachable :
    LdMatrixCsr.Reachable Scenario.mapping Scenario.rejected :=
  LdMatrixCsr.Reachable.csr (Flt.fin (6 / 10)) Scenario.ingested
    Scenario.ingested_reachable (by decide!)

theorem C22_phase_exclusion_witness :
    Scenario.mapping.snp_to_tag.length = Scenario.mapping.num_snp ∧
    LdMatrixCsr.Reachable Scenario.mapping Scenario.rejected ∧
    (LdMatrixCsr.set_ld_r2_csr Scenario.mapping (Flt.fin (6 / 10)) Scenario.ingested).2 =
      Outcome.runtime_error "csr_ld_tag_index_ < 0 || csr_ld_tag_index_ >= num_tag_" ∧
    (¬ (Scenario.rejected.combined_.coo_ld_ ≠ [] ∧
        Scenario.rejected.combined_.csr_ld_r2_ ≠ []) ∧
      ((Scenario.rejected.combined_.csr_ld_snp_index_ = [] ∧
          Scenario.rejected.combined_.csr_ld_tag_index_ = [] ∧
          Scenario.rejected.combined_.csr_ld_r2_ = []) ∨
        (Scenario.rejected.combined_.csr_ld_tag_index_.length =
            Scenario.rejected.combined_.csr_ld_r2_.length ∧
          Scenario.rejected.combined_.csr_ld_snp_index_.length =
            Scenario.mapping.num_snp + 1))) ∧
    Scenario.rejected.combined_.csr_ld_r2_ ≠ [] :=
  ⟨by decide, Scenario.rejected_reachable, by decide!,
    C22_phase_exclusion Scenario.mapping (by decide) Scenario.rejected
      Scenario.rejected_reachable,
    by decide!⟩

